import Mathlib

/-!
# apmen-hook: offer pipeline and dedupe set

A shallow embedding of `src/api/webhook.js`, `src/api/_errorLog.js`,
`src/api/success.js`, `src/imaplisten/dedup.js`, `src/imaplisten/config.js` and
`src/imaplisten/service.js`, followed by theorems about it.

Conventions of the embedding:

* a JavaScript string is the list of its characters (`Str`), `null` is `none`;
  where the code counts UTF-16 code units (`slice`), the string is the list of
  its code units (`Utf16`);
* `toLowerCase` follows the Unicode character database (version 15.0): the simple
  lower-case mappings, the one unconditional special mapping (U+0130) and the
  final sigma; the regex flag `i`, used without the flag `u` on patterns of ASCII
  characters, folds the ASCII letters;
* the HTML library (cheerio), the HTTP client (axios), the document store and
  the clock are parameters (`Env`): the code only sees their results;
* effects are explicit: every effectful function takes and returns a `World`,
  which records the calls made and the documents persisted;
* `console.log` lines are diagnostic and are left out.
-/

namespace ApmenHook

/-- A JavaScript string, as the list of its characters. -/
abbrev Str := List Char

/-! ## String and regex primitives -/

/-- The characters matched by the regex class `\s`, which are also the ones
`String.prototype.trim` strips (WhiteSpace and LineTerminator). -/
def isJsSpace (c : Char) : Bool :=
  let n := c.toNat
  n == 9 || n == 10 || n == 11 || n == 12 || n == 13 || n == 32 || n == 0xA0 ||
  n == 0x1680 || (decide (0x2000 ≤ n) && decide (n ≤ 0x200A)) || n == 0x2028 ||
  n == 0x2029 || n == 0x202F || n == 0x205F || n == 0x3000 || n == 0xFEFF

/-- The method `String.prototype.trim`. -/
def trim (s : Str) : Str :=
  (s.dropWhile isJsSpace).rdropWhile isJsSpace

/-- A run of the simple lower-case mappings of the Unicode character database,
as `(first, last, alt, target)`: the code points from `first` to `last`, every
second one when `alt` is set; `first` maps to `target`, and the distance is the
same along the run. -/
abbrev CaseRange := Nat × Nat × Bool × Nat

/-- The code point `n` belongs to the run. -/
def covers (r : CaseRange) (n : Nat) : Bool :=
  decide (r.1 ≤ n) && decide (n ≤ r.2.1) && (!r.2.2.1 || (n - r.1) % 2 == 0)

/-- The simple lower-case mappings of the Unicode character database (version
15.0) above U+007F, as runs. -/
def lowerRanges : List CaseRange :=
  [(0xC0, 0xD6, false, 0xE0), (0xD8, 0xDE, false, 0xF8), (0x100, 0x12E, true, 0x101),
   (0x130, 0x130, true, 0x69), (0x132, 0x136, true, 0x133), (0x139, 0x147, true, 0x13A),
   (0x14A, 0x176, true, 0x14B), (0x178, 0x178, true, 0xFF), (0x179, 0x17D, true, 0x17A),
   (0x181, 0x181, true, 0x253), (0x182, 0x184, true, 0x183), (0x186, 0x186, true, 0x254),
   (0x187, 0x187, true, 0x188), (0x189, 0x18A, false, 0x256), (0x18B, 0x18B, true, 0x18C),
   (0x18E, 0x18E, true, 0x1DD), (0x18F, 0x18F, true, 0x259), (0x190, 0x190, true, 0x25B),
   (0x191, 0x191, true, 0x192), (0x193, 0x193, true, 0x260), (0x194, 0x194, true, 0x263),
   (0x196, 0x196, true, 0x269), (0x197, 0x197, true, 0x268), (0x198, 0x198, true, 0x199),
   (0x19C, 0x19C, true, 0x26F), (0x19D, 0x19D, true, 0x272), (0x19F, 0x19F, true, 0x275),
   (0x1A0, 0x1A4, true, 0x1A1), (0x1A6, 0x1A6, true, 0x280), (0x1A7, 0x1A7, true, 0x1A8),
   (0x1A9, 0x1A9, true, 0x283), (0x1AC, 0x1AC, true, 0x1AD), (0x1AE, 0x1AE, true, 0x288),
   (0x1AF, 0x1AF, true, 0x1B0), (0x1B1, 0x1B2, false, 0x28A), (0x1B3, 0x1B5, true, 0x1B4),
   (0x1B7, 0x1B7, true, 0x292), (0x1B8, 0x1B8, true, 0x1B9), (0x1BC, 0x1BC, true, 0x1BD),
   (0x1C4, 0x1C4, true, 0x1C6), (0x1C5, 0x1C5, true, 0x1C6), (0x1C7, 0x1C7, true, 0x1C9),
   (0x1C8, 0x1C8, true, 0x1C9), (0x1CA, 0x1CA, true, 0x1CC), (0x1CB, 0x1DB, true, 0x1CC),
   (0x1DE, 0x1EE, true, 0x1DF), (0x1F1, 0x1F1, true, 0x1F3), (0x1F2, 0x1F4, true, 0x1F3),
   (0x1F6, 0x1F6, true, 0x195), (0x1F7, 0x1F7, true, 0x1BF), (0x1F8, 0x21E, true, 0x1F9),
   (0x220, 0x220, true, 0x19E), (0x222, 0x232, true, 0x223), (0x23A, 0x23A, true, 0x2C65),
   (0x23B, 0x23B, true, 0x23C), (0x23D, 0x23D, true, 0x19A), (0x23E, 0x23E, true, 0x2C66),
   (0x241, 0x241, true, 0x242), (0x243, 0x243, true, 0x180), (0x244, 0x244, true, 0x289),
   (0x245, 0x245, true, 0x28C), (0x246, 0x24E, true, 0x247), (0x370, 0x372, true, 0x371),
   (0x376, 0x376, true, 0x377), (0x37F, 0x37F, true, 0x3F3), (0x386, 0x386, true, 0x3AC),
   (0x388, 0x38A, false, 0x3AD), (0x38C, 0x38C, true, 0x3CC), (0x38E, 0x38F, false, 0x3CD),
   (0x391, 0x3A1, false, 0x3B1), (0x3A3, 0x3AB, false, 0x3C3), (0x3CF, 0x3CF, true, 0x3D7),
   (0x3D8, 0x3EE, true, 0x3D9), (0x3F4, 0x3F4, true, 0x3B8), (0x3F7, 0x3F7, true, 0x3F8),
   (0x3F9, 0x3F9, true, 0x3F2), (0x3FA, 0x3FA, true, 0x3FB), (0x3FD, 0x3FF, false, 0x37B),
   (0x400, 0x40F, false, 0x450), (0x410, 0x42F, false, 0x430), (0x460, 0x480, true, 0x461),
   (0x48A, 0x4BE, true, 0x48B), (0x4C0, 0x4C0, true, 0x4CF), (0x4C1, 0x4CD, true, 0x4C2),
   (0x4D0, 0x52E, true, 0x4D1), (0x531, 0x556, false, 0x561), (0x10A0, 0x10C5, false, 0x2D00),
   (0x10C7, 0x10C7, true, 0x2D27), (0x10CD, 0x10CD, true, 0x2D2D),
   (0x13A0, 0x13EF, false, 0xAB70), (0x13F0, 0x13F5, false, 0x13F8),
   (0x1C90, 0x1CBA, false, 0x10D0), (0x1CBD, 0x1CBF, false, 0x10FD),
   (0x1E00, 0x1E94, true, 0x1E01), (0x1E9E, 0x1E9E, true, 0xDF), (0x1EA0, 0x1EFE, true, 0x1EA1),
   (0x1F08, 0x1F0F, false, 0x1F00), (0x1F18, 0x1F1D, false, 0x1F10),
   (0x1F28, 0x1F2F, false, 0x1F20), (0x1F38, 0x1F3F, false, 0x1F30),
   (0x1F48, 0x1F4D, false, 0x1F40), (0x1F59, 0x1F5F, true, 0x1F51),
   (0x1F68, 0x1F6F, false, 0x1F60), (0x1F88, 0x1F8F, false, 0x1F80),
   (0x1F98, 0x1F9F, false, 0x1F90), (0x1FA8, 0x1FAF, false, 0x1FA0),
   (0x1FB8, 0x1FB9, false, 0x1FB0), (0x1FBA, 0x1FBB, false, 0x1F70),
   (0x1FBC, 0x1FBC, true, 0x1FB3), (0x1FC8, 0x1FCB, false, 0x1F72),
   (0x1FCC, 0x1FCC, true, 0x1FC3), (0x1FD8, 0x1FD9, false, 0x1FD0),
   (0x1FDA, 0x1FDB, false, 0x1F76), (0x1FE8, 0x1FE9, false, 0x1FE0),
   (0x1FEA, 0x1FEB, false, 0x1F7A), (0x1FEC, 0x1FEC, true, 0x1FE5),
   (0x1FF8, 0x1FF9, false, 0x1F78), (0x1FFA, 0x1FFB, false, 0x1F7C),
   (0x1FFC, 0x1FFC, true, 0x1FF3), (0x2126, 0x2126, true, 0x3C9), (0x212A, 0x212A, true, 0x6B),
   (0x212B, 0x212B, true, 0xE5), (0x2132, 0x2132, true, 0x214E), (0x2160, 0x216F, false, 0x2170),
   (0x2183, 0x2183, true, 0x2184), (0x24B6, 0x24CF, false, 0x24D0),
   (0x2C00, 0x2C2F, false, 0x2C30), (0x2C60, 0x2C60, true, 0x2C61), (0x2C62, 0x2C62, true, 0x26B),
   (0x2C63, 0x2C63, true, 0x1D7D), (0x2C64, 0x2C64, true, 0x27D), (0x2C67, 0x2C6B, true, 0x2C68),
   (0x2C6D, 0x2C6D, true, 0x251), (0x2C6E, 0x2C6E, true, 0x271), (0x2C6F, 0x2C6F, true, 0x250),
   (0x2C70, 0x2C70, true, 0x252), (0x2C72, 0x2C72, true, 0x2C73), (0x2C75, 0x2C75, true, 0x2C76),
   (0x2C7E, 0x2C7F, false, 0x23F), (0x2C80, 0x2CE2, true, 0x2C81), (0x2CEB, 0x2CED, true, 0x2CEC),
   (0x2CF2, 0x2CF2, true, 0x2CF3), (0xA640, 0xA66C, true, 0xA641), (0xA680, 0xA69A, true, 0xA681),
   (0xA722, 0xA72E, true, 0xA723), (0xA732, 0xA76E, true, 0xA733), (0xA779, 0xA77B, true, 0xA77A),
   (0xA77D, 0xA77D, true, 0x1D79), (0xA77E, 0xA786, true, 0xA77F), (0xA78B, 0xA78B, true, 0xA78C),
   (0xA78D, 0xA78D, true, 0x265), (0xA790, 0xA792, true, 0xA791), (0xA796, 0xA7A8, true, 0xA797),
   (0xA7AA, 0xA7AA, true, 0x266), (0xA7AB, 0xA7AB, true, 0x25C), (0xA7AC, 0xA7AC, true, 0x261),
   (0xA7AD, 0xA7AD, true, 0x26C), (0xA7AE, 0xA7AE, true, 0x26A), (0xA7B0, 0xA7B0, true, 0x29E),
   (0xA7B1, 0xA7B1, true, 0x287), (0xA7B2, 0xA7B2, true, 0x29D), (0xA7B3, 0xA7B3, true, 0xAB53),
   (0xA7B4, 0xA7C2, true, 0xA7B5), (0xA7C4, 0xA7C4, true, 0xA794), (0xA7C5, 0xA7C5, true, 0x282),
   (0xA7C6, 0xA7C6, true, 0x1D8E), (0xA7C7, 0xA7C9, true, 0xA7C8), (0xA7D0, 0xA7D0, true, 0xA7D1),
   (0xA7D6, 0xA7D8, true, 0xA7D7), (0xA7F5, 0xA7F5, true, 0xA7F6),
   (0xFF21, 0xFF3A, false, 0xFF41), (0x10400, 0x10427, false, 0x10428),
   (0x104B0, 0x104D3, false, 0x104D8), (0x10570, 0x1057A, false, 0x10597),
   (0x1057C, 0x1058A, false, 0x105A3), (0x1058C, 0x10592, false, 0x105B3),
   (0x10594, 0x10595, false, 0x105BB), (0x10C80, 0x10CB2, false, 0x10CC0),
   (0x118A0, 0x118BF, false, 0x118C0), (0x16E40, 0x16E5F, false, 0x16E60),
   (0x1E900, 0x1E921, false, 0x1E922)]

/-- The code points with the property `Cased` (Unicode 15.0), as ranges. -/
def casedRanges : List (Nat × Nat) :=
  [(0x41, 0x5A), (0x61, 0x7A), (0xAA, 0xAA), (0xB5, 0xB5), (0xBA, 0xBA), (0xC0, 0xD6),
   (0xD8, 0xF6), (0xF8, 0x1BA), (0x1BC, 0x1BF), (0x1C4, 0x293), (0x295, 0x2B8), (0x2C0, 0x2C1),
   (0x2E0, 0x2E4), (0x345, 0x345), (0x370, 0x373), (0x376, 0x377), (0x37A, 0x37D), (0x37F, 0x37F),
   (0x386, 0x386), (0x388, 0x38A), (0x38C, 0x38C), (0x38E, 0x3A1), (0x3A3, 0x3F5), (0x3F7, 0x481),
   (0x48A, 0x52F), (0x531, 0x556), (0x560, 0x588), (0x10A0, 0x10C5), (0x10C7, 0x10C7),
   (0x10CD, 0x10CD), (0x10D0, 0x10FA), (0x10FC, 0x10FF), (0x13A0, 0x13F5), (0x13F8, 0x13FD),
   (0x1C80, 0x1C88), (0x1C90, 0x1CBA), (0x1CBD, 0x1CBF), (0x1D00, 0x1DBF), (0x1E00, 0x1F15),
   (0x1F18, 0x1F1D), (0x1F20, 0x1F45), (0x1F48, 0x1F4D), (0x1F50, 0x1F57), (0x1F59, 0x1F59),
   (0x1F5B, 0x1F5B), (0x1F5D, 0x1F5D), (0x1F5F, 0x1F7D), (0x1F80, 0x1FB4), (0x1FB6, 0x1FBC),
   (0x1FBE, 0x1FBE), (0x1FC2, 0x1FC4), (0x1FC6, 0x1FCC), (0x1FD0, 0x1FD3), (0x1FD6, 0x1FDB),
   (0x1FE0, 0x1FEC), (0x1FF2, 0x1FF4), (0x1FF6, 0x1FFC), (0x2071, 0x2071), (0x207F, 0x207F),
   (0x2090, 0x209C), (0x2102, 0x2102), (0x2107, 0x2107), (0x210A, 0x2113), (0x2115, 0x2115),
   (0x2119, 0x211D), (0x2124, 0x2124), (0x2126, 0x2126), (0x2128, 0x2128), (0x212A, 0x212D),
   (0x212F, 0x2134), (0x2139, 0x2139), (0x213C, 0x213F), (0x2145, 0x2149), (0x214E, 0x214E),
   (0x2160, 0x217F), (0x2183, 0x2184), (0x24B6, 0x24E9), (0x2C00, 0x2CE4), (0x2CEB, 0x2CEE),
   (0x2CF2, 0x2CF3), (0x2D00, 0x2D25), (0x2D27, 0x2D27), (0x2D2D, 0x2D2D), (0xA640, 0xA66D),
   (0xA680, 0xA69D), (0xA722, 0xA787), (0xA78B, 0xA78E), (0xA790, 0xA7CA), (0xA7D0, 0xA7D1),
   (0xA7D3, 0xA7D3), (0xA7D5, 0xA7D9), (0xA7F2, 0xA7F6), (0xA7F8, 0xA7FA), (0xAB30, 0xAB5A),
   (0xAB5C, 0xAB69), (0xAB70, 0xABBF), (0xFB00, 0xFB06), (0xFB13, 0xFB17), (0xFF21, 0xFF3A),
   (0xFF41, 0xFF5A), (0x10400, 0x1044F), (0x104B0, 0x104D3), (0x104D8, 0x104FB),
   (0x10570, 0x1057A), (0x1057C, 0x1058A), (0x1058C, 0x10592), (0x10594, 0x10595),
   (0x10597, 0x105A1), (0x105A3, 0x105B1), (0x105B3, 0x105B9), (0x105BB, 0x105BC),
   (0x10780, 0x10780), (0x10783, 0x10785), (0x10787, 0x107B0), (0x107B2, 0x107BA),
   (0x10C80, 0x10CB2), (0x10CC0, 0x10CF2), (0x118A0, 0x118DF), (0x16E40, 0x16E7F),
   (0x1D400, 0x1D454), (0x1D456, 0x1D49C), (0x1D49E, 0x1D49F), (0x1D4A2, 0x1D4A2),
   (0x1D4A5, 0x1D4A6), (0x1D4A9, 0x1D4AC), (0x1D4AE, 0x1D4B9), (0x1D4BB, 0x1D4BB),
   (0x1D4BD, 0x1D4C3), (0x1D4C5, 0x1D505), (0x1D507, 0x1D50A), (0x1D50D, 0x1D514),
   (0x1D516, 0x1D51C), (0x1D51E, 0x1D539), (0x1D53B, 0x1D53E), (0x1D540, 0x1D544),
   (0x1D546, 0x1D546), (0x1D54A, 0x1D550), (0x1D552, 0x1D6A5), (0x1D6A8, 0x1D6C0),
   (0x1D6C2, 0x1D6DA), (0x1D6DC, 0x1D6FA), (0x1D6FC, 0x1D714), (0x1D716, 0x1D734),
   (0x1D736, 0x1D74E), (0x1D750, 0x1D76E), (0x1D770, 0x1D788), (0x1D78A, 0x1D7A8),
   (0x1D7AA, 0x1D7C2), (0x1D7C4, 0x1D7CB), (0x1DF00, 0x1DF09), (0x1DF0B, 0x1DF1E),
   (0x1DF25, 0x1DF2A), (0x1E030, 0x1E06D), (0x1E900, 0x1E943), (0x1F130, 0x1F149),
   (0x1F150, 0x1F169), (0x1F170, 0x1F189)]

/-- The code points with the property `Case_Ignorable` (Unicode 15.0), as ranges. -/
def caseIgnorableRanges : List (Nat × Nat) :=
  [(0x27, 0x27), (0x2E, 0x2E), (0x3A, 0x3A), (0x5E, 0x5E), (0x60, 0x60), (0xA8, 0xA8),
   (0xAD, 0xAD), (0xAF, 0xAF), (0xB4, 0xB4), (0xB7, 0xB8), (0x2B0, 0x36F), (0x374, 0x375),
   (0x37A, 0x37A), (0x384, 0x385), (0x387, 0x387), (0x483, 0x489), (0x559, 0x559), (0x55F, 0x55F),
   (0x591, 0x5BD), (0x5BF, 0x5BF), (0x5C1, 0x5C2), (0x5C4, 0x5C5), (0x5C7, 0x5C7), (0x5F4, 0x5F4),
   (0x600, 0x605), (0x610, 0x61A), (0x61C, 0x61C), (0x640, 0x640), (0x64B, 0x65F), (0x670, 0x670),
   (0x6D6, 0x6DD), (0x6DF, 0x6E8), (0x6EA, 0x6ED), (0x70F, 0x70F), (0x711, 0x711), (0x730, 0x74A),
   (0x7A6, 0x7B0), (0x7EB, 0x7F5), (0x7FA, 0x7FA), (0x7FD, 0x7FD), (0x816, 0x82D), (0x859, 0x85B),
   (0x888, 0x888), (0x890, 0x891), (0x898, 0x89F), (0x8C9, 0x902), (0x93A, 0x93A), (0x93C, 0x93C),
   (0x941, 0x948), (0x94D, 0x94D), (0x951, 0x957), (0x962, 0x963), (0x971, 0x971), (0x981, 0x981),
   (0x9BC, 0x9BC), (0x9C1, 0x9C4), (0x9CD, 0x9CD), (0x9E2, 0x9E3), (0x9FE, 0x9FE), (0xA01, 0xA02),
   (0xA3C, 0xA3C), (0xA41, 0xA42), (0xA47, 0xA48), (0xA4B, 0xA4D), (0xA51, 0xA51), (0xA70, 0xA71),
   (0xA75, 0xA75), (0xA81, 0xA82), (0xABC, 0xABC), (0xAC1, 0xAC5), (0xAC7, 0xAC8), (0xACD, 0xACD),
   (0xAE2, 0xAE3), (0xAFA, 0xAFF), (0xB01, 0xB01), (0xB3C, 0xB3C), (0xB3F, 0xB3F), (0xB41, 0xB44),
   (0xB4D, 0xB4D), (0xB55, 0xB56), (0xB62, 0xB63), (0xB82, 0xB82), (0xBC0, 0xBC0), (0xBCD, 0xBCD),
   (0xC00, 0xC00), (0xC04, 0xC04), (0xC3C, 0xC3C), (0xC3E, 0xC40), (0xC46, 0xC48), (0xC4A, 0xC4D),
   (0xC55, 0xC56), (0xC62, 0xC63), (0xC81, 0xC81), (0xCBC, 0xCBC), (0xCBF, 0xCBF), (0xCC6, 0xCC6),
   (0xCCC, 0xCCD), (0xCE2, 0xCE3), (0xD00, 0xD01), (0xD3B, 0xD3C), (0xD41, 0xD44), (0xD4D, 0xD4D),
   (0xD62, 0xD63), (0xD81, 0xD81), (0xDCA, 0xDCA), (0xDD2, 0xDD4), (0xDD6, 0xDD6), (0xE31, 0xE31),
   (0xE34, 0xE3A), (0xE46, 0xE4E), (0xEB1, 0xEB1), (0xEB4, 0xEBC), (0xEC6, 0xEC6), (0xEC8, 0xECE),
   (0xF18, 0xF19), (0xF35, 0xF35), (0xF37, 0xF37), (0xF39, 0xF39), (0xF71, 0xF7E), (0xF80, 0xF84),
   (0xF86, 0xF87), (0xF8D, 0xF97), (0xF99, 0xFBC), (0xFC6, 0xFC6), (0x102D, 0x1030),
   (0x1032, 0x1037), (0x1039, 0x103A), (0x103D, 0x103E), (0x1058, 0x1059), (0x105E, 0x1060),
   (0x1071, 0x1074), (0x1082, 0x1082), (0x1085, 0x1086), (0x108D, 0x108D), (0x109D, 0x109D),
   (0x10FC, 0x10FC), (0x135D, 0x135F), (0x1712, 0x1714), (0x1732, 0x1733), (0x1752, 0x1753),
   (0x1772, 0x1773), (0x17B4, 0x17B5), (0x17B7, 0x17BD), (0x17C6, 0x17C6), (0x17C9, 0x17D3),
   (0x17D7, 0x17D7), (0x17DD, 0x17DD), (0x180B, 0x180F), (0x1843, 0x1843), (0x1885, 0x1886),
   (0x18A9, 0x18A9), (0x1920, 0x1922), (0x1927, 0x1928), (0x1932, 0x1932), (0x1939, 0x193B),
   (0x1A17, 0x1A18), (0x1A1B, 0x1A1B), (0x1A56, 0x1A56), (0x1A58, 0x1A5E), (0x1A60, 0x1A60),
   (0x1A62, 0x1A62), (0x1A65, 0x1A6C), (0x1A73, 0x1A7C), (0x1A7F, 0x1A7F), (0x1AA7, 0x1AA7),
   (0x1AB0, 0x1ACE), (0x1B00, 0x1B03), (0x1B34, 0x1B34), (0x1B36, 0x1B3A), (0x1B3C, 0x1B3C),
   (0x1B42, 0x1B42), (0x1B6B, 0x1B73), (0x1B80, 0x1B81), (0x1BA2, 0x1BA5), (0x1BA8, 0x1BA9),
   (0x1BAB, 0x1BAD), (0x1BE6, 0x1BE6), (0x1BE8, 0x1BE9), (0x1BED, 0x1BED), (0x1BEF, 0x1BF1),
   (0x1C2C, 0x1C33), (0x1C36, 0x1C37), (0x1C78, 0x1C7D), (0x1CD0, 0x1CD2), (0x1CD4, 0x1CE0),
   (0x1CE2, 0x1CE8), (0x1CED, 0x1CED), (0x1CF4, 0x1CF4), (0x1CF8, 0x1CF9), (0x1D2C, 0x1D6A),
   (0x1D78, 0x1D78), (0x1D9B, 0x1DFF), (0x1FBD, 0x1FBD), (0x1FBF, 0x1FC1), (0x1FCD, 0x1FCF),
   (0x1FDD, 0x1FDF), (0x1FED, 0x1FEF), (0x1FFD, 0x1FFE), (0x200B, 0x200F), (0x2018, 0x2019),
   (0x2024, 0x2024), (0x2027, 0x2027), (0x202A, 0x202E), (0x2060, 0x2064), (0x2066, 0x206F),
   (0x2071, 0x2071), (0x207F, 0x207F), (0x2090, 0x209C), (0x20D0, 0x20F0), (0x2C7C, 0x2C7D),
   (0x2CEF, 0x2CF1), (0x2D6F, 0x2D6F), (0x2D7F, 0x2D7F), (0x2DE0, 0x2DFF), (0x2E2F, 0x2E2F),
   (0x3005, 0x3005), (0x302A, 0x302D), (0x3031, 0x3035), (0x303B, 0x303B), (0x3099, 0x309E),
   (0x30FC, 0x30FE), (0xA015, 0xA015), (0xA4F8, 0xA4FD), (0xA60C, 0xA60C), (0xA66F, 0xA672),
   (0xA674, 0xA67D), (0xA67F, 0xA67F), (0xA69C, 0xA69F), (0xA6F0, 0xA6F1), (0xA700, 0xA721),
   (0xA770, 0xA770), (0xA788, 0xA78A), (0xA7F2, 0xA7F4), (0xA7F8, 0xA7F9), (0xA802, 0xA802),
   (0xA806, 0xA806), (0xA80B, 0xA80B), (0xA825, 0xA826), (0xA82C, 0xA82C), (0xA8C4, 0xA8C5),
   (0xA8E0, 0xA8F1), (0xA8FF, 0xA8FF), (0xA926, 0xA92D), (0xA947, 0xA951), (0xA980, 0xA982),
   (0xA9B3, 0xA9B3), (0xA9B6, 0xA9B9), (0xA9BC, 0xA9BD), (0xA9CF, 0xA9CF), (0xA9E5, 0xA9E6),
   (0xAA29, 0xAA2E), (0xAA31, 0xAA32), (0xAA35, 0xAA36), (0xAA43, 0xAA43), (0xAA4C, 0xAA4C),
   (0xAA70, 0xAA70), (0xAA7C, 0xAA7C), (0xAAB0, 0xAAB0), (0xAAB2, 0xAAB4), (0xAAB7, 0xAAB8),
   (0xAABE, 0xAABF), (0xAAC1, 0xAAC1), (0xAADD, 0xAADD), (0xAAEC, 0xAAED), (0xAAF3, 0xAAF4),
   (0xAAF6, 0xAAF6), (0xAB5B, 0xAB5F), (0xAB69, 0xAB6B), (0xABE5, 0xABE5), (0xABE8, 0xABE8),
   (0xABED, 0xABED), (0xFB1E, 0xFB1E), (0xFBB2, 0xFBC2), (0xFE00, 0xFE0F), (0xFE13, 0xFE13),
   (0xFE20, 0xFE2F), (0xFE52, 0xFE52), (0xFE55, 0xFE55), (0xFEFF, 0xFEFF), (0xFF07, 0xFF07),
   (0xFF0E, 0xFF0E), (0xFF1A, 0xFF1A), (0xFF3E, 0xFF3E), (0xFF40, 0xFF40), (0xFF70, 0xFF70),
   (0xFF9E, 0xFF9F), (0xFFE3, 0xFFE3), (0xFFF9, 0xFFFB), (0x101FD, 0x101FD), (0x102E0, 0x102E0),
   (0x10376, 0x1037A), (0x10780, 0x10785), (0x10787, 0x107B0), (0x107B2, 0x107BA),
   (0x10A01, 0x10A03), (0x10A05, 0x10A06), (0x10A0C, 0x10A0F), (0x10A38, 0x10A3A),
   (0x10A3F, 0x10A3F), (0x10AE5, 0x10AE6), (0x10D24, 0x10D27), (0x10EAB, 0x10EAC),
   (0x10EFD, 0x10EFF), (0x10F46, 0x10F50), (0x10F82, 0x10F85), (0x11001, 0x11001),
   (0x11038, 0x11046), (0x11070, 0x11070), (0x11073, 0x11074), (0x1107F, 0x11081),
   (0x110B3, 0x110B6), (0x110B9, 0x110BA), (0x110BD, 0x110BD), (0x110C2, 0x110C2),
   (0x110CD, 0x110CD), (0x11100, 0x11102), (0x11127, 0x1112B), (0x1112D, 0x11134),
   (0x11173, 0x11173), (0x11180, 0x11181), (0x111B6, 0x111BE), (0x111C9, 0x111CC),
   (0x111CF, 0x111CF), (0x1122F, 0x11231), (0x11234, 0x11234), (0x11236, 0x11237),
   (0x1123E, 0x1123E), (0x11241, 0x11241), (0x112DF, 0x112DF), (0x112E3, 0x112EA),
   (0x11300, 0x11301), (0x1133B, 0x1133C), (0x11340, 0x11340), (0x11366, 0x1136C),
   (0x11370, 0x11374), (0x11438, 0x1143F), (0x11442, 0x11444), (0x11446, 0x11446),
   (0x1145E, 0x1145E), (0x114B3, 0x114B8), (0x114BA, 0x114BA), (0x114BF, 0x114C0),
   (0x114C2, 0x114C3), (0x115B2, 0x115B5), (0x115BC, 0x115BD), (0x115BF, 0x115C0),
   (0x115DC, 0x115DD), (0x11633, 0x1163A), (0x1163D, 0x1163D), (0x1163F, 0x11640),
   (0x116AB, 0x116AB), (0x116AD, 0x116AD), (0x116B0, 0x116B5), (0x116B7, 0x116B7),
   (0x1171D, 0x1171F), (0x11722, 0x11725), (0x11727, 0x1172B), (0x1182F, 0x11837),
   (0x11839, 0x1183A), (0x1193B, 0x1193C), (0x1193E, 0x1193E), (0x11943, 0x11943),
   (0x119D4, 0x119D7), (0x119DA, 0x119DB), (0x119E0, 0x119E0), (0x11A01, 0x11A0A),
   (0x11A33, 0x11A38), (0x11A3B, 0x11A3E), (0x11A47, 0x11A47), (0x11A51, 0x11A56),
   (0x11A59, 0x11A5B), (0x11A8A, 0x11A96), (0x11A98, 0x11A99), (0x11C30, 0x11C36),
   (0x11C38, 0x11C3D), (0x11C3F, 0x11C3F), (0x11C92, 0x11CA7), (0x11CAA, 0x11CB0),
   (0x11CB2, 0x11CB3), (0x11CB5, 0x11CB6), (0x11D31, 0x11D36), (0x11D3A, 0x11D3A),
   (0x11D3C, 0x11D3D), (0x11D3F, 0x11D45), (0x11D47, 0x11D47), (0x11D90, 0x11D91),
   (0x11D95, 0x11D95), (0x11D97, 0x11D97), (0x11EF3, 0x11EF4), (0x11F00, 0x11F01),
   (0x11F36, 0x11F3A), (0x11F40, 0x11F40), (0x11F42, 0x11F42), (0x13430, 0x13440),
   (0x13447, 0x13455), (0x16AF0, 0x16AF4), (0x16B30, 0x16B36), (0x16B40, 0x16B43),
   (0x16F4F, 0x16F4F), (0x16F8F, 0x16F9F), (0x16FE0, 0x16FE1), (0x16FE3, 0x16FE4),
   (0x1AFF0, 0x1AFF3), (0x1AFF5, 0x1AFFB), (0x1AFFD, 0x1AFFE), (0x1BC9D, 0x1BC9E),
   (0x1BCA0, 0x1BCA3), (0x1CF00, 0x1CF2D), (0x1CF30, 0x1CF46), (0x1D167, 0x1D169),
   (0x1D173, 0x1D182), (0x1D185, 0x1D18B), (0x1D1AA, 0x1D1AD), (0x1D242, 0x1D244),
   (0x1DA00, 0x1DA36), (0x1DA3B, 0x1DA6C), (0x1DA75, 0x1DA75), (0x1DA84, 0x1DA84),
   (0x1DA9B, 0x1DA9F), (0x1DAA1, 0x1DAAF), (0x1E000, 0x1E006), (0x1E008, 0x1E018),
   (0x1E01B, 0x1E021), (0x1E023, 0x1E024), (0x1E026, 0x1E02A), (0x1E030, 0x1E06D),
   (0x1E08F, 0x1E08F), (0x1E130, 0x1E13D), (0x1E2AE, 0x1E2AE), (0x1E2EC, 0x1E2EF),
   (0x1E4EB, 0x1E4EF), (0x1E8D0, 0x1E8D6), (0x1E944, 0x1E94B), (0x1F3FB, 0x1F3FF),
   (0xE0001, 0xE0001), (0xE0020, 0xE007F), (0xE0100, 0xE01EF)]

/-- The code point is in one of the ranges of the table. -/
def inRanges (t : List (Nat × Nat)) (n : Nat) : Bool :=
  t.any (fun r => decide (r.1 ≤ n) && decide (n ≤ r.2))

/-- The simple lower-case mapping of a code point: the ASCII letters, then the table. -/
def lowerCode (n : Nat) : Nat :=
  if n < 0x80 then (if 0x41 ≤ n ∧ n ≤ 0x5A then n + 0x20 else n)
  else
    match lowerRanges.find? (fun r => covers r n) with
    | some r => r.2.2.2 + (n - r.1)
    | none => n

/-- The property `Cased` of a character. -/
def isCased (c : Char) : Bool :=
  inRanges casedRanges c.toNat

/-- The property `Case_Ignorable` of a character. -/
def isCaseIgnorable (c : Char) : Bool :=
  inRanges caseIgnorableRanges c.toNat

/-- Past the case-ignorable characters at the head of the input stands a cased letter. -/
def casedNext (s : Str) : Bool :=
  match s.dropWhile isCaseIgnorable with
  | c :: _ => isCased c
  | [] => false

/-- The condition `Final_Sigma` of the Unicode special casing: a cased letter
stands before the sigma and none after it, case-ignorable characters set aside.
The list `before` holds the characters before the sigma, nearest first. -/
def finalSigma (before after : Str) : Bool :=
  casedNext before && !casedNext after

/-- The lower case of one character in its context: U+0130 becomes `i` followed
by U+0307, the capital sigma becomes the final or the plain small sigma, and
every other character follows the simple mapping. -/
def lowerAt (before : Str) (c : Char) (after : Str) : Str :=
  if c.toNat = 0x130 then ['i', Char.ofNat 0x307]
  else if c.toNat = 0x3A3 then
    [if finalSigma before after then Char.ofNat 0x3C2 else Char.ofNat 0x3C3]
  else [Char.ofNat (lowerCode c.toNat)]

/-- Worker of `toLowerCase`; `before` holds the characters already passed, nearest first. -/
def lowerFrom : Str → Str → Str
  | _, [] => []
  | before, c :: rest => lowerAt before c rest ++ lowerFrom (c :: before) rest

/-- The method `String.prototype.toLowerCase`. -/
def toLowerCase (s : Str) : Str :=
  lowerFrom [] s

/-- A JavaScript string as `length` and `slice` see it: the sequence of its
UTF-16 code units. A cut inside a surrogate pair leaves half a pair, which no
list of characters holds. -/
abbrev Utf16 := List Nat

/-- The UTF-16 code units of a character: one in the basic plane, a surrogate
pair above it. -/
def charUnits (c : Char) : Utf16 :=
  if c.toNat < 0x10000 then [c.toNat]
  else [0xD800 + (c.toNat - 0x10000) / 0x400, 0xDC00 + (c.toNat - 0x10000) % 0x400]

/-- The UTF-16 code units of a string. -/
def codeUnits : Str → Utf16
  | [] => []
  | c :: s => charUnits c ++ codeUnits s

/-- The method `String.prototype.slice` for indices that are not negative. -/
def slice (s : Utf16) (start stop : Nat) : Utf16 :=
  (s.take stop).drop start

/-- The method `String.prototype.includes`: `w` occurs in `s` as a contiguous block. -/
def includes : Str → Str → Bool
  | [], w => w.isPrefixOf []
  | c :: s, w => w.isPrefixOf (c :: s) || includes s w

/-- Match the literal `pat` at the head of the input under the flag `i`;
the result is the input that follows the match. -/
def litI : Str → Str → Option Str
  | [], s => some s
  | _ :: _, [] => none
  | p :: ps, c :: s => if c.toLower == p.toLower then litI ps s else none

/-- The test `/pat/i.test(s)` for a literal pattern: a match at some position. -/
def searchI (pat : Str) : Str → Bool
  | [] => (litI pat []).isSome
  | c :: s => (litI pat (c :: s)).isSome || searchI pat s

/-- The test `/^pat/i.test(s)` for a literal pattern. -/
def startsWithI (pat s : Str) : Bool :=
  (litI pat s).isSome

/-- The call `s.replace(/^pat\s*/i, "")` for a literal pattern: the label and the
white space after it are removed when the label is there, else `s` is unchanged. -/
def stripLabel (pat s : Str) : Str :=
  match litI pat s with
  | some r => r.dropWhile isJsSpace
  | none => s

/-- A match of `/job\s+accepted\s*!?/i` starting at the head of the input. The
tail `\s*!?` of the pattern matches the empty string, so it never fails. -/
def jobAcceptedAt (s : Str) : Bool :=
  match litI "job".toList s with
  | some (c :: r) =>
    isJsSpace c && (litI "accepted".toList (r.dropWhile isJsSpace)).isSome
  | _ => false

/-- The test `/job\s+accepted\s*!?/i.test(s)`. -/
def isJobAcceptedTest : Str → Bool
  | [] => jobAcceptedAt []
  | c :: s => jobAcceptedAt (c :: s) || isJobAcceptedTest s

/-- Worker of `collapseSpaces`; the flag says that the previous character was white space. -/
def collapseAux : Bool → Str → Str
  | _, [] => []
  | inRun, c :: s =>
    if isJsSpace c then
      (if inRun then collapseAux true s else ' ' :: collapseAux true s)
    else c :: collapseAux false s

/-- The call `s.replace(/\s+/g, " ")`. -/
def collapseSpaces (s : Str) : Str :=
  collapseAux false s

/-- The operator `a || b` on strings: the empty string is falsy. -/
def orStr (a : Option Str) (b : Str) : Str :=
  match a with
  | some (c :: s) => c :: s
  | _ => b

/-- The operator `a || b` where both sides are a string or `null`. -/
def orNull (a b : Option Str) : Option Str :=
  match a with
  | some (c :: s) => some (c :: s)
  | _ => b

/-- JavaScript truthiness of a value that is a string or `null`. -/
def truthy (a : Option Str) : Bool :=
  match a with
  | some (_ :: _) => true
  | _ => false

/-! ## Outcome classification (`visitAcceptLink`, lines 142 to 159) -/

/-- The values the variable `outcome` of `visitAcceptLink` can hold; it starts as
`unknown`, which is also what `processWebhook` falls back on. -/
inductive Outcome where
  | unknown
  | accepted
  | already_taken
  | error
  deriving DecidableEq, Repr

/-- The flag `alreadyTaken` of `visitAcceptLink`. -/
def alreadyTakenFlag (bodyText : Str) : Bool :=
  let lowerText := toLowerCase bodyText
  includes lowerText "already".toList ||
  includes lowerText "taken".toList ||
  includes lowerText "expired".toList

/-- The classification of the claim page's body text in `visitAcceptLink`. -/
def classifyOutcome (bodyText : Str) : Outcome :=
  let isJobAccepted := isJobAcceptedTest bodyText
  let alreadyTaken := alreadyTakenFlag bodyText
  if isJobAccepted && !alreadyTaken then Outcome.accepted
  else if alreadyTaken then Outcome.already_taken
  else Outcome.error

/-! ## Field extraction (`parseEmailHtml`) -/

/-- The constant `ALLOWED_ZIP_CODES`. -/
def ALLOWED_ZIP_CODES : List Str :=
  ["60004", "60005", "60007", "60008", "60016", "60018", "60022", "60025", "60026",
   "60029", "60043", "60053", "60056", "60062", "60067", "60068", "60070", "60074",
   "60076", "60077", "60090", "60091", "60093", "60101", "60104", "60106", "60126",
   "60130", "60131", "60137", "60143", "60148", "60153", "60154", "60155", "60160",
   "60162", "60163", "60164", "60165", "60171", "60176", "60181", "60191", "60201",
   "60202", "60203", "60302", "60304", "60305", "60402", "60513", "60514", "60515",
   "60516", "60517", "60521", "60523", "60525", "60526", "60527", "60532", "60534",
   "60546", "60558", "60559", "60561", "60601", "60602", "60603", "60604", "60605",
   "60606", "60607", "60608", "60610", "60611", "60612", "60613", "60614", "60616",
   "60618", "60622", "60623", "60624", "60625", "60626", "60630", "60631", "60634",
   "60639", "60640", "60641", "60642", "60644", "60645", "60646", "60647", "60651",
   "60653", "60654", "60656", "60657", "60659", "60660", "60661", "60706", "60707",
   "60712", "60714", "60804"].map String.toList

/-- The constant `ACCEPT_JOB_BASE_URL`. -/
def ACCEPT_JOB_BASE_URL : Str :=
  "https://login.theappliancerepairmen.com/job/accept".toList

/-- The characters excluded by the class `[^/?#]`. -/
def isDelim (c : Char) : Bool :=
  c == '/' || c == '?' || c == '#'

/-- A match of `/\/(ey[^/?#]+)(?:[/?#]|$)/` starting at the head of the input;
the result is capture group 1. The class `[^/?#]+` is greedy; what follows the
longest run is a delimiter or the end of the input. -/
def tokenAt : Str → Option Str
  | '/' :: 'e' :: 'y' :: rest =>
    let run := rest.takeWhile (fun c => !isDelim c)
    let after := rest.dropWhile (fun c => !isDelim c)
    let closes := match after with
      | [] => true
      | c :: _ => isDelim c
    if !run.isEmpty && closes then some ('e' :: 'y' :: run) else none
  | _ => none

/-- The leftmost match of the token pattern in the input (`String.prototype.match`). -/
def matchToken : Str → Option Str
  | [] => none
  | c :: s =>
    match tokenAt (c :: s) with
    | some t => some t
    | none => matchToken s

/-- The function `extractTokenFromHref`. -/
def extractTokenFromHref (href : Option Str) : Option Str :=
  match href with
  | none => none
  | some [] => none
  | some (c :: s) =>
    let trimmed := trim (c :: s)
    matchToken trimmed

/-- The method `String.prototype.startsWith`. -/
def startsWith (s w : Str) : Bool :=
  w.isPrefixOf s

/-- The function `buildAcceptUrl`. -/
def buildAcceptUrl (token : Option Str) : Option Str :=
  match token with
  | none => none
  | some [] => none
  | some (c :: s) =>
    if !startsWith (c :: s) "ey".toList then none
    else some (ACCEPT_JOB_BASE_URL ++ "/".toList ++ (c :: s))

/-- The regex class `\w`. -/
def isWordChar (c : Char) : Bool :=
  c.isAlphanum || c == '_'

/-- A match of `/\b(\d{5})\b/` starting at the head of the input, given the
character before it (`none` at the start of the text). -/
def zipAt (prev : Option Char) : Str → Option Str
  | d1 :: d2 :: d3 :: d4 :: d5 :: rest =>
    let before := match prev with
      | none => true
      | some p => !isWordChar p
    let after := match rest with
      | [] => true
      | c :: _ => !isWordChar c
    if d1.isDigit && d2.isDigit && d3.isDigit && d4.isDigit && d5.isDigit && before && after
    then some [d1, d2, d3, d4, d5] else none
  | _ => none

/-- The leftmost match of `/\b(\d{5})\b/` (capture group 1 of `text.match`). -/
def zipSearch (prev : Option Char) : Str → Option Str
  | [] => none
  | c :: s =>
    match zipAt prev (c :: s) with
    | some z => some z
    | none => zipSearch (some c) s

/-- An `a` element as the code reads it: `$(el).text()` and `$(el).attr("href")`. -/
structure Anchor where
  text : Str
  href : Option Str
  deriving DecidableEq, Repr

/-- What the code reads from a document loaded by cheerio. -/
structure Cheerio where
  /-- The text of `$("title")`. -/
  title : Str → Str
  /-- The text of `$("body")`. -/
  body : Str → Str
  /-- The serialisation `$.html()`. -/
  html : Str → Str
  /-- The elements of `$("a")`, in document order. -/
  anchors : Str → List Anchor
  /-- The text of each element of `$("li")`, in document order. -/
  items : Str → List Str

/-- The variables `acceptHref` and `declineHref` of `parseEmailHtml`. -/
structure Hrefs where
  acceptHref : Option Str
  declineHref : Option Str
  deriving DecidableEq, Repr

/-- One turn of the callback of `$("a").each` in `parseEmailHtml`. -/
def linkStep (h : Hrefs) (el : Anchor) : Hrefs :=
  let text := trim el.text
  let href := orStr el.href []
  if searchI "accept".toList text then { h with acceptHref := some href }
  else if searchI "decline".toList text then { h with declineHref := some href }
  else h

/-- The loop `$("a").each` of `parseEmailHtml`. -/
def scanLinks (links : List Anchor) : Hrefs :=
  links.foldl linkStep { acceptHref := none, declineHref := none }

/-- The variable `acceptUrl` of `parseEmailHtml` once the links are scanned. -/
def chooseAcceptUrl (h : Hrefs) : Option Str :=
  let token := orNull (extractTokenFromHref h.acceptHref) (extractTokenFromHref h.declineHref)
  if truthy token then buildAcceptUrl token
  else if truthy h.acceptHref then h.acceptHref
  else none

/-- The variables `zipCode`, `jobAddress` and `appliances` of `parseEmailHtml`. -/
structure Fields where
  zipCode : Option Str
  jobAddress : Option Str
  appliances : List Str
  deriving DecidableEq, Repr

/-- One turn of the callback of `$("li").each` in `parseEmailHtml`. -/
def itemStep (f : Fields) (raw : Str) : Fields :=
  let text := trim raw
  let f1 :=
    if startsWithI "Address:".toList text then
      let jobAddress := orNull (some (trim (stripLabel "Address:".toList text))) none
      match zipSearch none text with
      | some z => { f with jobAddress := jobAddress, zipCode := some z }
      | none => { f with jobAddress := jobAddress }
    else f
  if startsWithI "Appliance:".toList text then
    let value := trim (stripLabel "Appliance:".toList text)
    if truthy (some value) then { f1 with appliances := f1.appliances ++ [value] } else f1
  else f1

/-- The loop `$("li").each` of `parseEmailHtml`. -/
def scanItems (items : List Str) : Fields :=
  items.foldl itemStep { zipCode := none, jobAddress := none, appliances := [] }

/-- The record returned by `parseEmailHtml`. -/
structure ParsedEmail where
  acceptUrl : Option Str
  zipCode : Option Str
  jobAddress : Option Str
  appliances : List Str
  deriving DecidableEq, Repr

/-- The function `parseEmailHtml`. -/
def parseEmailHtml (ch : Cheerio) (html : Str) : ParsedEmail :=
  let hrefs := scanLinks (ch.anchors html)
  let acceptUrl := chooseAcceptUrl hrefs
  let f := scanItems (ch.items html)
  { acceptUrl := acceptUrl, zipCode := f.zipCode, jobAddress := f.jobAddress,
    appliances := f.appliances }

/-! ## The audit log (`_errorLog.js`) and the claim executor (`visitAcceptLink`) -/

/-- A stored document: field names with their values, strings as code units
(`none` is `null`). -/
abbrev Doc := List (String × Option Utf16)

/-- The value of a field of a document, `none` when the document has no such field. -/
def Doc.field (d : Doc) (name : String) : Option (Option Utf16) :=
  d.lookup name

/-- The object handed to `logError` or `logSuccess`. A field the caller does not
pass is `none`; `jobAddress` is passed by every caller and may be `null`. The
fields `reason` and `bodyPreview` hold what `slice` has cut, as code units. -/
structure LogArgs where
  url : Str
  pageTitle : Str
  rawHtml : Option Str
  reason : Option Utf16
  bodyPreview : Option Utf16
  jobAddress : Option Str
  deriving DecidableEq, Repr

/-- A call that leaves the process or reaches the audit log. -/
inductive Call where
  | visitAcceptLink (url : Str) (jobAddress : Option Str)
  | axiosGet (url : Str)
  | logError (args : LogArgs)
  | logSuccess (args : LogArgs)
  deriving DecidableEq, Repr

/-- The observable state: the calls made so far and the `errorLogs` collection,
both oldest first. -/
structure World where
  calls : List Call
  errorLogs : List Doc
  deriving DecidableEq, Repr

/-- A thrown error: `error.message` and, for an HTTP error of axios,
`error.response.status` and `error.response.statusText`. -/
structure JsError where
  message : Str
  response : Option (Nat × Str)
  deriving DecidableEq, Repr

/-- The part of an axios response the code reads. -/
structure Response where
  status : Nat
  data : Str
  /-- The value of `response.request?.res?.responseUrl`. -/
  responseUrl : Option Str
  deriving DecidableEq, Repr

/-- The external collaborators. -/
structure Env where
  cheerio : Cheerio
  /-- The call `axios.get(url, ...)`: a response, or a thrown error. -/
  axiosGet : World → Str → Except JsError Response
  /-- The message of the error thrown by `getDb()` or `insertOne(doc)`, `none` when the insert succeeds. -/
  insertFails : World → Doc → Option Str
  /-- The value of `new Date().toISOString()`. -/
  now : World → Str

/-- The document `doc` that `logError` builds from its argument. -/
def errorDoc (timestamp : Str) (args : LogArgs) : Doc :=
  [("timestamp", some (codeUnits timestamp)),
   ("url", some (codeUnits args.url)),
   ("pageTitle", some (codeUnits args.pageTitle)),
   ("reason", args.reason),
   ("rawHtml", args.rawHtml.map codeUnits)]

/-- The function `logError` of `_errorLog.js`. The identifier returned is the
position of the document in the collection. -/
def logError (env : Env) (args : LogArgs) (w : World) : Except JsError Nat × World :=
  let w1 := { w with calls := w.calls ++ [Call.logError args] }
  let doc := errorDoc (env.now w) args
  match env.insertFails w doc with
  | some msg => (Except.error { message := msg, response := none }, w1)
  | none => (Except.ok w.errorLogs.length, { w1 with errorLogs := w1.errorLogs ++ [doc] })

/-- Modelled from the spec: the document of a success entry. Following
section 3 of the spec it has the fields `timestamp`, `type` (`"success"`), `url`,
`pageTitle`, `bodyPreview` and `jobAddress`, and neither `reason` nor `rawHtml`. -/
def successDoc (timestamp : Str) (args : LogArgs) : Doc :=
  [("timestamp", some (codeUnits timestamp)),
   ("type", some (codeUnits "success".toList)),
   ("url", some (codeUnits args.url)),
   ("pageTitle", some (codeUnits args.pageTitle)),
   ("bodyPreview", args.bodyPreview),
   ("jobAddress", args.jobAddress.map codeUnits)]

/-- Modelled from the spec: the function `logSuccess`, which `webhook.js` imports
from `_errorLog.js` and which is missing there. It inserts one success entry into
the store, which assigns its identity, and returns that identity. -/
def logSuccess (env : Env) (args : LogArgs) (w : World) : Except JsError Nat × World :=
  let w1 := { w with calls := w.calls ++ [Call.logSuccess args] }
  let doc := successDoc (env.now w) args
  match env.insertFails w doc with
  | some msg => (Except.error { message := msg, response := none }, w1)
  | none => (Except.ok w.errorLogs.length, { w1 with errorLogs := w1.errorLogs ++ [doc] })

/-- The record returned by `visitAcceptLink`; a field that a branch does not set is `none`. -/
structure AcceptResult where
  httpStatus : Option Nat
  url : Option Str
  pageTitle : Option Str
  outcome : Outcome
  bodyPreview : Option Utf16
  error : Option Str
  errorLogId : Option Nat
  successLogId : Option Nat
  deriving DecidableEq, Repr

/-- The decimal digits of a number, as a template literal prints it. -/
def numStr (n : Nat) : Str :=
  (Nat.repr n).toList

/-- The `reason` built in the `catch` block of `visitAcceptLink`. -/
def requestFailedReason (status : Option Nat) (statusText : Str) : Str :=
  "Request failed: ".toList ++
    (match status with
     | some n => numStr n
     | none => "network".toList) ++
    " — ".toList ++ statusText

/-- The `try` block of `visitAcceptLink`, entered with the world `w`. -/
def visitTry (env : Env) (url : Str) (jobAddress : Option Str) (w : World) :
    Except JsError AcceptResult × World :=
  let w1 := { w with calls := w.calls ++ [Call.axiosGet url] }
  match env.axiosGet w url with
  | Except.error e => (Except.error e, w1)
  | Except.ok response =>
    let pageUrl := orStr response.responseUrl url
    let pageTitle := trim (env.cheerio.title response.data)
    let bodyText := trim (collapseSpaces (env.cheerio.body response.data))
    let bodyPreview := slice (codeUnits bodyText) 0 500
    let outcome := classifyOutcome bodyText
    if outcome ≠ Outcome.accepted then
      let reason :=
        if outcome = Outcome.already_taken then codeUnits "Job already taken or expired".toList
        else codeUnits "Unexpected response: ".toList ++ slice bodyPreview 0 200
      match logError env
          { url := pageUrl, pageTitle := pageTitle,
            rawHtml := some (env.cheerio.html response.data), reason := some reason,
            bodyPreview := none, jobAddress := jobAddress } w1 with
      | (Except.error e, w2) => (Except.error e, w2)
      | (Except.ok errorId, w2) =>
        (Except.ok
          { httpStatus := some response.status, url := some pageUrl,
            pageTitle := some pageTitle, outcome := outcome,
            bodyPreview := some bodyPreview, error := none,
            errorLogId := some errorId, successLogId := none }, w2)
    else
      match logSuccess env
          { url := pageUrl, pageTitle := pageTitle, rawHtml := none, reason := none,
            bodyPreview := some bodyPreview, jobAddress := jobAddress } w1 with
      | (Except.error e, w2) => (Except.error e, w2)
      | (Except.ok successId, w2) =>
        (Except.ok
          { httpStatus := some response.status, url := some pageUrl,
            pageTitle := some pageTitle, outcome := Outcome.accepted,
            bodyPreview := some bodyPreview, error := none,
            errorLogId := none, successLogId := some successId }, w2)

/-- The `catch` block of `visitAcceptLink`, entered with the error caught. -/
def visitCatch (env : Env) (url : Str) (jobAddress : Option Str) (error : JsError)
    (w : World) : Except JsError AcceptResult × World :=
  let status : Option Nat :=
    match error.response with
    | some (n, _) => if n = 0 then none else some n
    | none => none
  let statusText : Str :=
    orStr (error.response.map (fun r => r.2)) error.message
  match logError env
      { url := url, pageTitle := [], rawHtml := some [],
        reason := some (codeUnits (requestFailedReason status statusText)),
        bodyPreview := none, jobAddress := jobAddress } w with
  | (Except.error e, w2) => (Except.error e, w2)
  | (Except.ok errorId, w2) =>
    (Except.ok
      { httpStatus := status, url := none, pageTitle := none, outcome := Outcome.error,
        bodyPreview := none, error := some statusText,
        errorLogId := some errorId, successLogId := none }, w2)

/-- The function `visitAcceptLink`: `Except.error` is an exception that leaves it. -/
def visitAcceptLink (env : Env) (url : Str) (jobAddress : Option Str) (w : World) :
    Except JsError AcceptResult × World :=
  let w0 := { w with calls := w.calls ++ [Call.visitAcceptLink url jobAddress] }
  match visitTry env url jobAddress w0 with
  | (Except.ok r, w1) => (Except.ok r, w1)
  | (Except.error error, w1) => visitCatch env url jobAddress error w1

/-! ## The offer pipeline (`processWebhook`) -/

/-- The fields of the payload that `processWebhook` reads; `none` is an absent field. -/
structure Body where
  subject : Option Str
  Subject : Option Str
  html : Option Str
  HtmlBody : Option Str
  deriving DecidableEq, Repr

/-- The `data` object of the value returned by `processWebhook`; a field that a
branch does not set is `none`. The fields `allowedZipCodes` (a constant) and
`receivedAt` (a time stamp) are left out. -/
structure WebhookData where
  status : String
  reason : Option String
  message : Option String
  detail : Option Str
  subject : Option Str
  zipCode : Option (Option Str)
  jobAddress : Option (Option Str)
  appliances : Option (List Str)
  acceptUrl : Option Str
  acceptResult : Option AcceptResult
  deriving DecidableEq, Repr

/-- The value returned by `processWebhook`. -/
structure WebhookResponse where
  statusCode : Nat
  data : WebhookData
  deriving DecidableEq, Repr

/-- The eligibility test of `processWebhook`: the negation of
`!zipCode || !ALLOWED_ZIP_CODES.includes(zipCode)`. -/
def zipAllowed (zipCode : Option Str) : Bool :=
  truthy zipCode && (match zipCode with
    | some z => ALLOWED_ZIP_CODES.contains z
    | none => false)

/-- The function `processWebhook`. -/
def processWebhook (env : Env) (body : Body) (w : World) : WebhookResponse × World :=
  let subject := orStr body.subject (orStr body.Subject [])
  let html := orStr body.html (orStr body.HtmlBody [])
  if html.isEmpty then
    ({ statusCode := 400,
       data := { status := "error", reason := none,
                 message := some "No HTML body found in the payload", detail := none,
                 subject := none, zipCode := none, jobAddress := none, appliances := none,
                 acceptUrl := none, acceptResult := none } }, w)
  else
    let parsed := parseEmailHtml env.cheerio html
    if !truthy parsed.acceptUrl then
      ({ statusCode := 200,
         data := { status := "skipped",
                   reason := some "No Accept Job link found in the email",
                   message := none, detail := none, subject := some subject,
                   zipCode := none, jobAddress := none, appliances := none,
                   acceptUrl := none, acceptResult := none } }, w)
    else if !zipAllowed parsed.zipCode then
      ({ statusCode := 200,
         data := { status := "skipped", reason := some "Zip code not in allowed list",
                   message := none, detail := none, subject := some subject,
                   zipCode := some parsed.zipCode, jobAddress := none,
                   appliances := some parsed.appliances,
                   acceptUrl := none, acceptResult := none } }, w)
    else
      match visitAcceptLink env (orStr parsed.acceptUrl []) parsed.jobAddress w with
      | (Except.ok acceptResult, w1) =>
        let finalOutcome := acceptResult.outcome
        ({ statusCode := 200,
           data := { status := if finalOutcome = Outcome.accepted then "accepted" else "completed",
                     reason := none, message := none, detail := none,
                     subject := some subject, zipCode := some parsed.zipCode,
                     jobAddress := some parsed.jobAddress,
                     appliances := some parsed.appliances,
                     acceptUrl := parsed.acceptUrl,
                     acceptResult := some acceptResult } }, w1)
      | (Except.error error, w1) =>
        ({ statusCode := 500,
           data := { status := "error", reason := none,
                     message := some "Internal server error",
                     detail := some error.message, subject := none, zipCode := none,
                     jobAddress := none, appliances := none, acceptUrl := none,
                     acceptResult := none } }, w1)

/-! ## The dedupe set (`dedup.js`) -/

/-- The class `SeenSet`. The JavaScript `Set` in `ids` is the list of its
members in insertion order. -/
structure SeenSet (α : Type) where
  maxSize : Int
  ids : List α
  order : List α
  deriving DecidableEq, Repr

section SeenSetOps

variable {α : Type} [DecidableEq α]

/-- The constructor of `SeenSet`. -/
def SeenSet.new (maxSize : Int) : SeenSet α :=
  { maxSize := maxSize, ids := [], order := [] }

/-- The method `Set.prototype.add`. -/
def setAdd (ids : List α) (id : α) : List α :=
  if ids.contains id then ids else ids ++ [id]

/-- The method `Set.prototype.delete`, given what `Array.prototype.shift`
returned: `none` stands for `undefined`, which is no member. -/
def setDelete (ids : List α) (oldest : Option α) : List α :=
  match oldest with
  | some x => ids.erase x
  | none => ids

/-- The method `has`. -/
def SeenSet.has (s : SeenSet α) (id : α) : Bool :=
  s.ids.contains id

/-- The identifier that `add(id)` evicts, if it evicts one. -/
def SeenSet.evicts (s : SeenSet α) (id : α) : Option α :=
  if s.ids.contains id then none
  else if (s.order.length : Int) ≥ s.maxSize then s.order.head?
  else none

/-- The method `add`. -/
def SeenSet.add (s : SeenSet α) (id : α) : SeenSet α :=
  if s.ids.contains id then s
  else
    let s1 :=
      if (s.order.length : Int) ≥ s.maxSize then
        let oldest := s.order.head?
        { s with order := s.order.tail, ids := setDelete s.ids oldest }
      else s
    { s1 with ids := setAdd s1.ids id, order := s1.order ++ [id] }

/-- The getter `size`. -/
def SeenSet.size (s : SeenSet α) : Nat :=
  s.ids.length

/-- Successive calls of `add`, one for each identifier of the list. -/
def SeenSet.addAll (s : SeenSet α) (xs : List α) : SeenSet α :=
  xs.foldl SeenSet.add s

/-- The identifiers evicted by successive calls of `add`, in the order of eviction. -/
def SeenSet.evictedBy : SeenSet α → List α → List α
  | _, [] => []
  | s, x :: xs => (s.evicts x).toList ++ SeenSet.evictedBy (s.add x) xs

end SeenSetOps

/-! ## The confirmation email (`success.js`) -/

/-- A `li` element as `parseSuccessEmail` reads it: `$(el).text()` and
`$(el).find("b").first().text()`, which is empty when the item has no `b` element. -/
structure BoldItem where
  text : Str
  bold : Str
  deriving DecidableEq, Repr

/-- What `parseSuccessEmail` reads from a document loaded by cheerio. -/
structure SuccessCheerio where
  /-- The text of `$("h2").first()`, empty when there is no `h2` element. -/
  h2 : Str → Str
  /-- The elements of `$("li")`, in document order. -/
  items : Str → List BoldItem

/-- The values of the table `labelToKey`: the fields of `info` that a list item can set. -/
inductive InfoKey where
  | address
  | roadDistance
  | referenceNo
  | appointmentDate
  | modeOfPayment
  | service
  | appliance
  | brand
  | model
  | symptom
  | problemDetail
  | serviceFee
  | jobType
  | dispatchTeam
  deriving DecidableEq, Repr

/-- The object `info` of `parseSuccessEmail`. -/
structure JobInfo where
  assignedTo : Option Str
  address : Option Str
  roadDistance : Option Str
  referenceNo : Option Str
  appointmentDate : Option Str
  modeOfPayment : Option Str
  service : Option Str
  appliance : Option Str
  brand : Option Str
  model : Option Str
  symptom : Option Str
  problemDetail : Option Str
  serviceFee : Option Str
  jobType : Option Str
  dispatchTeam : Option Str
  deriving DecidableEq, Repr

/-- The initial value of `info`: every field is `null`. -/
def JobInfo.initial : JobInfo :=
  { assignedTo := none, address := none, roadDistance := none, referenceNo := none,
    appointmentDate := none, modeOfPayment := none, service := none, appliance := none,
    brand := none, model := none, symptom := none, problemDetail := none,
    serviceFee := none, jobType := none, dispatchTeam := none }

/-- The read `info[key]`. -/
def JobInfo.get (info : JobInfo) : InfoKey → Option Str
  | InfoKey.address => info.address
  | InfoKey.roadDistance => info.roadDistance
  | InfoKey.referenceNo => info.referenceNo
  | InfoKey.appointmentDate => info.appointmentDate
  | InfoKey.modeOfPayment => info.modeOfPayment
  | InfoKey.service => info.service
  | InfoKey.appliance => info.appliance
  | InfoKey.brand => info.brand
  | InfoKey.model => info.model
  | InfoKey.symptom => info.symptom
  | InfoKey.problemDetail => info.problemDetail
  | InfoKey.serviceFee => info.serviceFee
  | InfoKey.jobType => info.jobType
  | InfoKey.dispatchTeam => info.dispatchTeam

/-- The assignment `info[key] = v`. -/
def JobInfo.set (info : JobInfo) (key : InfoKey) (v : Option Str) : JobInfo :=
  match key with
  | InfoKey.address => { info with address := v }
  | InfoKey.roadDistance => { info with roadDistance := v }
  | InfoKey.referenceNo => { info with referenceNo := v }
  | InfoKey.appointmentDate => { info with appointmentDate := v }
  | InfoKey.modeOfPayment => { info with modeOfPayment := v }
  | InfoKey.service => { info with service := v }
  | InfoKey.appliance => { info with appliance := v }
  | InfoKey.brand => { info with brand := v }
  | InfoKey.model => { info with model := v }
  | InfoKey.symptom => { info with symptom := v }
  | InfoKey.problemDetail => { info with problemDetail := v }
  | InfoKey.serviceFee => { info with serviceFee := v }
  | InfoKey.jobType => { info with jobType := v }
  | InfoKey.dispatchTeam => { info with dispatchTeam := v }

/-- The table `labelToKey`. -/
def labelToKey : List (Str × InfoKey) :=
  [("Address".toList, InfoKey.address),
   ("Road Distance".toList, InfoKey.roadDistance),
   ("Reference No".toList, InfoKey.referenceNo),
   ("Reference No.".toList, InfoKey.referenceNo),
   ("Appointment Date".toList, InfoKey.appointmentDate),
   ("Mode of Payment".toList, InfoKey.modeOfPayment),
   ("Service".toList, InfoKey.service),
   ("Appliance".toList, InfoKey.appliance),
   ("Brand".toList, InfoKey.brand),
   ("Model".toList, InfoKey.model),
   ("Symptom".toList, InfoKey.symptom),
   ("Problem Detail".toList, InfoKey.problemDetail),
   ("Problem Details".toList, InfoKey.problemDetail),
   ("Service Fee".toList, InfoKey.serviceFee),
   ("Job Type".toList, InfoKey.jobType),
   ("Dispatch Team".toList, InfoKey.dispatchTeam)]

/-- The read `labelToKey[label]`, as far as it yields a field of `info`. A label
found on the prototype of the table (such as `constructor`) yields a value that
is no field of `info`; the guard `info[key] === undefined` then leaves the item
without effect, as for a label that is not found. -/
def lookupLabel (label : Str) : Option InfoKey :=
  labelToKey.lookup label

/-- The call `boldPart.replace(/:$/, "")`: a colon at the end is removed. -/
def dropFinalColon (s : Str) : Str :=
  if s.getLast? = some ':' then s.dropLast else s

/-- The call `text.replace(new RegExp("^" + escapeRegex(boldPart) + "\\s*"), "")`.
The function `escapeRegex` makes every character of `boldPart` literal, so the
pattern matches `boldPart` at the start of the text and the white space after it. -/
def stripLead (boldPart text : Str) : Str :=
  if boldPart.isPrefixOf text then (text.drop boldPart.length).dropWhile isJsSpace
  else text

/-- The variable `label` of the callback of `$("li").each` in `parseSuccessEmail`. -/
def itemLabel (el : BoldItem) : Str :=
  trim (dropFinalColon (trim el.bold))

/-- The variable `key` of the callback: `labelToKey[label] || labelToKey[label + "."]`,
`none` when the callback returns before or at `if (!key) return`. -/
def itemKey (el : BoldItem) : Option InfoKey :=
  let boldPart := trim el.bold
  if boldPart.isEmpty then none
  else
    let label := trim (dropFinalColon boldPart)
    match lookupLabel label with
    | some key => some key
    | none => lookupLabel (label ++ ".".toList)

/-- One turn of the callback of `$("li").each` in `parseSuccessEmail`. -/
def successItemStep (info : JobInfo) (el : BoldItem) : JobInfo :=
  let text := trim el.text
  let boldPart := trim el.bold
  match itemKey el with
  | none => info
  | some key =>
    let value := trim (stripLead boldPart text)
    info.set key (orNull (some value) none)

/-- A match of `/assigned to ([^:]+):?$/i` starting at the head of the input; the
result is capture group 1. The class `[^:]+` is greedy; what follows the longest
run must be the end of the input or one colon and then the end. -/
def assignedAt (s : Str) : Option Str :=
  match litI "assigned to ".toList s with
  | some r =>
    let name := r.takeWhile (fun c => c != ':')
    let after := r.dropWhile (fun c => c != ':')
    if !name.isEmpty && (after == [] || after == [':']) then some name else none
  | none => none

/-- The leftmost match of `/assigned to ([^:]+):?$/i` (capture group 1). -/
def assignedSearch : Str → Option Str
  | [] => assignedAt []
  | c :: s =>
    match assignedAt (c :: s) with
    | some m => some m
    | none => assignedSearch s

/-- The function `parseSuccessEmail`. -/
def parseSuccessEmail (ch : SuccessCheerio) (html : Str) : JobInfo :=
  let info := JobInfo.initial
  let h2Text := trim (ch.h2 html)
  let info1 :=
    match assignedSearch h2Text with
    | some m => { info with assignedTo := some (trim m) }
    | none => info
  (ch.items html).foldl successItemStep info1

/-! ## The mail watcher (`config.js`, `service.js`) -/

/-- The call `s.split(",")`. -/
def splitComma : Str → List Str
  | [] => [[]]
  | c :: s =>
    if c == ',' then [] :: splitComma s
    else
      match splitComma s with
      | [] => [[c]]
      | p :: ps => (c :: p) :: ps

/-- A comma-separated variable as `getImapListenConfig` reads it:
`raw.split(",").map((s) => s.trim().toLowerCase()).filter(Boolean)`. -/
def configList (raw : Str) : List Str :=
  ((splitComma raw).map (fun s => toLowerCase (trim s))).filter (fun s => truthy (some s))

/-- The environment variables that `getImapListenConfig` reads, apart from the
port, the mailbox and the debug switch; `none` is a variable that is not set. -/
structure ProcessEnv where
  IMAP_HOST : Option Str
  IMAP_USER : Option Str
  IMAP_PASS : Option Str
  IMAP_SUBJECT_KEYWORDS : Option Str
  IMAP_ALLOWED_SENDERS : Option Str
  WEBHOOK_URL : Option Str
  IMAP_WEBHOOK_URL : Option Str
  deriving DecidableEq, Repr

/-- The part of the configuration that `processNewMessages` reads. -/
structure ImapListenConfig where
  subjectKeywords : List Str
  allowedSenders : List Str
  webhookUrl : Option Str
  deriving DecidableEq, Repr

/-- The function `getImapListenConfig`; `none` is the error it throws when the
host, the user or the password is missing. -/
def getImapListenConfig (env : ProcessEnv) : Option ImapListenConfig :=
  if !truthy env.IMAP_HOST || !truthy env.IMAP_USER || !truthy env.IMAP_PASS then none
  else
    let subjectKeywordsRaw := orStr env.IMAP_SUBJECT_KEYWORDS []
    let subjectKeywords := configList subjectKeywordsRaw
    let allowedSendersRaw := orStr env.IMAP_ALLOWED_SENDERS []
    let allowedSenders := configList allowedSendersRaw
    let webhookUrl :=
      orNull (some (trim (orStr env.WEBHOOK_URL (orStr env.IMAP_WEBHOOK_URL [])))) none
    some { subjectKeywords := subjectKeywords, allowedSenders := allowedSenders,
           webhookUrl := webhookUrl }

/-- An element of `envelope.from`: a string, or an object whose `address` may be missing. -/
inductive Sender where
  | text (s : Str)
  | object (address : Option Str)
  deriving DecidableEq, Repr

/-- The envelope of a fetched message, as far as the code reads it. -/
structure Envelope where
  messageId : Option Str
  /-- The field `from` of the envelope. -/
  fromList : Option (List Sender)
  subject : Option Str
  deriving DecidableEq, Repr

/-- A fetched message. -/
structure Message where
  uid : Nat
  envelope : Option Envelope
  deriving DecidableEq, Repr

/-- The function `getMessageId`; `uidValidity` is given as the text that the
template literal prints. -/
def getMessageId (message : Message) (uid : Nat) (uidValidity : Str) : Str :=
  match message.envelope.bind (fun e => e.messageId) with
  | some (c :: s) => toLowerCase (trim (c :: s))
  | _ => "uid:".toList ++ numStr uid ++ ":".toList ++ uidValidity

/-- The function `subjectMatches`. -/
def subjectMatches (subject : Option Str) (keywords : List Str) : Bool :=
  if keywords.length == 0 then true
  else
    let s := toLowerCase (orStr subject [])
    keywords.any (fun kw => includes s kw)

/-- The method `String.prototype.endsWith`. -/
def endsWith (s w : Str) : Bool :=
  w.isSuffixOf s

/-- The array `addrs` of `senderMatches`: the lower-cased address of every element,
without the missing and the empty ones (`filter(Boolean)`). -/
def lowerAddresses (fromAddresses : Option (List Sender)) : List Str :=
  (fromAddresses.getD []).filterMap (fun a =>
    let addr := match a with
      | Sender.text s => some (toLowerCase s)
      | Sender.object address => address.map toLowerCase
    if truthy addr then addr else none)

/-- The function `senderMatches`. -/
def senderMatches (fromAddresses : Option (List Sender)) (allowed : List Str) : Bool :=
  if allowed.length == 0 then true
  else
    let addrs := lowerAddresses fromAddresses
    addrs.any (fun addr => allowed.any (fun a => addr == a || endsWith addr ('@' :: a)))

/-- What `processNewMessages` does with a message: it skips it as already seen,
skips it at one of the two filters, or goes on to parse, log and forward it. -/
inductive Fate where
  | duplicate
  | filtered
  | matched
  deriving DecidableEq, Repr

/-- One turn of the loop of `processNewMessages`, with the set `seen` before
and after the turn. -/
def processMessage (config : ImapListenConfig) (uidValidity : Str) (seen : SeenSet Str)
    (msg : Message) : SeenSet Str × Fate :=
  let uid := msg.uid
  let messageId := getMessageId msg uid uidValidity
  if seen.has messageId then (seen, Fate.duplicate)
  else
    let seen1 := seen.add messageId
    let fromAddresses := some ((msg.envelope.bind (fun e => e.fromList)).getD [])
    let subject := orStr (msg.envelope.bind (fun e => e.subject)) []
    if !subjectMatches (some subject) config.subjectKeywords then (seen1, Fate.filtered)
    else if !senderMatches fromAddresses config.allowedSenders then (seen1, Fate.filtered)
    else (seen1, Fate.matched)

/-- The loop of `processNewMessages` over the messages fetched; the result lists
the identifier and the fate of every message, in order. -/
def processLoop (config : ImapListenConfig) (uidValidity : Str) :
    SeenSet Str → List Message → SeenSet Str × List (Str × Fate)
  | seen, [] => (seen, [])
  | seen, msg :: rest =>
    let r := processMessage config uidValidity seen msg
    let out := processLoop config uidValidity r.1 rest
    (out.1, (getMessageId msg msg.uid uidValidity, r.2) :: out.2)

/-- The function `processNewMessages`; `fetched` is `none` when `fetchAll` throws,
in which case the function returns at once. -/
def processNewMessages (config : ImapListenConfig) (uidValidity : Str)
    (fetched : Option (List Message)) (seen : SeenSet Str) :
    SeenSet Str × List (Str × Fate) :=
  match fetched with
  | none => (seen, [])
  | some messages => processLoop config uidValidity seen messages

/-- One call of `processNewMessages`: the validity marker of the mailbox at that
time and the outcome of `fetchAll`. -/
structure Batch where
  uidValidity : Str
  fetched : Option (List Message)
  deriving DecidableEq, Repr

/-- The module-level set `seen`: `new SeenSet(Number(IMAP_DEDUPE_MAX) || 10_000)`,
where `none` stands for a value that `Number` turns into `NaN`. -/
def seenInitial (dedupeMax : Option Int) : SeenSet Str :=
  SeenSet.new (match dedupeMax with
    | some n => if n = 0 then 10000 else n
    | none => 10000)

/-- The calls of `processNewMessages` of one process lifetime, in order, on the
shared set `seen`. -/
def runBatches (config : ImapListenConfig) :
    SeenSet Str → List Batch → SeenSet Str × List (Str × Fate)
  | seen, [] => (seen, [])
  | seen, b :: rest =>
    let r := processNewMessages config b.uidValidity b.fetched seen
    let out := runBatches config r.1 rest
    (out.1, r.2 ++ out.2)

/-- The identifiers that got past the dedupe check, in order. -/
def passedDedupe (log : List (Str × Fate)) : List Str :=
  (log.filter (fun p => p.2 != Fate.duplicate)).map (fun p => p.1)

/-! ## Predicates used to state the properties -/

/-- The ASCII letters of a text folded to lower case, character by character. A
text equals a pattern of ASCII characters up to this folding exactly when the
regex flag `i`, used without the flag `u`, lets it match the pattern. -/
def lowerAscii (s : Str) : Str :=
  s.map Char.toLower

/-- The test of the code for a word in any letter case: `w` is a block of the
text once `toLowerCase` has lower-cased the text. -/
def occursLowered (w text : Str) : Prop :=
  w <:+: toLowerCase text

/-- The spec's phrase "the text contains `w` in any letter case": some block of
the text is `w` once `toLowerCase` has lower-cased the block. -/
def blockLowersTo (w text : Str) : Prop :=
  ∃ mid : Str, mid <:+: text ∧ toLowerCase mid = w

/-- Some block of the text spells the word `w` in upper-case and lower-case
ASCII letters: it is `w` once its ASCII letters are folded to lower case. -/
def occursAnyCase (w text : Str) : Prop :=
  ∃ mid : Str, mid <:+: text ∧ lowerAscii mid = w

/-- A code point that the simple lower-case mapping leaves alone: it is the code
point of a character, no upper-case ASCII letter, and in no run of the table. -/
def Settled (n : Nat) : Prop :=
  n.isValidChar ∧ (n < 0x80 → ¬ (0x41 ≤ n ∧ n ≤ 0x5A)) ∧
    (0x80 ≤ n → ∀ r ∈ lowerRanges, covers r n = false)

/-- The images of the run `r` lie outside the run `q`. -/
def sep (r q : CaseRange) : Bool :=
  decide (r.2.2.2 + (r.2.1 - r.1) < q.1) || decide (q.2.1 < r.2.2.2) ||
    (r.2.2.1 && q.2.2.1 && (r.2.2.2 + q.1) % 2 == 1)

/-- The run starts above the ASCII range, its images are code points of
characters and lie outside every run, and an image in the ASCII range is the
image of a single code point and no upper-case letter. -/
def rangeOk (r : CaseRange) : Bool :=
  decide (0x80 ≤ r.1) && decide (r.1 ≤ r.2.1) &&
    (decide (r.2.2.2 + (r.2.1 - r.1) < 0xD800) ||
      (decide (0xDFFF < r.2.2.2) && decide (r.2.2.2 + (r.2.1 - r.1) < 0x110000))) &&
    (decide (0x80 ≤ r.2.2.2) ||
      (decide (r.1 = r.2.1) && !(decide (0x41 ≤ r.2.2.2) && decide (r.2.2.2 ≤ 0x5A)))) &&
    lowerRanges.all (fun q => sep r q)

/-- The pattern `/job\s+accepted\s*!?/i` read declaratively: somewhere in the
text stands `job` in some letter case, then at least one white-space character,
then `accepted` in some letter case. What the optional tail `\s*!?` matches is
part of the remainder. -/
def MatchesJobAccepted (t : Str) : Prop :=
  ∃ pre j ws a post : Str, t = pre ++ (j ++ (ws ++ (a ++ post))) ∧
    lowerAscii j = "job".toList ∧ ws ≠ [] ∧ (∀ c ∈ ws, isJsSpace c = true) ∧
    lowerAscii a = "accepted".toList

/-- The spec's pattern `^ey[^/?#]+$` for a token. -/
def isToken : Str → Bool
  | 'e' :: 'y' :: c :: rest => (c :: rest).all (fun x => !isDelim x)
  | _ => false

/-- A path segment that starts with `ey` begins at the head of the input:
`/ey` followed by a character other than `/`, `?` and `#`. -/
def eySegmentAt : Str → Bool
  | '/' :: 'e' :: 'y' :: d :: _ => !isDelim d
  | _ => false

/-- The text holds a path segment that starts with `ey`. -/
def hasEySegment : Str → Bool
  | [] => false
  | c :: s => eySegmentAt (c :: s) || hasEySegment s

/-- The last character of the text is white space. -/
def endsInSpace (s : Str) : Bool :=
  match s.getLast? with
  | some c => isJsSpace c
  | none => false

/-! ## Fixtures for concrete instances -/

/-- A loaded document with the given links and list items, whatever the markup. -/
def fixedDoc (links : List Anchor) (items : List Str) : Cheerio :=
  { title := fun _ => [], body := fun _ => [], html := fun _ => [],
    anchors := fun _ => links, items := fun _ => items }

/-- A loaded claim page with the given title and body text, whatever the markup. -/
def fixedPage (title body : Str) : Cheerio :=
  { title := fun _ => title, body := fun _ => body, html := fun h => h,
    anchors := fun _ => [], items := fun _ => [] }

/-- Collaborators that answer every request with `resp`, accept every insert
and show a fixed time. -/
def fixedEnv (ch : Cheerio) (resp : Except JsError Response) : Env :=
  { cheerio := ch, axiosGet := fun _ _ => resp, insertFails := fun _ _ => none,
    now := fun _ => "2024-01-01T00:00:00.000Z".toList }

/-- An offer email as cheerio shows it: an accept link carrying the token
`eyABC123`, a decline link, an address line and an appliance line. -/
def sampleOffer (address : Str) : Cheerio :=
  fixedDoc
    [{ text := "Accept Job".toList,
       href := some "https://dispatch.example.com/offer/eyABC123".toList },
     { text := "Decline".toList,
       href := some "https://dispatch.example.com/decline/eyABC123".toList }]
    ["Address: ".toList ++ address, "Appliance: Washer".toList]

/-- A payload with a subject and an HTML body. -/
def sampleBody : Body :=
  { subject := some "New Job Offer".toList, Subject := none,
    html := some "<html>offer</html>".toList, HtmlBody := none }

/-- The world before anything happened. -/
def emptyWorld : World :=
  { calls := [], errorLogs := [] }

/-- A response of status 200 with the given markup. -/
def okResponse (data : Str) : Except JsError Response :=
  Except.ok { status := 200, data := data, responseUrl := none }

/-- The variable `status` of the `catch` block of `visitAcceptLink`:
`error.response?.status || null`. -/
def failureStatus (error : JsError) : Option Nat :=
  match error.response with
  | some (n, _) => if n = 0 then none else some n
  | none => none

/-- The variable `statusText` of the `catch` block of `visitAcceptLink`:
`error.response?.statusText || error.message`. -/
def failureText (error : JsError) : Str :=
  orStr (error.response.map (fun r => r.2)) error.message

/-- Collaborators whose store refuses every insert with the given message. -/
def brokenStoreEnv (ch : Cheerio) (resp : Except JsError Response) (msg : Str) : Env :=
  { cheerio := ch, axiosGet := fun _ _ => resp, insertFails := fun _ _ => some msg,
    now := fun _ => "2024-01-01T00:00:00.000Z".toList }

/-- Collaborators whose store refuses the first insert of a claim attempt with
the given message and accepts the insert once a log call has been made. -/
def flakyStoreEnv (ch : Cheerio) (resp : Except JsError Response) (msg : Str) : Env :=
  { cheerio := ch, axiosGet := fun _ _ => resp,
    insertFails := fun w _ =>
      if w.calls.any (fun c => c matches Call.logError _ || c matches Call.logSuccess _)
      then none else some msg,
    now := fun _ => "2024-01-01T00:00:00.000Z".toList }

/-- The error that axios throws for a response of status 503. -/
def unavailableError : JsError :=
  { message := "Request failed with status code 503".toList,
    response := some (503, "Service Unavailable".toList) }

/-- The error that axios throws when no response arrives in time. -/
def timeoutError : JsError :=
  { message := "timeout of 15000ms exceeded".toList, response := none }

/-- Collaborators for the sample offer from Lisle whose transport times out. -/
def timeoutEnv : Env :=
  fixedEnv (sampleOffer "1611 lacey ave, Lisle, Illinois 60532".toList)
    (Except.error timeoutError)

/-- The canonical accept URL of the sample offer. -/
def sampleUrl : Str :=
  "https://login.theappliancerepairmen.com/job/accept/eyABC123".toList

/-- The job address of the sample offer from Lisle. -/
def sampleAddress : Option Str :=
  some "1611 lacey ave, Lisle, Illinois 60532".toList

/-- A loaded confirmation email with the given heading and list items, whatever the markup. -/
def fixedSuccess (h2 : Str) (items : List BoldItem) : SuccessCheerio :=
  { h2 := fun _ => h2, items := fun _ => items }

/-- The subject of a message as `processNewMessages` reads it: `env.subject || ""`. -/
def messageSubject (msg : Message) : Str :=
  orStr (msg.envelope.bind (fun e => e.subject)) []

/-- The sender addresses of a message: of each element of `env.from || []`, the
string itself or the `address` of the object, when it has one. -/
def senderAddresses (msg : Message) : List Str :=
  ((msg.envelope.bind (fun e => e.fromList)).getD []).filterMap (fun a =>
    match a with
    | Sender.text s => some s
    | Sender.object address => address)

/-- The spec's phrase "the keyword is a case-insensitive substring of the
subject": with both lower-cased by `toLowerCase`, the keyword is a block of the
subject. -/
def keywordInSubject (kw subject : Str) : Prop :=
  toLowerCase kw <:+: toLowerCase subject

/-- The spec's phrase for the sender test: with both lower-cased by
`toLowerCase`, the address equals the allowed entry or ends with `@` followed by
the entry. -/
def addressAllowed (addr a : Str) : Prop :=
  toLowerCase addr = toLowerCase a ∨ ('@' :: toLowerCase a) <:+ toLowerCase addr

/-- The variables set for the sample watcher: two keywords, one allowed domain. -/
def sampleProcessEnv : ProcessEnv :=
  { IMAP_HOST := some "imap.example.com".toList, IMAP_USER := some "me".toList,
    IMAP_PASS := some "secret".toList,
    IMAP_SUBJECT_KEYWORDS := some "Job Offer, New Job".toList,
    IMAP_ALLOWED_SENDERS := some " Dispatch.Example.com ".toList,
    WEBHOOK_URL := none, IMAP_WEBHOOK_URL := none }

/-- The variables set for a watcher whose keyword has a letter outside ASCII. -/
def cafeProcessEnv : ProcessEnv :=
  { IMAP_HOST := some "imap.example.com".toList, IMAP_USER := some "me".toList,
    IMAP_PASS := some "secret".toList,
    IMAP_SUBJECT_KEYWORDS := some "Café Job".toList,
    IMAP_ALLOWED_SENDERS := none,
    WEBHOOK_URL := none, IMAP_WEBHOOK_URL := none }

/-- The configuration that `getImapListenConfig` produces from `cafeProcessEnv`. -/
def cafeConfig : ImapListenConfig :=
  { subjectKeywords := ["café job".toList], allowedSenders := [], webhookUrl := none }

/-- A message with the given identifier, sender address and subject. -/
def sampleMessage (uid : Nat) (messageId sender subject : Str) : Message :=
  { uid := uid,
    envelope := some { messageId := some messageId,
                       fromList := some [Sender.object (some sender)],
                       subject := some subject } }

/-- The configuration that `getImapListenConfig` produces from `sampleProcessEnv`. -/
def sampleConfig : ImapListenConfig :=
  { subjectKeywords := ["job offer".toList, "new job".toList],
    allowedSenders := ["dispatch.example.com".toList], webhookUrl := none }

/-- The identifiers of the messages of one call of `processNewMessages`, in order. -/
def batchIds (b : Batch) : List Str :=
  (b.fetched.getD []).map (fun m => getMessageId m m.uid b.uidValidity)

/-- The identifiers of all messages of a process lifetime, in order. -/
def allIds : List Batch → List Str
  | [] => []
  | b :: rest => batchIds b ++ allIds rest

/-- The identifiers, out of a sequence, that are not in the set when their turn
comes, the set being updated by `add` at every turn. -/
def passedIds : SeenSet Str → List Str → List Str
  | _, [] => []
  | s, x :: xs => if s.has x then passedIds s xs else x :: passedIds (s.add x) xs

/-- Two calls of `processNewMessages`: two messages arrive, then the first one
is fetched again after a reconnect. -/
def sampleBatches : List Batch :=
  [{ uidValidity := "7".toList,
     fetched := some
       [sampleMessage 1 "<m1@dispatch.example.com>".toList "bot@dispatch.example.com".toList
          "New job offer".toList,
        sampleMessage 2 "<m2@dispatch.example.com>".toList "bot@dispatch.example.com".toList
          "New job offer".toList] },
   { uidValidity := "7".toList,
     fetched := some
       [sampleMessage 1 "<m1@dispatch.example.com>".toList "bot@dispatch.example.com".toList
          "New job offer".toList] }]

/-- A match of `/\b(\d{5})\b/` read declaratively: in a text `a ++ z ++ post`,
the block `z` is five digits, the character before it, if any, is no word
character, and neither is the character after it. The character `prev` stands
before the text. -/
def ZipBlockAt (prev : Option Char) (a z post : Str) : Prop :=
  z.length = 5 ∧ (∀ c ∈ z, c.isDigit = true) ∧
    (∀ c, (prev.toList ++ a).getLast? = some c → isWordChar c = false) ∧
    (∀ c, post.head? = some c → isWordChar c = false)

/-- Five digits at the head of the input. -/
def fiveDigitsAt : Str → Option Str
  | d1 :: d2 :: d3 :: d4 :: d5 :: _ =>
    if d1.isDigit && d2.isDigit && d3.isDigit && d4.isDigit && d5.isDigit
    then some [d1, d2, d3, d4, d5] else none
  | _ => none

/-- The spec's phrase "the first run of 5 consecutive digits found anywhere in
the text". -/
def firstFiveDigits : Str → Option Str
  | [] => none
  | c :: s =>
    match fiveDigitsAt (c :: s) with
    | some z => some z
    | none => firstFiveDigits s

/-- The variable `bodyText` of `visitAcceptLink`: the text of the body with its
white space collapsed, trimmed. -/
def bodyTextOf (env : Env) (response : Response) : Str :=
  trim (collapseSpaces (env.cheerio.body response.data))

/-- The object that the `try` block of `visitAcceptLink` hands to `logError`. -/
def tryErrorArgs (env : Env) (url : Str) (jobAddress : Option Str) (response : Response) :
    LogArgs :=
  { url := orStr response.responseUrl url,
    pageTitle := trim (env.cheerio.title response.data),
    rawHtml := some (env.cheerio.html response.data),
    reason := some
      (if classifyOutcome (bodyTextOf env response) = Outcome.already_taken then
        codeUnits "Job already taken or expired".toList
      else codeUnits "Unexpected response: ".toList ++
        slice (slice (codeUnits (bodyTextOf env response)) 0 500) 0 200),
    bodyPreview := none, jobAddress := jobAddress }

/-- The object that the `try` block of `visitAcceptLink` hands to `logSuccess`. -/
def trySuccessArgs (env : Env) (url : Str) (jobAddress : Option Str) (response : Response) :
    LogArgs :=
  { url := orStr response.responseUrl url,
    pageTitle := trim (env.cheerio.title response.data),
    rawHtml := none, reason := none,
    bodyPreview := some (slice (codeUnits (bodyTextOf env response)) 0 500),
    jobAddress := jobAddress }

/-- The response of a claim page saying that the job is gone. -/
def takenResponse : Response :=
  { status := 200, data := "<html><body>Sorry, this job has already been taken</body></html>".toList,
    responseUrl := none }

/-- Collaborators whose claim page says that the job is gone. -/
def takenEnv : Env :=
  fixedEnv (fixedPage "Sorry".toList " Sorry,  this job has\n already been taken ".toList)
    (Except.ok takenResponse)

/-! ## Theorems: outcome classification -/


theorem includes_iff_block (s w : Str) : includes s w = true ↔ w <:+: s := by
  induction s with
  | nil =>
    simp [includes, List.isPrefixOf_iff_prefix]
  | cons c s ih =>
    simp only [includes, Bool.or_eq_true, ih, List.isPrefixOf_iff_prefix]
    exact List.infix_cons_iff.symm

theorem infix_map_iff (f : Char → Char) (w s : Str) :
    w <:+: s.map f ↔ ∃ mid : Str, mid <:+: s ∧ mid.map f = w := by
  constructor
  · rintro ⟨a, b, h⟩
    obtain ⟨l₁, l₂, hs, h₁, h₂⟩ := List.map_eq_append_iff.mp h.symm
    obtain ⟨l₃, l₄, hs', h₃, h₄⟩ := List.map_eq_append_iff.mp h₁
    refine ⟨l₄, ⟨l₃, l₂, ?_⟩, h₄⟩
    rw [hs, hs']
  · rintro ⟨mid, hmid, rfl⟩
    exact hmid.map f

set_option maxRecDepth 1000000 in
theorem lowerRanges_ok : lowerRanges.all rangeOk = true := by
  decide

theorem sep_spec (r q : CaseRange) (h : sep r q = true) (n : Nat)
    (hn : covers r n = true) : covers q (r.2.2.2 + (n - r.1)) = false := by
  obtain ⟨a, b, alt, t⟩ := r
  obtain ⟨a2, b2, alt2, t2⟩ := q
  simp only [sep, covers, Bool.or_eq_true, Bool.and_eq_true, decide_eq_true_eq, beq_iff_eq,
    Bool.not_eq_true'] at h hn
  simp only [covers]
  rw [Bool.eq_false_iff]
  intro hc
  simp only [Bool.or_eq_true, Bool.and_eq_true, decide_eq_true_eq, beq_iff_eq,
    Bool.not_eq_true'] at hc
  obtain ⟨⟨h1, h2⟩, h3⟩ := hn
  obtain ⟨⟨c1, c2⟩, c3⟩ := hc
  rcases h with (h | h) | ⟨⟨ha, hb⟩, hp⟩
  · omega
  · omega
  · subst ha; subst hb
    simp only [Bool.true_eq_false, false_or] at h3 c3
    omega

theorem settled_lowerCode (n : Nat) (hv : n.isValidChar) : Settled (lowerCode n) := by
  unfold lowerCode
  by_cases h : n < 0x80
  · rw [if_pos h]
    by_cases hu : 0x41 ≤ n ∧ n ≤ 0x5A
    · rw [if_pos hu]
      refine ⟨Or.inl (by omega), fun _ => by omega, fun h2 => by omega⟩
    · rw [if_neg hu]
      exact ⟨hv, fun _ => hu, fun h2 => by omega⟩
  · rw [if_neg h]
    cases hf : lowerRanges.find? (fun r => covers r n) with
    | none =>
      simp only []
      refine ⟨hv, fun h2 => absurd h2 h, fun _ r hr => ?_⟩
      have := List.find?_eq_none.mp hf r hr
      simpa using this
    | some r =>
      simp only []
      have hmem : r ∈ lowerRanges := List.mem_of_find?_eq_some hf
      have hcov : covers r n = true := by
        have := List.find?_some hf
        simpa using this
      have hok : rangeOk r = true := List.all_eq_true.mp lowerRanges_ok r hmem
      obtain ⟨a, b, alt, t⟩ := r
      have hcov2 := hcov
      simp only [rangeOk, covers, Bool.or_eq_true, Bool.and_eq_true, decide_eq_true_eq,
        beq_iff_eq, Bool.not_eq_true', List.all_eq_true, Bool.decide_eq_false,
        Bool.not_eq_true, decide_eq_false_iff_not] at hok hcov2
      obtain ⟨⟨⟨⟨k1, k2⟩, k3⟩, k4⟩, k5⟩ := hok
      obtain ⟨⟨l1, l2⟩, _⟩ := hcov2
      show Settled (t + (n - a))
      refine ⟨?_, ?_, ?_⟩
      · rcases k3 with k3 | ⟨k3, k3b⟩
        · left; omega
        · right; constructor <;> omega
      · intro hlt
        rcases k4 with k4 | ⟨k4, k4b⟩
        · omega
        · intro hup
          have : n = a := by omega
          subst this
          simp only [Nat.sub_self, Nat.add_zero] at hup hlt
          simp only [Bool.and_eq_false_iff, decide_eq_false_iff_not] at k4b
          omega
      · intro _ q hq
        exact sep_spec (a, b, alt, t) q (k5 q hq) n hcov

theorem lowerCode_of_settled (n : Nat) (h : Settled n) : lowerCode n = n := by
  obtain ⟨_, h1, h2⟩ := h
  unfold lowerCode
  by_cases hlt : n < 0x80
  · rw [if_pos hlt, if_neg (h1 hlt)]
  · rw [if_neg hlt]
    have : lowerRanges.find? (fun r => covers r n) = none := by
      apply List.find?_eq_none.mpr
      intro r hr
      rw [h2 (by omega) r hr]
      simp
    rw [this]

theorem toNat_ofNat_of_valid (n : Nat) (hv : n.isValidChar) : (Char.ofNat n).toNat = n := by
  simp only [Char.ofNat, dif_pos hv]
  rfl

set_option maxRecDepth 1000000 in
theorem settled_consts : Settled 0x69 ∧ Settled 0x307 ∧ Settled 0x3C2 ∧ Settled 0x3C3 := by
  refine ⟨⟨by decide, by decide, fun h => absurd h (by decide)⟩,
    ⟨by decide, fun h => absurd h (by decide), fun _ => by decide⟩,
    ⟨by decide, fun h => absurd h (by decide), fun _ => by decide⟩,
    ⟨by decide, fun h => absurd h (by decide), fun _ => by decide⟩⟩

set_option maxRecDepth 1000000 in
theorem not_settled_special (n : Nat) (h : Settled n) : n ≠ 0x130 ∧ n ≠ 0x3A3 := by
  obtain ⟨_, _, h2⟩ := h
  constructor
  · intro e
    subst e
    have := h2 (by decide) (0x130, 0x130, true, 0x69) (by decide)
    exact absurd this (by decide)
  · intro e
    subst e
    have := h2 (by decide) (0x3A3, 0x3AB, false, 0x3C3) (by decide)
    exact absurd this (by decide)

theorem lowerAt_settled (before : Str) (c : Char) (after : Str) :
    ∀ d ∈ lowerAt before c after, Settled d.toNat := by
  intro d hd
  unfold lowerAt at hd
  obtain ⟨s1, s2, s3, s4⟩ := settled_consts
  split at hd
  · simp only [List.mem_cons, List.mem_singleton, List.not_mem_nil, or_false] at hd
    rcases hd with rfl | rfl
    · exact s1
    · exact s2
  · split at hd
    · simp only [List.mem_singleton] at hd
      subst hd
      split
      · exact s3
      · exact s4
    · simp only [List.mem_singleton] at hd
      subst hd
      have hs := settled_lowerCode c.toNat c.valid
      rw [toNat_ofNat_of_valid _ hs.1]
      exact hs

theorem lowerAt_of_settled (before : Str) (d : Char) (after : Str) (h : Settled d.toNat) :
    lowerAt before d after = [d] := by
  obtain ⟨n1, n2⟩ := not_settled_special d.toNat h
  unfold lowerAt
  rw [if_neg n1, if_neg n2, lowerCode_of_settled _ h, Char.ofNat_toNat]

theorem lowerFrom_of_settled (s : Str) (h : ∀ d ∈ s, Settled d.toNat) :
    ∀ before : Str, lowerFrom before s = s := by
  induction s with
  | nil => intro _; rfl
  | cons c rest ih =>
    intro before
    show lowerAt before c rest ++ lowerFrom (c :: before) rest = c :: rest
    rw [lowerAt_of_settled before c rest (h c (List.mem_cons_self _ _)),
      ih (fun d hd => h d (List.mem_cons_of_mem _ hd))]
    rfl

theorem lowerFrom_settled (s : Str) : ∀ before : Str, ∀ d ∈ lowerFrom before s,
    Settled d.toNat := by
  induction s with
  | nil => intro _ d hd; cases hd
  | cons c rest ih =>
    intro before d hd
    have hd2 : d ∈ lowerAt before c rest ++ lowerFrom (c :: before) rest := hd
    rcases List.mem_append.mp hd2 with h | h
    · exact lowerAt_settled before c rest d h
    · exact ih (c :: before) d h

theorem toLowerCase_idem (s : Str) : toLowerCase (toLowerCase s) = toLowerCase s :=
  lowerFrom_of_settled _ (lowerFrom_settled s []) []

theorem lowerAt_ne_nil (before : Str) (c : Char) (after : Str) : lowerAt before c after ≠ [] := by
  unfold lowerAt
  split
  · simp
  · split <;> simp

theorem toLowerCase_eq_nil (s : Str) : toLowerCase s = [] ↔ s = [] := by
  constructor
  · intro h
    cases s with
    | nil => rfl
    | cons c rest =>
      have h2 : lowerAt [] c rest ++ lowerFrom [c] rest = [] := h
      have := (List.append_eq_nil.mp h2).1
      exact absurd this (lowerAt_ne_nil _ _ _)
  · intro h; subst h; rfl

theorem lowerAt_ascii (before : Str) (c : Char) (after : Str) (h : c.toNat < 0x80) :
    lowerAt before c after = [c.toLower] := by
  unfold lowerAt
  rw [if_neg (by omega), if_neg (by omega)]
  unfold lowerCode
  rw [if_pos h]
  simp only [Char.toLower]
  by_cases hu : 0x41 ≤ c.toNat ∧ c.toNat ≤ 0x5A
  · rw [if_pos hu, if_pos (by omega)]
  · rw [if_neg hu, if_neg (by omega), Char.ofNat_toNat]

theorem lowerFrom_ascii (mid : Str) (h : ∀ c ∈ mid, c.toNat < 0x80) (rest : Str) :
    ∀ before : Str, lowerFrom before (mid ++ rest) =
      mid.map Char.toLower ++ lowerFrom (mid.reverse ++ before) rest := by
  induction mid with
  | nil => intro _; rfl
  | cons c m ih =>
    intro before
    show lowerAt before c (m ++ rest) ++ lowerFrom (c :: before) (m ++ rest) = _
    rw [lowerAt_ascii before c _ (h c (List.mem_cons_self _ _)),
      ih (fun d hd => h d (List.mem_cons_of_mem _ hd))]
    simp

theorem lowerFrom_append (a rest : Str) : ∀ before : Str,
    ∃ p : Str, lowerFrom before (a ++ rest) = p ++ lowerFrom (a.reverse ++ before) rest := by
  induction a with
  | nil => intro before; exact ⟨[], rfl⟩
  | cons c m ih =>
    intro before
    obtain ⟨p, hp⟩ := ih (c :: before)
    refine ⟨lowerAt before c (m ++ rest) ++ p, ?_⟩
    show lowerAt before c (m ++ rest) ++ lowerFrom (c :: before) (m ++ rest) = _
    rw [hp]
    simp

/-- A block of ASCII characters of the text shows up in the lower-cased text with
its upper-case letters folded. -/
theorem block_toLowerCase (mid text : Str) (hmid : mid <:+: text)
    (h : ∀ c ∈ mid, c.toNat < 0x80) : mid.map Char.toLower <:+: toLowerCase text := by
  obtain ⟨a, z, rfl⟩ := hmid
  obtain ⟨p, hp⟩ := lowerFrom_append a (mid ++ z) []
  unfold toLowerCase
  rw [List.append_assoc, hp, lowerFrom_ascii mid h z]
  exact ⟨p, lowerFrom (mid.reverse ++ (a.reverse ++ [])) z, by rw [List.append_assoc]⟩

theorem toNat_of_toLower_ascii (c : Char) (h : c.toLower.toNat < 0x80) : c.toNat < 0x80 := by
  by_cases hu : c.toNat ≥ 65 ∧ c.toNat ≤ 90
  · omega
  · have h1 : c.toLower = c := by
      simp only [Char.toLower]; rw [if_neg hu]
    rw [h1] at h
    exact h

theorem includes_lower_iff (w text : Str) :
    includes (toLowerCase text) w = true ↔ occursLowered w text :=
  includes_iff_block (toLowerCase text) w

/-- A word of ASCII characters that the text spells in upper-case and lower-case
letters is a block of the lower-cased text. -/
theorem occursLowered_of_anyCase (w text : Str) (hw : ∀ c ∈ w, c.toNat < 0x80)
    (h : occursAnyCase w text) : occursLowered w text := by
  obtain ⟨mid, hmid, hl⟩ := h
  have hascii : ∀ c ∈ mid, c.toNat < 0x80 := by
    intro c hc
    apply toNat_of_toLower_ascii
    apply hw
    rw [← hl]
    exact List.mem_map_of_mem Char.toLower hc
  have := block_toLowerCase mid text hmid hascii
  unfold occursLowered
  rw [← hl]
  exact this

theorem lowerFrom_cons (before : Str) (c : Char) (rest : Str) :
    lowerFrom before (c :: rest) = lowerAt before c rest ++ lowerFrom (c :: before) rest := rfl

theorem lowerAt_plain (before : Str) (c : Char) (after : Str)
    (h1 : c.toNat ≠ 0x130) (h2 : c.toNat ≠ 0x3A3) :
    lowerAt before c after = [Char.ofNat (lowerCode c.toNat)] := by
  unfold lowerAt
  rw [if_neg h1, if_neg h2]

theorem lowerAt_dotted (before : Str) (c : Char) (after : Str) (h : c.toNat = 0x130) :
    lowerAt before c after = ['i', Char.ofNat 0x307] := by
  unfold lowerAt
  rw [if_pos h]

theorem lowerAt_sigma (before : Str) (c : Char) (after : Str) (h : c.toNat = 0x3A3) :
    ∃ d : Char, lowerAt before c after = [d] ∧ ¬ d.toNat < 0x80 := by
  unfold lowerAt
  rw [if_neg (by omega), if_pos h]
  refine ⟨_, rfl, ?_⟩
  split <;> decide

/-- A word of ASCII characters that does not end in `i` and stands at the head of
the lower-cased text is the lower case of a block at the head of the text, in
whatever context the block is lower-cased. -/
theorem head_block_of_lowered (text : Str) :
    ∀ (w before : Str), (∀ x ∈ w, x.toNat < 0x80) → w.getLast? ≠ some 'i' →
      w <+: lowerFrom before text →
      ∃ mid : Str, mid <+: text ∧ ∀ b : Str, lowerFrom b mid = w := by
  induction text with
  | nil =>
    intro w before _ _ hp
    have hw : w = [] := List.prefix_nil.mp hp
    subst hw
    exact ⟨[], List.prefix_refl _, fun _ => rfl⟩
  | cons c rest ih =>
    intro w before hascii hlast hp
    cases w with
    | nil => exact ⟨[], List.nil_prefix, fun _ => rfl⟩
    | cons x w2 =>
      rw [lowerFrom_cons] at hp
      have hx : x.toNat < 0x80 := hascii x (List.mem_cons_self _ _)
      by_cases h1 : c.toNat = 0x130
      · rw [lowerAt_dotted before c rest h1] at hp
        have hp2 : x :: w2 <+: 'i' :: (Char.ofNat 0x307 :: lowerFrom (c :: before) rest) := hp
        rw [List.cons_prefix_cons] at hp2
        obtain ⟨hxi, hw2⟩ := hp2
        cases w2 with
        | nil =>
          subst hxi
          exact absurd rfl hlast
        | cons y w3 =>
          rw [List.cons_prefix_cons] at hw2
          have hy : y.toNat < 0x80 :=
            hascii y (List.mem_cons_of_mem _ (List.mem_cons_self _ _))
          rw [hw2.1] at hy
          exact absurd hy (by decide)
      · by_cases h2 : c.toNat = 0x3A3
        · obtain ⟨d, hd, hnd⟩ := lowerAt_sigma before c rest h2
          rw [hd] at hp
          have hp2 : x :: w2 <+: d :: lowerFrom (c :: before) rest := hp
          rw [List.cons_prefix_cons] at hp2
          rw [hp2.1] at hx
          exact absurd hx hnd
        · rw [lowerAt_plain before c rest h1 h2] at hp
          have hp2 : x :: w2 <+: Char.ofNat (lowerCode c.toNat) ::
              lowerFrom (c :: before) rest := hp
          rw [List.cons_prefix_cons] at hp2
          obtain ⟨hxd, hw2⟩ := hp2
          have hlast2 : w2.getLast? ≠ some 'i' := by
            cases w2 with
            | nil => simp
            | cons y w3 =>
              intro hh
              apply hlast
              rw [List.getLast?_cons_cons]
              exact hh
          obtain ⟨mid, hmid, hlow⟩ := ih w2 (c :: before)
            (fun y hy => hascii y (List.mem_cons_of_mem _ hy)) hlast2 hw2
          refine ⟨c :: mid, (List.cons_prefix_cons).mpr ⟨rfl, hmid⟩, fun b => ?_⟩
          rw [lowerFrom_cons, lowerAt_plain b c mid h1 h2, hlow (c :: b), hxd]
          rfl

/-- A word of ASCII characters that does not end in `i` and is a block of the
lower-cased text is the lower case of a block of the text. -/
theorem block_of_lowered (w : Str) (hne : w ≠ []) (hascii : ∀ x ∈ w, x.toNat < 0x80)
    (hlast : w.getLast? ≠ some 'i') (text : Str) :
    ∀ before : Str, w <:+: lowerFrom before text → blockLowersTo w text := by
  induction text with
  | nil =>
    intro before h
    exact absurd (List.infix_nil.mp h) hne
  | cons c rest ih =>
    intro before h
    have hhead : w <+: lowerFrom before (c :: rest) → blockLowersTo w (c :: rest) := by
      intro hp
      obtain ⟨mid, hmid, hlow⟩ := head_block_of_lowered (c :: rest) w before hascii hlast hp
      exact ⟨mid, hmid.isInfix, hlow []⟩
    have htail : w <:+: lowerFrom (c :: before) rest → blockLowersTo w (c :: rest) := by
      intro hi
      obtain ⟨mid, hmid, hlow⟩ := ih (c :: before) hi
      exact ⟨mid, hmid.trans (List.suffix_cons c rest).isInfix, hlow⟩
    by_cases h1 : c.toNat = 0x130
    · have hp : w <+: lowerFrom before (c :: rest) ∨
          w <:+: Char.ofNat 0x307 :: lowerFrom (c :: before) rest := by
        rw [lowerFrom_cons, lowerAt_dotted before c rest h1] at h ⊢
        exact List.infix_cons_iff.mp h
      rcases hp with hp | hp
      · exact hhead hp
      · rcases List.infix_cons_iff.mp hp with hq | hq
        · cases w with
          | nil => exact absurd rfl hne
          | cons x w2 =>
            rw [List.cons_prefix_cons] at hq
            have hx : x.toNat < 0x80 := hascii x (List.mem_cons_self _ _)
            rw [hq.1] at hx
            exact absurd hx (by decide)
        · exact htail hq
    · have hone : ∃ d : Char, lowerAt before c rest = [d] := by
        by_cases h2 : c.toNat = 0x3A3
        · obtain ⟨d, hd, _⟩ := lowerAt_sigma before c rest h2
          exact ⟨d, hd⟩
        · exact ⟨_, lowerAt_plain before c rest h1 h2⟩
      obtain ⟨d, hd⟩ := hone
      have hp : w <+: lowerFrom before (c :: rest) ∨ w <:+: lowerFrom (c :: before) rest := by
        rw [lowerFrom_cons, hd] at h ⊢
        exact List.infix_cons_iff.mp h
      rcases hp with hp | hp
      · exact hhead hp
      · exact htail hp

theorem mem_lowerFrom (mid : Str) : ∀ (before : Str) (c : Char), c.toNat = 0x3A3 → c ∈ mid →
    ∃ d ∈ lowerFrom before mid, ¬ d.toNat < 0x80 := by
  induction mid with
  | nil => intro _ c _ hc; cases hc
  | cons a m ih =>
    intro before c hs hc
    rw [lowerFrom_cons]
    rcases List.mem_cons.mp hc with rfl | hc
    · obtain ⟨d, hd, hnd⟩ := lowerAt_sigma before c m hs
      exact ⟨d, List.mem_append_left _ (by rw [hd]; exact List.mem_singleton_self d), hnd⟩
    · obtain ⟨d, hd, hnd⟩ := ih (a :: before) c hs hc
      exact ⟨d, List.mem_append_right _ hd, hnd⟩

theorem lowerAt_context (b1 b2 a1 a2 : Str) (c : Char) (h : c.toNat ≠ 0x3A3) :
    lowerAt b1 c a1 = lowerAt b2 c a2 := by
  unfold lowerAt
  by_cases h1 : c.toNat = 0x130
  · rw [if_pos h1, if_pos h1]
  · rw [if_neg h1, if_neg h1, if_neg h, if_neg h]

theorem lowerFrom_context (mid : Str) (h : ∀ c ∈ mid, c.toNat ≠ 0x3A3) :
    ∀ (b1 b2 rest : Str), lowerFrom b1 (mid ++ rest) =
      lowerFrom b2 mid ++ lowerFrom (mid.reverse ++ b1) rest := by
  induction mid with
  | nil => intro _ _ _; rfl
  | cons c m ih =>
    intro b1 b2 rest
    rw [List.cons_append, lowerFrom_cons, lowerFrom_cons,
      ih (fun d hd => h d (List.mem_cons_of_mem _ hd)) (c :: b1) (c :: b2) rest,
      lowerAt_context b1 b2 (m ++ rest) m c (h c (List.mem_cons_self _ _))]
    simp

/-- A block of the text whose lower case is a word of ASCII characters shows up
as that word in the lower-cased text. -/
theorem lowered_of_block (w text : Str) (hascii : ∀ x ∈ w, x.toNat < 0x80)
    (h : blockLowersTo w text) : w <:+: toLowerCase text := by
  obtain ⟨mid, ⟨a, z, rfl⟩, hlow⟩ := h
  have hns : ∀ c ∈ mid, c.toNat ≠ 0x3A3 := by
    intro c hc hs
    obtain ⟨d, hd, hnd⟩ := mem_lowerFrom mid [] c hs hc
    have hd2 : d ∈ w := by rw [← hlow]; exact hd
    exact hnd (hascii d hd2)
  obtain ⟨p, hp⟩ := lowerFrom_append a (mid ++ z) []
  unfold toLowerCase
  rw [List.append_assoc, hp, lowerFrom_context mid hns _ [] z]
  have hl : lowerFrom [] mid = w := hlow
  rw [hl]
  exact ⟨p, _, by rw [List.append_assoc]⟩

theorem lowered_iff_block (w text : Str) (hne : w ≠ []) (hascii : ∀ x ∈ w, x.toNat < 0x80)
    (hlast : w.getLast? ≠ some 'i') :
    w <:+: toLowerCase text ↔ blockLowersTo w text :=
  ⟨block_of_lowered w hne hascii hlast text [], lowered_of_block w text hascii⟩

theorem words_ok :
    (∀ w ∈ ["already".toList, "taken".toList, "expired".toList],
      w ≠ [] ∧ (∀ x ∈ w, x.toNat < 0x80) ∧ w.getLast? ≠ some 'i') := by
  decide

theorem occursLowered_iff_block (w text : Str)
    (hw : w ∈ ["already".toList, "taken".toList, "expired".toList]) :
    occursLowered w text ↔ blockLowersTo w text :=
  lowered_iff_block w text (words_ok w hw).1 (words_ok w hw).2.1 (words_ok w hw).2.2

theorem alreadyTakenFlag_iff (t : Str) :
    alreadyTakenFlag t = true ↔
      (occursLowered "already".toList t ∨ occursLowered "taken".toList t ∨
        occursLowered "expired".toList t) := by
  simp only [alreadyTakenFlag, Bool.or_eq_true, includes_lower_iff, or_assoc]

theorem words_iff_block (t : Str) :
    (occursLowered "already".toList t ∨ occursLowered "taken".toList t ∨
        occursLowered "expired".toList t) ↔
      (blockLowersTo "already".toList t ∨ blockLowersTo "taken".toList t ∨
        blockLowersTo "expired".toList t) := by
  rw [occursLowered_iff_block _ t (by decide), occursLowered_iff_block _ t (by decide),
    occursLowered_iff_block _ t (by decide)]

theorem anyCase_words (t : Str)
    (h : occursAnyCase "already".toList t ∨ occursAnyCase "taken".toList t ∨
      occursAnyCase "expired".toList t) :
    occursLowered "already".toList t ∨ occursLowered "taken".toList t ∨
      occursLowered "expired".toList t := by
  rcases h with h | h | h
  · exact Or.inl (occursLowered_of_anyCase _ t (by decide) h)
  · exact Or.inr (Or.inl (occursLowered_of_anyCase _ t (by decide) h))
  · exact Or.inr (Or.inr (occursLowered_of_anyCase _ t (by decide) h))

theorem classify_cases (t : Str) :
    (classifyOutcome t = Outcome.accepted ↔
        isJobAcceptedTest t = true ∧ alreadyTakenFlag t = false) ∧
    (classifyOutcome t = Outcome.already_taken ↔ alreadyTakenFlag t = true) ∧
    (classifyOutcome t = Outcome.error ↔
        isJobAcceptedTest t = false ∧ alreadyTakenFlag t = false) := by
  unfold classifyOutcome
  cases isJobAcceptedTest t <;> cases alreadyTakenFlag t <;> simp

theorem isJobAcceptedTest_of_suffix (u : Str) (h : jobAcceptedAt u = true) :
    ∀ t : Str, u <:+ t → isJobAcceptedTest t = true := by
  intro t
  induction t with
  | nil =>
    intro hu
    have : u = [] := List.suffix_nil.mp hu
    subst this
    simpa [isJobAcceptedTest] using h
  | cons c s ih =>
    intro hu
    rcases List.suffix_cons_iff.mp hu with h1 | h1
    · subst h1
      simp [isJobAcceptedTest, h]
    · simp [isJobAcceptedTest, ih h1]

theorem isJobAcceptedTest_of_verbatim (t : Str)
    (h : "Job accepted!".toList <:+: t) : isJobAcceptedTest t = true := by
  obtain ⟨a, b, hab⟩ := h
  apply isJobAcceptedTest_of_suffix ("Job accepted!".toList ++ b)
  · simp [jobAcceptedAt, litI, isJsSpace, List.dropWhile]
  · exact ⟨a, by rw [← hab]; simp⟩

/-- C1. The outcome of the classification is `already_taken` exactly when some
block of the body text is "already", "taken" or "expired" once lower-cased, which
is the spec's "in any letter case"; this is the same as the word being a block of
the text that `toLowerCase` returns, which is what the code tests. Every text that
spells one of the three words in upper-case and lower-case letters is such a
text. The outcome is `already_taken` also when the text holds "Job accepted!"
verbatim, where the pattern for acceptance does match. -/
theorem classify_already_taken_iff (bodyText : Str) :
    (classifyOutcome bodyText = Outcome.already_taken ↔
      (blockLowersTo "already".toList bodyText ∨ blockLowersTo "taken".toList bodyText ∨
        blockLowersTo "expired".toList bodyText)) ∧
    (classifyOutcome bodyText = Outcome.already_taken ↔
      (occursLowered "already".toList bodyText ∨ occursLowered "taken".toList bodyText ∨
        occursLowered "expired".toList bodyText)) ∧
    ((occursAnyCase "already".toList bodyText ∨ occursAnyCase "taken".toList bodyText ∨
        occursAnyCase "expired".toList bodyText) →
      classifyOutcome bodyText = Outcome.already_taken) ∧
    ("Job accepted!".toList <:+: bodyText →
      (blockLowersTo "already".toList bodyText ∨ blockLowersTo "taken".toList bodyText ∨
        blockLowersTo "expired".toList bodyText) →
      isJobAcceptedTest bodyText = true ∧ classifyOutcome bodyText = Outcome.already_taken) := by
  have h := (classify_cases bodyText).2.1.trans (alreadyTakenFlag_iff bodyText)
  have hb := h.trans (words_iff_block bodyText)
  exact ⟨hb, h, fun ho => h.mpr (anyCase_words bodyText ho),
    fun hv ho => ⟨isJobAcceptedTest_of_verbatim bodyText hv, hb.mpr ho⟩⟩

set_option maxRecDepth 100000 in
theorem classify_already_taken_witness :
    isJobAcceptedTest "Job accepted! TA\u212AEN by now".toList = true ∧
      classifyOutcome "Job accepted! TA\u212AEN by now".toList = Outcome.already_taken :=
  (classify_already_taken_iff "Job accepted! TA\u212AEN by now".toList).2.2.2
    (by decide) (Or.inr (Or.inl ⟨"TA\u212AEN".toList, by decide, by decide⟩))

theorem litI_eq_some (pat s r : Str) :
    litI pat s = some r ↔ ∃ m : Str, s = m ++ r ∧ lowerAscii m = lowerAscii pat := by
  induction pat generalizing s with
  | nil =>
    simp only [litI, Option.some.injEq, lowerAscii, List.map_nil, List.map_eq_nil_iff]
    constructor
    · intro h; exact ⟨[], by simp [h], rfl⟩
    · rintro ⟨m, hm, rfl⟩; simpa using hm
  | cons p ps ih =>
    cases s with
    | nil =>
      simp only [litI, lowerAscii, List.map_cons]
      constructor
      · intro h; cases h
      · rintro ⟨m, hm, hl⟩
        have : m = [] := by
          cases m with
          | nil => rfl
          | cons x xs => simp at hm
        subst this
        simp at hl
    | cons c s =>
      simp only [litI, beq_iff_eq]
      constructor
      · intro h
        split at h
        · rename_i hc
          obtain ⟨m, hm, hl⟩ := (ih s).mp h
          refine ⟨c :: m, by simp [hm], ?_⟩
          simp only [lowerAscii, List.map_cons, hc] at hl ⊢
          rw [hl]
        · cases h
      · rintro ⟨m, hm, hl⟩
        cases m with
        | nil => simp [lowerAscii] at hl
        | cons x xs =>
          simp only [lowerAscii, List.map_cons, List.cons.injEq] at hl
          simp only [List.cons_append, List.cons.injEq] at hm
          obtain ⟨rfl, hs⟩ := hm
          rw [if_pos hl.1]
          exact (ih s).mpr ⟨xs, hs, hl.2⟩

theorem toLower_of_isJsSpace (c : Char) (h : isJsSpace c = true) : c.toLower = c := by
  have hn : ¬ (c.toNat ≥ 65 ∧ c.toNat ≤ 90) := by
    simp only [isJsSpace, Bool.or_eq_true, beq_iff_eq, Bool.and_eq_true, decide_eq_true_eq] at h
    omega
  simp only [Char.toLower]
  rw [if_neg hn]

theorem dropWhile_append_of_all {p : Char → Bool} (ws rest : Str)
    (h : ∀ c ∈ ws, p c = true) : (ws ++ rest).dropWhile p = rest.dropWhile p := by
  induction ws with
  | nil => rfl
  | cons x xs ih =>
    have hx : p x = true := h x (List.mem_cons_self _ _)
    simp only [List.cons_append, List.dropWhile_cons, hx, if_true]
    exact ih (fun c hc => h c (List.mem_cons_of_mem _ hc))

theorem jobAcceptedAt_iff (u : Str) :
    jobAcceptedAt u = true ↔
      ∃ j ws a post : Str, u = j ++ (ws ++ (a ++ post)) ∧
        lowerAscii j = "job".toList ∧ ws ≠ [] ∧ (∀ c ∈ ws, isJsSpace c = true) ∧
        lowerAscii a = "accepted".toList := by
  constructor
  · intro h
    unfold jobAcceptedAt at h
    split at h
    · rename_i c r hj
      simp only [Bool.and_eq_true, Option.isSome_iff_exists] at h
      obtain ⟨hc, post, ha⟩ := h
      obtain ⟨j, hu, hjl⟩ := (litI_eq_some _ _ _).mp hj
      obtain ⟨a, hr, hal⟩ := (litI_eq_some _ _ _).mp ha
      refine ⟨j, c :: r.takeWhile isJsSpace, a, post, ?_, hjl, by simp, ?_, hal⟩
      · rw [hu, ← hr]
        simp [List.takeWhile_append_dropWhile]
      · intro x hx
        rcases List.mem_cons.mp hx with rfl | hx
        · exact hc
        · exact (List.mem_takeWhile_imp hx)
    · cases h
  · rintro ⟨j, ws, a, post, rfl, hj, hws, hsp, ha⟩
    cases ws with
    | nil => exact absurd rfl hws
    | cons c ws =>
      have h1 : litI "job".toList (j ++ (c :: ws ++ (a ++ post))) = some (c :: (ws ++ (a ++ post))) :=
        (litI_eq_some _ _ _).mpr ⟨j, rfl, hj⟩
      have hc : isJsSpace c = true := hsp c (List.mem_cons_self _ _)
      have h2 : (ws ++ (a ++ post)).dropWhile isJsSpace = a ++ post := by
        rw [dropWhile_append_of_all ws _ (fun x hx => hsp x (List.mem_cons_of_mem _ hx))]
        cases a with
        | nil => simp [lowerAscii] at ha
        | cons a0 a1 =>
          have ha0 : a0.toLower = 'a' := by
            simp only [lowerAscii, List.map_cons] at ha
            exact (List.cons.inj ha).1
          have : isJsSpace a0 = false := by
            cases hsp0 : isJsSpace a0 with
            | false => rfl
            | true =>
              have := toLower_of_isJsSpace a0 hsp0
              rw [ha0] at this
              rw [← this] at hsp0
              exact absurd hsp0 (by decide)
          simp [List.dropWhile_cons, this]
      have h3 : litI "accepted".toList (a ++ post) = some post :=
        (litI_eq_some _ _ _).mpr ⟨a, rfl, ha⟩
      unfold jobAcceptedAt
      rw [h1]
      simp only [hc, h2, h3, Option.isSome_some, Bool.and_self]

theorem isJobAcceptedTest_iff_suffix (t : Str) :
    isJobAcceptedTest t = true ↔ ∃ u : Str, u <:+ t ∧ jobAcceptedAt u = true := by
  constructor
  · induction t with
    | nil =>
      intro h
      exact ⟨[], List.suffix_refl _, by simpa [isJobAcceptedTest] using h⟩
    | cons c s ih =>
      intro h
      simp only [isJobAcceptedTest, Bool.or_eq_true] at h
      rcases h with h | h
      · exact ⟨c :: s, List.suffix_refl _, h⟩
      · obtain ⟨u, hu, hj⟩ := ih h
        exact ⟨u, hu.trans (List.suffix_cons _ _), hj⟩
  · rintro ⟨u, hu, hj⟩
    exact isJobAcceptedTest_of_suffix u hj t hu

theorem isJobAcceptedTest_iff (t : Str) :
    isJobAcceptedTest t = true ↔ MatchesJobAccepted t := by
  rw [isJobAcceptedTest_iff_suffix]
  constructor
  · rintro ⟨u, ⟨pre, rfl⟩, hj⟩
    obtain ⟨j, ws, a, post, rfl, h⟩ := (jobAcceptedAt_iff u).mp hj
    exact ⟨pre, j, ws, a, post, rfl, h⟩
  · rintro ⟨pre, j, ws, a, post, rfl, h⟩
    exact ⟨j ++ (ws ++ (a ++ post)), ⟨pre, rfl⟩, (jobAcceptedAt_iff _).mpr ⟨j, ws, a, post, rfl, h⟩⟩

/-- C2. The classification yields one of `accepted`, `already_taken` and `error`;
it is `accepted` exactly when the text matches the acceptance pattern and no
block of it is "already", "taken" or "expired" once lower-cased by `toLowerCase`,
and `error` exactly when the text neither matches the pattern nor holds any of
the three words in that sense. -/
theorem classify_accepted_error_iff (bodyText : Str) :
    (classifyOutcome bodyText = Outcome.accepted ∨
      classifyOutcome bodyText = Outcome.already_taken ∨
      classifyOutcome bodyText = Outcome.error) ∧
    (classifyOutcome bodyText = Outcome.accepted ↔
      MatchesJobAccepted bodyText ∧
        ¬ (blockLowersTo "already".toList bodyText ∨ blockLowersTo "taken".toList bodyText ∨
          blockLowersTo "expired".toList bodyText)) ∧
    (classifyOutcome bodyText = Outcome.error ↔
      ¬ MatchesJobAccepted bodyText ∧
        ¬ (blockLowersTo "already".toList bodyText ∨ blockLowersTo "taken".toList bodyText ∨
          blockLowersTo "expired".toList bodyText)) := by
  obtain ⟨h1, h2, h3⟩ := classify_cases bodyText
  refine ⟨?_, ?_, ?_⟩
  · unfold classifyOutcome
    cases isJobAcceptedTest bodyText <;> cases alreadyTakenFlag bodyText <;> simp
  · rw [h1, ← isJobAcceptedTest_iff, ← words_iff_block, ← alreadyTakenFlag_iff]
    simp
  · rw [h3, ← isJobAcceptedTest_iff, ← words_iff_block, ← alreadyTakenFlag_iff]
    simp



/-! ## Theorems: field extraction -/

theorem startsWithI_iff (pat s : Str) :
    (litI pat s).isSome = true ↔
      ∃ mid : Str, mid <+: s ∧ lowerAscii mid = lowerAscii pat := by
  rw [Option.isSome_iff_exists]
  constructor
  · rintro ⟨r, hr⟩
    obtain ⟨m, hs, hm⟩ := (litI_eq_some pat s r).mp hr
    exact ⟨m, ⟨r, hs.symm⟩, hm⟩
  · rintro ⟨m, ⟨r, hs⟩, hm⟩
    exact ⟨r, (litI_eq_some pat s r).mpr ⟨m, hs.symm, hm⟩⟩

theorem searchI_iff (pat s : Str) :
    searchI pat s = true ↔
      ∃ mid : Str, mid <:+: s ∧ lowerAscii mid = lowerAscii pat := by
  induction s with
  | nil =>
    simp only [searchI, startsWithI_iff, List.prefix_nil, List.infix_nil]
  | cons c s ih =>
    simp only [searchI, Bool.or_eq_true, startsWithI_iff, ih, List.infix_cons_iff]
    constructor
    · rintro (⟨m, h1, h2⟩ | ⟨m, h1, h2⟩)
      · exact ⟨m, Or.inl h1, h2⟩
      · exact ⟨m, Or.inr h1, h2⟩
    · rintro ⟨m, h1 | h1, h2⟩
      · exact Or.inl ⟨m, h1, h2⟩
      · exact Or.inr ⟨m, h1, h2⟩

theorem trim_block (s : Str) : trim s <:+: s :=
  (List.rdropWhile_prefix _ _).isInfix.trans (List.dropWhile_suffix _).isInfix

theorem dropWhile_append_cons_neg {p : Char → Bool} (a : Str) (x : Char) (r : Str)
    (hx : p x = false) : (a ++ x :: r).dropWhile p = a.dropWhile p ++ x :: r := by
  induction a with
  | nil => simp [List.dropWhile_cons, hx]
  | cons y ys ih =>
    simp only [List.cons_append, List.dropWhile_cons]
    split
    · exact ih
    · rfl

theorem rdropWhile_append_concat_neg {p : Char → Bool} (l : Str) (x : Char) (b : Str)
    (hx : p x = false) : (l ++ x :: b).rdropWhile p = l ++ x :: b.rdropWhile p := by
  simp only [List.rdropWhile, List.reverse_append, List.reverse_cons, List.append_assoc]
  rw [show b.reverse ++ ([x] ++ l.reverse) = b.reverse ++ x :: l.reverse by simp]
  rw [dropWhile_append_cons_neg _ _ _ hx]
  simp

/-- A block that starts and ends with a character that is not white space survives `trim`. -/
theorem infix_trim_of_ends (mid s : Str) (h : mid <:+: s) (x y : Char) (m : Str)
    (hmid : mid = x :: m) (hlast : mid.getLast? = some y)
    (hx : isJsSpace x = false) (hy : isJsSpace y = false) : mid <:+: trim s := by
  obtain ⟨a, b, rfl⟩ := h
  obtain ⟨m2, hm2⟩ := List.getLast?_eq_some_iff.mp hlast
  unfold trim
  have e1 : (a ++ mid ++ b).dropWhile isJsSpace = a.dropWhile isJsSpace ++ mid ++ b := by
    rw [hmid]
    simp only [List.append_assoc, List.cons_append]
    exact dropWhile_append_cons_neg a x (m ++ b) hx
  rw [e1, hm2]
  have e2 : (a.dropWhile isJsSpace ++ (m2 ++ [y]) ++ b).rdropWhile isJsSpace =
      (a.dropWhile isJsSpace ++ m2) ++ y :: b.rdropWhile isJsSpace := by
    rw [← rdropWhile_append_concat_neg _ _ _ hy]
    simp
  rw [e2]
  exact ⟨a.dropWhile isJsSpace, b.rdropWhile isJsSpace, by simp⟩

theorem not_isJsSpace_of_toLower (c p : Char) (h : c.toLower = p)
    (hp : isJsSpace p = false) : isJsSpace c = false := by
  cases hc : isJsSpace c with
  | false => rfl
  | true =>
    have := toLower_of_isJsSpace c hc
    rw [h] at this
    rw [← this, hp] at hc
    exact hc.symm

/-- Trimming the text does not change the outcome of the test `/accept/i`. -/
theorem searchI_accept_trim (s : Str) :
    searchI "accept".toList (trim s) = searchI "accept".toList s := by
  rw [Bool.eq_iff_iff, searchI_iff, searchI_iff]
  constructor
  · rintro ⟨m, h1, h2⟩
    exact ⟨m, h1.trans (trim_block s), h2⟩
  · rintro ⟨m, h1, h2⟩
    refine ⟨m, ?_, h2⟩
    match m, h2 with
    | [c1, c2, c3, c4, c5, c6], h2 =>
      simp only [lowerAscii, List.map_cons, List.map_nil] at h2
      have h2 : [c1.toLower, c2.toLower, c3.toLower, c4.toLower, c5.toLower, c6.toLower] =
          ['a', 'c', 'c', 'e', 'p', 't'] := h2
      simp only [List.cons.injEq, and_true] at h2
      exact infix_trim_of_ends _ s h1 c1 c6 _ rfl rfl
        (not_isJsSpace_of_toLower c1 _ h2.1 (by decide))
        (not_isJsSpace_of_toLower c6 _ h2.2.2.2.2.2 (by decide))
    | [], h2 => simp [lowerAscii] at h2
    | [_], h2 => simp [lowerAscii] at h2
    | [_, _], h2 => simp [lowerAscii] at h2
    | [_, _, _], h2 => simp [lowerAscii] at h2
    | [_, _, _, _], h2 => simp [lowerAscii] at h2
    | [_, _, _, _, _], h2 => simp [lowerAscii] at h2
    | _ :: _ :: _ :: _ :: _ :: _ :: _ :: _, h2 => simp [lowerAscii] at h2

/-- Trimming the text does not change the outcome of the test `/decline/i`. -/
theorem searchI_decline_trim (s : Str) :
    searchI "decline".toList (trim s) = searchI "decline".toList s := by
  rw [Bool.eq_iff_iff, searchI_iff, searchI_iff]
  constructor
  · rintro ⟨m, h1, h2⟩
    exact ⟨m, h1.trans (trim_block s), h2⟩
  · rintro ⟨m, h1, h2⟩
    refine ⟨m, ?_, h2⟩
    match m, h2 with
    | [c1, c2, c3, c4, c5, c6, c7], h2 =>
      simp only [lowerAscii, List.map_cons, List.map_nil] at h2
      have h2 : [c1.toLower, c2.toLower, c3.toLower, c4.toLower, c5.toLower, c6.toLower,
          c7.toLower] = ['d', 'e', 'c', 'l', 'i', 'n', 'e'] := h2
      simp only [List.cons.injEq, and_true] at h2
      exact infix_trim_of_ends _ s h1 c1 c7 _ rfl rfl
        (not_isJsSpace_of_toLower c1 _ h2.1 (by decide))
        (not_isJsSpace_of_toLower c7 _ h2.2.2.2.2.2.2 (by decide))
    | [], h2 => simp [lowerAscii] at h2
    | [_], h2 => simp [lowerAscii] at h2
    | [_, _], h2 => simp [lowerAscii] at h2
    | [_, _, _], h2 => simp [lowerAscii] at h2
    | [_, _, _, _], h2 => simp [lowerAscii] at h2
    | [_, _, _, _, _], h2 => simp [lowerAscii] at h2
    | [_, _, _, _, _, _], h2 => simp [lowerAscii] at h2
    | _ :: _ :: _ :: _ :: _ :: _ :: _ :: _ :: _, h2 => simp [lowerAscii] at h2

theorem tokenAt_eq_some (s tok : Str) (h : tokenAt s = some tok) :
    ∃ d rest, s = '/' :: 'e' :: 'y' :: d :: rest ∧ isDelim d = false := by
  unfold tokenAt at h
  split at h
  · rename_i rest
    cases rest with
    | nil => simp at h
    | cons d rest =>
      refine ⟨d, rest, rfl, ?_⟩
      cases hd : isDelim d with
      | false => rfl
      | true => simp [List.takeWhile_cons, hd] at h
  · cases h

theorem tokenAt_of_isToken (t : Str) (h : isToken t = true) :
    tokenAt ('/' :: t) = some t := by
  unfold isToken at h
  split at h
  · rename_i c rest
    have hall : ∀ x ∈ c :: rest, (!isDelim x) = true := by
      simpa [List.all_eq_true] using h
    have h1 : (c :: rest).takeWhile (fun x => !isDelim x) = c :: rest :=
      List.takeWhile_eq_self_iff.mpr hall
    have h2 : (c :: rest).dropWhile (fun x => !isDelim x) = [] :=
      List.dropWhile_eq_nil_iff.mpr hall
    simp only [tokenAt, h1, h2]
    simp
  · cases h

theorem matchToken_append (p t : Str) (hp : hasEySegment p = false)
    (ht : isToken t = true) : matchToken (p ++ '/' :: t) = some t := by
  induction p with
  | nil =>
    simp only [List.nil_append, matchToken, tokenAt_of_isToken t ht]
  | cons x p ih =>
    simp only [hasEySegment, Bool.or_eq_false_iff] at hp
    have hnone : tokenAt (x :: (p ++ '/' :: t)) = none := by
      cases hk : tokenAt (x :: (p ++ '/' :: t)) with
      | none => rfl
      | some tok =>
        exfalso
        obtain ⟨d, rest, hs, hd⟩ := tokenAt_eq_some _ _ hk
        have hx : x = '/' := (List.cons.inj hs).1
        have hr : p ++ '/' :: t = 'e' :: 'y' :: d :: rest := (List.cons.inj hs).2
        subst hx
        match p, hr, hp with
        | [], hr, _ => exact absurd (List.cons.inj hr).1 (by decide)
        | [_], hr, _ =>
          exact absurd (List.cons.inj (List.cons.inj hr).2).1 (by decide)
        | [_, _], hr, _ =>
          have : '/' = d := (List.cons.inj (List.cons.inj (List.cons.inj hr).2).2).1
          rw [← this] at hd
          exact absurd hd (by decide)
        | a :: b :: c :: p2, hr, hp =>
          have ha : a = 'e' := (List.cons.inj hr).1
          have hb : b = 'y' := (List.cons.inj (List.cons.inj hr).2).1
          have hc : c = d := (List.cons.inj (List.cons.inj (List.cons.inj hr).2).2).1
          subst ha hb hc
          have := hp.1
          simp [eySegmentAt, hd] at this
    show matchToken (x :: (p ++ '/' :: t)) = some t
    rw [matchToken, hnone]
    exact ih hp.2

theorem hasEySegment_suffix (p q : Str) (h : q <:+ p) (hp : hasEySegment p = false) :
    hasEySegment q = false := by
  induction p with
  | nil =>
    have : q = [] := List.suffix_nil.mp h
    subst this
    rfl
  | cons x p ih =>
    rcases List.suffix_cons_iff.mp h with h1 | h1
    · subst h1; exact hp
    · simp only [hasEySegment, Bool.or_eq_false_iff] at hp
      exact ih h1 hp.2

theorem isToken_ne_nil (t : Str) (h : isToken t = true) :
    ∃ c rest, t = 'e' :: 'y' :: c :: rest := by
  unfold isToken at h
  split at h
  · exact ⟨_, _, rfl⟩
  · cases h

theorem trim_href (p t : Str) (ht : isToken t = true) (hend : endsInSpace t = false) :
    trim (p ++ '/' :: t) = p.dropWhile isJsSpace ++ '/' :: t := by
  obtain ⟨c, rest, hte⟩ := isToken_ne_nil t ht
  have hne : t ≠ [] := by rw [hte]; simp
  obtain ⟨y, hy⟩ : ∃ y, t.getLast? = some y := by
    cases hl : t.getLast? with
    | none => exact absurd (List.getLast?_eq_none_iff.mp hl) hne
    | some y => exact ⟨y, rfl⟩
  have hysp : isJsSpace y = false := by
    simpa [endsInSpace, hy] using hend
  obtain ⟨t2, ht2⟩ := List.getLast?_eq_some_iff.mp hy
  unfold trim
  rw [dropWhile_append_cons_neg p '/' t (by decide), ht2]
  have : p.dropWhile isJsSpace ++ '/' :: (t2 ++ [y]) =
      (p.dropWhile isJsSpace ++ '/' :: t2) ++ y :: [] := by simp
  rw [this, rdropWhile_append_concat_neg _ _ _ hysp]
  simp [List.rdropWhile]

theorem extractToken_of_href (p t : Str) (hp : hasEySegment p = false)
    (ht : isToken t = true) (hend : endsInSpace t = false) :
    extractTokenFromHref (some (p ++ '/' :: t)) = some t := by
  have hne : ∃ c s, p ++ '/' :: t = c :: s := by
    cases p with
    | nil => exact ⟨_, _, rfl⟩
    | cons x p => exact ⟨_, _, rfl⟩
  obtain ⟨c, s, hcs⟩ := hne
  rw [hcs]
  simp only [extractTokenFromHref]
  rw [← hcs, trim_href p t ht hend]
  exact matchToken_append _ t
    (hasEySegment_suffix p _ (List.dropWhile_suffix _) hp) ht

theorem buildAcceptUrl_of_isToken (t : Str) (ht : isToken t = true) :
    buildAcceptUrl (some t) = some (ACCEPT_JOB_BASE_URL ++ "/".toList ++ t) := by
  obtain ⟨c, rest, rfl⟩ := isToken_ne_nil t ht
  simp [buildAcceptUrl, startsWith]

theorem chooseAcceptUrl_of_token (h : Hrefs) (t : Str) (ht : isToken t = true)
    (hx : extractTokenFromHref h.acceptHref = some t) :
    chooseAcceptUrl h = some (ACCEPT_JOB_BASE_URL ++ "/".toList ++ t) := by
  obtain ⟨c, rest, hte⟩ := isToken_ne_nil t ht
  unfold chooseAcceptUrl
  simp only [hx]
  rw [hte]
  simp only [orNull, truthy, if_true]
  rw [← hte]
  exact buildAcceptUrl_of_isToken t ht

theorem linkStep_eq (h : Hrefs) (el : Anchor) :
    linkStep h el =
      if searchI "accept".toList el.text = true then
        { h with acceptHref := some (orStr el.href []) }
      else if searchI "decline".toList el.text = true then
        { h with declineHref := some (orStr el.href []) }
      else h := by
  rw [← searchI_accept_trim, ← searchI_decline_trim]
  rfl

theorem linkStep_accept (h : Hrefs) (el : Anchor)
    (ha : searchI "accept".toList el.text = true) :
    (linkStep h el).acceptHref = some (orStr el.href []) := by
  rw [linkStep_eq, if_pos ha]

theorem linkStep_not_accept (h : Hrefs) (el : Anchor)
    (ha : searchI "accept".toList el.text = false) :
    (linkStep h el).acceptHref = h.acceptHref := by
  rw [linkStep_eq, if_neg (by rw [ha]; exact Bool.false_ne_true)]
  split <;> rfl

theorem linkStep_neither (h : Hrefs) (el : Anchor)
    (ha : searchI "accept".toList el.text = false)
    (hd : searchI "decline".toList el.text = false) :
    linkStep h el = h := by
  rw [linkStep_eq, if_neg (by rw [ha]; exact Bool.false_ne_true),
    if_neg (by rw [hd]; exact Bool.false_ne_true)]

theorem foldl_linkStep_not_accept (ls : List Anchor) (h : Hrefs)
    (hls : ∀ a ∈ ls, searchI "accept".toList a.text = false) :
    (ls.foldl linkStep h).acceptHref = h.acceptHref := by
  induction ls generalizing h with
  | nil => rfl
  | cons a ls ih =>
    rw [List.foldl_cons, ih _ (fun b hb => hls b (List.mem_cons_of_mem _ hb)),
      linkStep_not_accept h a (hls a (List.mem_cons_self _ _))]

theorem foldl_linkStep_neither (ls : List Anchor) (h : Hrefs)
    (hls : ∀ a ∈ ls, searchI "accept".toList a.text = false ∧
      searchI "decline".toList a.text = false) :
    ls.foldl linkStep h = h := by
  induction ls generalizing h with
  | nil => rfl
  | cons a ls ih =>
    rw [List.foldl_cons, linkStep_neither h a (hls a (List.mem_cons_self _ _)).1
      (hls a (List.mem_cons_self _ _)).2]
    exact ih _ (fun b hb => hls b (List.mem_cons_of_mem _ hb))

theorem buildAcceptUrl_ne_nil (tok : Option Str) (u : Str)
    (hu : buildAcceptUrl tok = some u) : u ≠ [] := by
  unfold buildAcceptUrl at hu
  split at hu
  · cases hu
  · cases hu
  · split at hu
    · cases hu
    · cases hu
      simp [ACCEPT_JOB_BASE_URL]

theorem chooseAcceptUrl_ne_nil (h : Hrefs) (u : Str) (hu : chooseAcceptUrl h = some u) :
    u ≠ [] := by
  simp only [chooseAcceptUrl] at hu
  split at hu
  · exact buildAcceptUrl_ne_nil _ u hu
  · split at hu
    · rename_i ht
      rw [hu] at ht
      intro hnil
      rw [hnil] at ht
      simp [truthy] at ht
    · cases hu

/-- C3, as amended. When the only link whose text matches `/accept/i` has an href
of the form `pre/t`, where `t` matches `^ey[^/?#]+$` and does not end in white
space and `pre` holds no path segment starting with `ey`, `extractTokenFromHref`
returns `t` and `parseEmailHtml` returns the fixed base, a slash and `t`. -/
theorem parse_acceptUrl_of_token (ch : Cheerio) (html : Str) (before after : List Anchor)
    (text pre t : Str)
    (hdoc : ch.anchors html =
      before ++ { text := text, href := some (pre ++ '/' :: t) } :: after)
    (htext : searchI "accept".toList text = true)
    (_hbefore : ∀ a ∈ before, searchI "accept".toList a.text = false)
    (hafter : ∀ a ∈ after, searchI "accept".toList a.text = false)
    (ht : isToken t = true) (hend : endsInSpace t = false)
    (hpre : hasEySegment pre = false) :
    extractTokenFromHref (some (pre ++ '/' :: t)) = some t ∧
      (parseEmailHtml ch html).acceptUrl =
        some ("https://login.theappliancerepairmen.com/job/accept/".toList ++ t) := by
  have hx := extractToken_of_href pre t hpre ht hend
  refine ⟨hx, ?_⟩
  have hne : ∃ c s, pre ++ '/' :: t = c :: s := by
    cases pre with
    | nil => exact ⟨_, _, rfl⟩
    | cons x p => exact ⟨_, _, rfl⟩
  obtain ⟨c, s, hcs⟩ := hne
  have hacc : (scanLinks (ch.anchors html)).acceptHref = some (pre ++ '/' :: t) := by
    rw [hdoc, scanLinks, List.foldl_append, List.foldl_cons,
      foldl_linkStep_not_accept after _ hafter, linkStep_accept _ _ htext]
    simp only [hcs, orStr]
  show chooseAcceptUrl (scanLinks (ch.anchors html)) = _
  rw [chooseAcceptUrl_of_token _ t ht (by rw [hacc]; exact hx)]
  simp [ACCEPT_JOB_BASE_URL]

theorem parse_acceptUrl_of_token_witness :
    extractTokenFromHref (some ("https://dispatch.example.com/offer".toList ++
        '/' :: "eyABC123".toList)) = some "eyABC123".toList ∧
      (parseEmailHtml
        (fixedDoc
          [{ text := "Accept Job".toList,
             href := some ("https://dispatch.example.com/offer".toList ++
               '/' :: "eyABC123".toList) },
           { text := "Decline".toList, href := some "https://dispatch.example.com/no".toList }]
          []) "<html></html>".toList).acceptUrl =
        some ("https://login.theappliancerepairmen.com/job/accept/".toList ++
          "eyABC123".toList) :=
  parse_acceptUrl_of_token _ "<html></html>".toList []
    [{ text := "Decline".toList, href := some "https://dispatch.example.com/no".toList }]
    "Accept Job".toList "https://dispatch.example.com/offer".toList "eyABC123".toList
    rfl (by decide) (by decide) (by decide) (by decide) (by decide) (by decide)

/-- C3 fails as stated. The token `eyABC` matches `^ey[^/?#]+$` and the accept
link's href is `https://dispatch.example.com/eyes` followed by a slash and the
token, yet the URL returned is built from `eyes`, the first path segment of the
href that starts with `ey`. -/
theorem parse_token_counterexample :
    isToken "eyABC".toList = true ∧
      extractTokenFromHref
        (some ("https://dispatch.example.com/eyes".toList ++ '/' :: "eyABC".toList)) =
        some "eyes".toList ∧
      (parseEmailHtml
        (fixedDoc
          [{ text := "Accept Job".toList,
             href := some ("https://dispatch.example.com/eyes".toList ++
               '/' :: "eyABC".toList) }] [])
        "<html></html>".toList).acceptUrl =
        some ("https://login.theappliancerepairmen.com/job/accept/".toList ++
          "eyes".toList) ∧
      (parseEmailHtml
        (fixedDoc
          [{ text := "Accept Job".toList,
             href := some ("https://dispatch.example.com/eyes".toList ++
               '/' :: "eyABC".toList) }] [])
        "<html></html>".toList).acceptUrl ≠
        some ("https://login.theappliancerepairmen.com/job/accept/".toList ++
          "eyABC".toList) := by
  decide

/-! ## Theorems: the offer pipeline -/

theorem parse_no_links (ch : Cheerio) (html : Str)
    (hlinks : ∀ a ∈ ch.anchors html, searchI "accept".toList a.text = false ∧
      searchI "decline".toList a.text = false) :
    (parseEmailHtml ch html).acceptUrl = none := by
  show chooseAcceptUrl (scanLinks (ch.anchors html)) = none
  rw [scanLinks, foldl_linkStep_neither _ _ hlinks]
  rfl

theorem processWebhook_no_url (env : Env) (body : Body) (w : World)
    (hne : orStr body.html (orStr body.HtmlBody []) ≠ [])
    (hurl : (parseEmailHtml env.cheerio
      (orStr body.html (orStr body.HtmlBody []))).acceptUrl = none) :
    processWebhook env body w =
      ({ statusCode := 200,
         data := { status := "skipped",
                   reason := some "No Accept Job link found in the email",
                   message := none, detail := none,
                   subject := some (orStr body.subject (orStr body.Subject [])),
                   zipCode := none, jobAddress := none, appliances := none,
                   acceptUrl := none, acceptResult := none } }, w) := by
  have h1 : (orStr body.html (orStr body.HtmlBody [])).isEmpty = false := by
    cases h : orStr body.html (orStr body.HtmlBody []) with
    | nil => exact absurd h hne
    | cons c s => rfl
  simp only [processWebhook, h1, hurl, truthy]
  simp

/-- C4. When the payload has a non-empty HTML body in which no link has a text
matching `/accept/i` or `/decline/i`, `parseEmailHtml` returns no accept URL and
`processWebhook` answers 200, "skipped", "No Accept Job link found in the email",
leaving the world as it was: no call of `visitAcceptLink`, no request, no call of
`logError` or `logSuccess`, no document written. -/
theorem no_link_skipped (env : Env) (body : Body) (w : World) (html : Str)
    (hhtml : orStr body.html (orStr body.HtmlBody []) = html) (hne : html ≠ [])
    (hlinks : ∀ a ∈ env.cheerio.anchors html, searchI "accept".toList a.text = false ∧
      searchI "decline".toList a.text = false) :
    (parseEmailHtml env.cheerio html).acceptUrl = none ∧
      (processWebhook env body w).1.statusCode = 200 ∧
      (processWebhook env body w).1.data.status = "skipped" ∧
      (processWebhook env body w).1.data.reason =
        some "No Accept Job link found in the email" ∧
      (processWebhook env body w).2 = w := by
  subst hhtml
  have hp := parse_no_links env.cheerio _ hlinks
  rw [processWebhook_no_url env body w hne hp]
  exact ⟨hp, rfl, rfl, rfl, rfl⟩

theorem no_link_skipped_witness :
    (parseEmailHtml
        (fixedEnv (fixedDoc
          [{ text := "Unsubscribe".toList, href := some "https://news.example.com/u".toList }]
          []) (Except.error { message := "timeout".toList, response := none })).cheerio
        "<p>Weekly news</p>".toList).acceptUrl = none ∧
      (processWebhook
        (fixedEnv (fixedDoc
          [{ text := "Unsubscribe".toList, href := some "https://news.example.com/u".toList }]
          []) (Except.error { message := "timeout".toList, response := none }))
        { subject := some "News".toList, Subject := none,
          html := some "<p>Weekly news</p>".toList, HtmlBody := none }
        { calls := [], errorLogs := [] }).1.statusCode = 200 ∧
      (processWebhook
        (fixedEnv (fixedDoc
          [{ text := "Unsubscribe".toList, href := some "https://news.example.com/u".toList }]
          []) (Except.error { message := "timeout".toList, response := none }))
        { subject := some "News".toList, Subject := none,
          html := some "<p>Weekly news</p>".toList, HtmlBody := none }
        { calls := [], errorLogs := [] }).1.data.status = "skipped" ∧
      (processWebhook
        (fixedEnv (fixedDoc
          [{ text := "Unsubscribe".toList, href := some "https://news.example.com/u".toList }]
          []) (Except.error { message := "timeout".toList, response := none }))
        { subject := some "News".toList, Subject := none,
          html := some "<p>Weekly news</p>".toList, HtmlBody := none }
        { calls := [], errorLogs := [] }).1.data.reason =
        some "No Accept Job link found in the email" ∧
      (processWebhook
        (fixedEnv (fixedDoc
          [{ text := "Unsubscribe".toList, href := some "https://news.example.com/u".toList }]
          []) (Except.error { message := "timeout".toList, response := none }))
        { subject := some "News".toList, Subject := none,
          html := some "<p>Weekly news</p>".toList, HtmlBody := none }
        { calls := [], errorLogs := [] }).2 = { calls := [], errorLogs := [] } :=
  no_link_skipped _ _ _ "<p>Weekly news</p>".toList rfl (by decide) (by decide)

theorem logError_eq (env : Env) (a : LogArgs) (w : World) :
    logError env a w =
      match env.insertFails w (errorDoc (env.now w) a) with
      | some msg =>
        (Except.error { message := msg, response := none },
          { calls := w.calls ++ [Call.logError a], errorLogs := w.errorLogs })
      | none =>
        (Except.ok w.errorLogs.length,
          { calls := w.calls ++ [Call.logError a],
            errorLogs := w.errorLogs ++ [errorDoc (env.now w) a] }) := rfl

theorem logSuccess_eq (env : Env) (a : LogArgs) (w : World) :
    logSuccess env a w =
      match env.insertFails w (successDoc (env.now w) a) with
      | some msg =>
        (Except.error { message := msg, response := none },
          { calls := w.calls ++ [Call.logSuccess a], errorLogs := w.errorLogs })
      | none =>
        (Except.ok w.errorLogs.length,
          { calls := w.calls ++ [Call.logSuccess a],
            errorLogs := w.errorLogs ++ [successDoc (env.now w) a] }) := rfl

theorem logError_calls (env : Env) (a : LogArgs) (w : World) :
    (logError env a w).2.calls = w.calls ++ [Call.logError a] := by
  rw [logError_eq]
  split <;> rfl

theorem logSuccess_calls (env : Env) (a : LogArgs) (w : World) :
    (logSuccess env a w).2.calls = w.calls ++ [Call.logSuccess a] := by
  rw [logSuccess_eq]
  split <;> rfl

theorem calls_of_logError {env : Env} {a : LogArgs} {w w2 : World}
    {r : Except JsError Nat} (h : logError env a w = (r, w2)) :
    w2.calls = w.calls ++ [Call.logError a] := by
  have := logError_calls env a w
  rw [h] at this
  exact this

theorem calls_of_logSuccess {env : Env} {a : LogArgs} {w w2 : World}
    {r : Except JsError Nat} (h : logSuccess env a w = (r, w2)) :
    w2.calls = w.calls ++ [Call.logSuccess a] := by
  have := logSuccess_calls env a w
  rw [h] at this
  exact this

theorem visitTry_calls (env : Env) (url : Str) (ja : Option Str) (w : World) :
    ∃ rest, (visitTry env url ja w).2.calls = w.calls ++ Call.axiosGet url :: rest := by
  simp only [visitTry]
  split
  · exact ⟨[], rfl⟩
  · split
    · split
      · rename_i h
        exact ⟨[_], by rw [calls_of_logError h, List.append_assoc]; rfl⟩
      · rename_i h
        exact ⟨[_], by rw [calls_of_logError h, List.append_assoc]; rfl⟩
    · split
      · rename_i h
        exact ⟨[_], by rw [calls_of_logSuccess h, List.append_assoc]; rfl⟩
      · rename_i h
        exact ⟨[_], by rw [calls_of_logSuccess h, List.append_assoc]; rfl⟩

theorem visitCatch_calls (env : Env) (url : Str) (ja : Option Str) (e : JsError)
    (w : World) :
    ∃ a, (visitCatch env url ja e w).2.calls = w.calls ++ [Call.logError a] := by
  simp only [visitCatch]
  split
  · rename_i h
    exact ⟨_, calls_of_logError h⟩
  · rename_i h
    exact ⟨_, calls_of_logError h⟩

theorem visitAcceptLink_calls (env : Env) (url : Str) (ja : Option Str) (w : World) :
    ∃ rest, (visitAcceptLink env url ja w).2.calls =
      w.calls ++ Call.visitAcceptLink url ja :: Call.axiosGet url :: rest := by
  obtain ⟨rest, hr⟩ := visitTry_calls env url ja
    { w with calls := w.calls ++ [Call.visitAcceptLink url ja] }
  simp only [visitAcceptLink]
  split
  · rename_i h
    rw [h] at hr
    exact ⟨rest, by rw [hr, List.append_assoc]; rfl⟩
  · rename_i error w1 h
    rw [h] at hr
    obtain ⟨a, ha⟩ := visitCatch_calls env url ja error w1
    rw [ha]
    have hr2 : w1.calls = w.calls ++ Call.visitAcceptLink url ja :: Call.axiosGet url :: rest := by
      rw [hr, List.append_assoc]; rfl
    rw [hr2]
    exact ⟨rest ++ [Call.logError a], by rw [List.append_assoc]; rfl⟩

theorem isEmpty_false_of_ne_nil (s : Str) (h : s ≠ []) : s.isEmpty = false := by
  cases s with
  | nil => exact absurd rfl h
  | cons c s => rfl

theorem truthy_of_ne_nil (u : Str) (h : u ≠ []) : truthy (some u) = true := by
  cases u with
  | nil => exact absurd rfl h
  | cons c s => rfl

theorem orStr_of_ne_nil (u d : Str) (h : u ≠ []) : orStr (some u) d = u := by
  cases u with
  | nil => exact absurd rfl h
  | cons c s => rfl

theorem processWebhook_blocked (env : Env) (body : Body) (w : World) (url : Str)
    (hne : orStr body.html (orStr body.HtmlBody []) ≠ [])
    (hurl : (parseEmailHtml env.cheerio
      (orStr body.html (orStr body.HtmlBody []))).acceptUrl = some url)
    (hzip : zipAllowed (parseEmailHtml env.cheerio
      (orStr body.html (orStr body.HtmlBody []))).zipCode = false) :
    processWebhook env body w =
      ({ statusCode := 200,
         data := { status := "skipped", reason := some "Zip code not in allowed list",
                   message := none, detail := none,
                   subject := some (orStr body.subject (orStr body.Subject [])),
                   zipCode := some (parseEmailHtml env.cheerio
                     (orStr body.html (orStr body.HtmlBody []))).zipCode,
                   jobAddress := none,
                   appliances := some (parseEmailHtml env.cheerio
                     (orStr body.html (orStr body.HtmlBody []))).appliances,
                   acceptUrl := none, acceptResult := none } }, w) := by
  have h1 := isEmpty_false_of_ne_nil _ hne
  have h2 : truthy (some url) = true :=
    truthy_of_ne_nil url (chooseAcceptUrl_ne_nil _ url hurl)
  simp only [processWebhook, h1, hurl, h2, hzip]
  simp

theorem processWebhook_allowed (env : Env) (body : Body) (w : World) (url : Str)
    (hne : orStr body.html (orStr body.HtmlBody []) ≠ [])
    (hurl : (parseEmailHtml env.cheerio
      (orStr body.html (orStr body.HtmlBody []))).acceptUrl = some url)
    (hzip : zipAllowed (parseEmailHtml env.cheerio
      (orStr body.html (orStr body.HtmlBody []))).zipCode = true) :
    (processWebhook env body w).2 =
      (visitAcceptLink env url (parseEmailHtml env.cheerio
        (orStr body.html (orStr body.HtmlBody []))).jobAddress w).2 := by
  have h1 := isEmpty_false_of_ne_nil _ hne
  have hu := chooseAcceptUrl_ne_nil _ url hurl
  have h2 : truthy (some url) = true := truthy_of_ne_nil url hu
  have h3 : orStr (some url) [] = url := orStr_of_ne_nil url [] hu
  simp only [processWebhook, h1, hurl, h2, hzip, h3]
  simp only [Bool.false_eq_true, if_false, Bool.not_true]
  split <;> rename_i h <;> rw [h]

/-- C5. For an offer with an accept URL: when the zip code extracted is `null` or
is not an element of `ALLOWED_ZIP_CODES`, the eligibility test is false and
`processWebhook` answers 200, "skipped", "Zip code not in allowed list", leaving
the world as it was (no call of `visitAcceptLink`, no request, no audit entry);
when the zip code is an element of the list, the test is true and the pipeline
runs `visitAcceptLink` on the accept URL, which issues the request. -/
theorem zip_gate (env : Env) (body : Body) (w : World) (html url : Str)
    (hhtml : orStr body.html (orStr body.HtmlBody []) = html) (hne : html ≠ [])
    (hurl : (parseEmailHtml env.cheerio html).acceptUrl = some url) :
    (((parseEmailHtml env.cheerio html).zipCode = none ∨
        ∃ z, (parseEmailHtml env.cheerio html).zipCode = some z ∧ z ∉ ALLOWED_ZIP_CODES) →
      zipAllowed (parseEmailHtml env.cheerio html).zipCode = false ∧
        (processWebhook env body w).1.statusCode = 200 ∧
        (processWebhook env body w).1.data.status = "skipped" ∧
        (processWebhook env body w).1.data.reason = some "Zip code not in allowed list" ∧
        (processWebhook env body w).2 = w) ∧
    (∀ z, (parseEmailHtml env.cheerio html).zipCode = some z → z ∈ ALLOWED_ZIP_CODES →
      zipAllowed (parseEmailHtml env.cheerio html).zipCode = true ∧
        (processWebhook env body w).2 =
          (visitAcceptLink env url (parseEmailHtml env.cheerio html).jobAddress w).2 ∧
        ∃ rest, (processWebhook env body w).2.calls =
          w.calls ++ Call.visitAcceptLink url (parseEmailHtml env.cheerio html).jobAddress ::
            Call.axiosGet url :: rest) := by
  subst hhtml
  constructor
  · intro hz
    have hzip : zipAllowed (parseEmailHtml env.cheerio
        (orStr body.html (orStr body.HtmlBody []))).zipCode = false := by
      rcases hz with hz | ⟨z, hz, hmem⟩
      · rw [hz]; rfl
      · rw [hz]
        simp only [zipAllowed, Bool.and_eq_false_iff]
        right
        simpa using hmem
    rw [processWebhook_blocked env body w url hne hurl hzip]
    exact ⟨hzip, rfl, rfl, rfl, rfl⟩
  · intro z hz hmem
    have hzne : z ≠ [] := by
      intro h
      rw [h] at hmem
      exact absurd hmem (by decide)
    have hzip : zipAllowed (parseEmailHtml env.cheerio
        (orStr body.html (orStr body.HtmlBody []))).zipCode = true := by
      rw [hz]
      simp only [zipAllowed, Bool.and_eq_true]
      exact ⟨truthy_of_ne_nil z hzne, by simpa using hmem⟩
    have hw := processWebhook_allowed env body w url hne hurl hzip
    refine ⟨hzip, hw, ?_⟩
    rw [hw]
    exact visitAcceptLink_calls env url _ w

theorem zip_gate_witness :
    (zipAllowed (parseEmailHtml (sampleOffer "12 Main St, Nowhere, Illinois 99999".toList)
        "<html>offer</html>".toList).zipCode = false ∧
      (processWebhook
        (fixedEnv (sampleOffer "12 Main St, Nowhere, Illinois 99999".toList)
          (okResponse "Job accepted!".toList)) sampleBody emptyWorld).1.statusCode = 200 ∧
      (processWebhook
        (fixedEnv (sampleOffer "12 Main St, Nowhere, Illinois 99999".toList)
          (okResponse "Job accepted!".toList)) sampleBody emptyWorld).1.data.status =
        "skipped" ∧
      (processWebhook
        (fixedEnv (sampleOffer "12 Main St, Nowhere, Illinois 99999".toList)
          (okResponse "Job accepted!".toList)) sampleBody emptyWorld).1.data.reason =
        some "Zip code not in allowed list" ∧
      (processWebhook
        (fixedEnv (sampleOffer "12 Main St, Nowhere, Illinois 99999".toList)
          (okResponse "Job accepted!".toList)) sampleBody emptyWorld).2 = emptyWorld) ∧
    (zipAllowed (parseEmailHtml (sampleOffer "1611 lacey ave, Lisle, Illinois 60532".toList)
        "<html>offer</html>".toList).zipCode = true ∧
      (processWebhook
        (fixedEnv (sampleOffer "1611 lacey ave, Lisle, Illinois 60532".toList)
          (okResponse "Job accepted!".toList)) sampleBody emptyWorld).2 =
        (visitAcceptLink
          (fixedEnv (sampleOffer "1611 lacey ave, Lisle, Illinois 60532".toList)
            (okResponse "Job accepted!".toList))
          "https://login.theappliancerepairmen.com/job/accept/eyABC123".toList
          (parseEmailHtml (sampleOffer "1611 lacey ave, Lisle, Illinois 60532".toList)
            "<html>offer</html>".toList).jobAddress emptyWorld).2 ∧
      ∃ rest, (processWebhook
        (fixedEnv (sampleOffer "1611 lacey ave, Lisle, Illinois 60532".toList)
          (okResponse "Job accepted!".toList)) sampleBody emptyWorld).2.calls =
        emptyWorld.calls ++
          Call.visitAcceptLink
            "https://login.theappliancerepairmen.com/job/accept/eyABC123".toList
            (parseEmailHtml (sampleOffer "1611 lacey ave, Lisle, Illinois 60532".toList)
              "<html>offer</html>".toList).jobAddress ::
          Call.axiosGet
            "https://login.theappliancerepairmen.com/job/accept/eyABC123".toList :: rest) :=
  ⟨(zip_gate
      (fixedEnv (sampleOffer "12 Main St, Nowhere, Illinois 99999".toList)
        (okResponse "Job accepted!".toList)) sampleBody emptyWorld
      "<html>offer</html>".toList
      "https://login.theappliancerepairmen.com/job/accept/eyABC123".toList
      rfl (by decide) (by decide)).1
      (Or.inr ⟨"99999".toList, by decide, by decide⟩),
   (zip_gate
      (fixedEnv (sampleOffer "1611 lacey ave, Lisle, Illinois 60532".toList)
        (okResponse "Job accepted!".toList)) sampleBody emptyWorld
      "<html>offer</html>".toList
      "https://login.theappliancerepairmen.com/job/accept/eyABC123".toList
      rfl (by decide) (by decide)).2 "60532".toList (by decide) (by decide)⟩

/-! ## Theorems: the claim executor -/

theorem logError_ok (env : Env) (a : LogArgs) (w : World)
    (h : env.insertFails w (errorDoc (env.now w) a) = none) :
    logError env a w =
      (Except.ok w.errorLogs.length,
        { calls := w.calls ++ [Call.logError a],
          errorLogs := w.errorLogs ++ [errorDoc (env.now w) a] }) := by
  rw [logError_eq, h]

theorem logSuccess_ok (env : Env) (a : LogArgs) (w : World)
    (h : env.insertFails w (successDoc (env.now w) a) = none) :
    logSuccess env a w =
      (Except.ok w.errorLogs.length,
        { calls := w.calls ++ [Call.logSuccess a],
          errorLogs := w.errorLogs ++ [successDoc (env.now w) a] }) := by
  rw [logSuccess_eq, h]

/-- With a store that accepts the insert, a call of `visitAcceptLink` returns,
makes one log call and stores one document, of the kind that fits the outcome. -/
theorem visitAcceptLink_of_working_store (env : Env) (url : Str) (ja : Option Str) (w : World)
    (hsink : ∀ w2 d, env.insertFails w2 d = none) :
    ∃ r args ts, (visitAcceptLink env url ja w).1 = Except.ok r ∧
      ((r.outcome = Outcome.accepted ∧
          (visitAcceptLink env url ja w).2 =
            { calls := w.calls ++
                [Call.visitAcceptLink url ja, Call.axiosGet url, Call.logSuccess args],
              errorLogs := w.errorLogs ++ [successDoc ts args] }) ∨
       (r.outcome ≠ Outcome.accepted ∧
          (visitAcceptLink env url ja w).2 =
            { calls := w.calls ++
                [Call.visitAcceptLink url ja, Call.axiosGet url, Call.logError args],
              errorLogs := w.errorLogs ++ [errorDoc ts args] })) := by
  unfold visitAcceptLink
  simp only []
  cases hget : env.axiosGet
      { calls := w.calls ++ [Call.visitAcceptLink url ja], errorLogs := w.errorLogs } url with
  | error e =>
    simp only [visitTry, hget, visitCatch, logError_ok _ _ _ (hsink _ _)]
    refine ⟨_, ?a0, ?t0, rfl, Or.inr ⟨?h1x0, ?h2x0⟩⟩
    case h2x0 => simp only [List.append_assoc, List.cons_append, List.nil_append]; exact rfl
    case h1x0 => exact fun h => Outcome.noConfusion h
  | ok response =>
    by_cases hacc : classifyOutcome (trim (collapseSpaces (env.cheerio.body response.data))) =
        Outcome.accepted
    · simp only [visitTry, hget, hacc, logSuccess_ok _ _ _ (hsink _ _)]
      refine ⟨_, ?a1, ?t1, rfl, Or.inl ⟨?h1x1, ?h2x1⟩⟩
      case h2x1 => simp only [List.append_assoc, List.cons_append, List.nil_append]; exact rfl
      case h1x1 => rfl
    · simp only [visitTry, hget, logError_ok _ _ _ (hsink _ _)]
      rw [if_pos hacc]
      refine ⟨_, ?a2, ?t2, rfl, Or.inr ⟨?h1x2, ?h2x2⟩⟩
      case h2x2 => simp only [List.append_assoc, List.cons_append, List.nil_append]; exact rfl
      case h1x2 => exact hacc

theorem logError_cases (env : Env) (a : LogArgs) (w : World) :
    (∃ e, logError env a w =
        (Except.error e, { calls := w.calls ++ [Call.logError a], errorLogs := w.errorLogs })) ∨
      logError env a w =
        (Except.ok w.errorLogs.length,
          { calls := w.calls ++ [Call.logError a],
            errorLogs := w.errorLogs ++ [errorDoc (env.now w) a] }) := by
  rw [logError_eq]
  split
  · exact Or.inl ⟨_, rfl⟩
  · exact Or.inr rfl

theorem logSuccess_cases (env : Env) (a : LogArgs) (w : World) :
    (∃ e, logSuccess env a w =
        (Except.error e,
          { calls := w.calls ++ [Call.logSuccess a], errorLogs := w.errorLogs })) ∨
      logSuccess env a w =
        (Except.ok w.errorLogs.length,
          { calls := w.calls ++ [Call.logSuccess a],
            errorLogs := w.errorLogs ++ [successDoc (env.now w) a] }) := by
  rw [logSuccess_eq]
  split
  · exact Or.inl ⟨_, rfl⟩
  · exact Or.inr rfl

/-- The `catch` block either throws without storing a document, or returns the
outcome `error` after storing one error entry. -/
theorem visitCatch_entries (env : Env) (url : Str) (ja : Option Str) (e : JsError)
    (w : World) :
    (∃ e2, (visitCatch env url ja e w).1 = Except.error e2 ∧
        (visitCatch env url ja e w).2.errorLogs = w.errorLogs) ∨
      (∃ r args ts, (visitCatch env url ja e w).1 = Except.ok r ∧
        r.outcome = Outcome.error ∧
        (visitCatch env url ja e w).2.errorLogs = w.errorLogs ++ [errorDoc ts args]) := by
  simp only [visitCatch]
  rcases logError_cases env
      { url := url, pageTitle := [], rawHtml := some [],
        reason := some (codeUnits (requestFailedReason
          (match e.response with
            | some (n, _) => if n = 0 then none else some n
            | none => none)
          (orStr (e.response.map (fun r => r.2)) e.message))),
        bodyPreview := none, jobAddress := ja } w with ⟨e2, h⟩ | h
  · rw [h]
    exact Or.inl ⟨e2, rfl, rfl⟩
  · rw [h]
    exact Or.inr ⟨_, _, _, rfl, rfl, rfl⟩

/-- The `try` block either throws without storing a document, or returns after
storing one entry: a success entry when the outcome is `accepted`, an error
entry otherwise. -/
theorem visitTry_entries (env : Env) (url : Str) (ja : Option Str) (w : World) :
    (∃ e, (visitTry env url ja w).1 = Except.error e ∧
        (visitTry env url ja w).2.errorLogs = w.errorLogs) ∨
      (∃ r args ts, (visitTry env url ja w).1 = Except.ok r ∧
        ((r.outcome = Outcome.accepted ∧
            (visitTry env url ja w).2.errorLogs = w.errorLogs ++ [successDoc ts args]) ∨
          (r.outcome ≠ Outcome.accepted ∧
            (visitTry env url ja w).2.errorLogs = w.errorLogs ++ [errorDoc ts args]))) := by
  simp only [visitTry]
  cases hget : env.axiosGet w url with
  | error e => exact Or.inl ⟨e, rfl, rfl⟩
  | ok response =>
    by_cases hacc : classifyOutcome (trim (collapseSpaces (env.cheerio.body response.data))) =
        Outcome.accepted
    · simp only [hacc, ne_eq, not_true_eq_false, if_false]
      rcases logSuccess_cases env
          { url := orStr response.responseUrl url,
            pageTitle := trim (env.cheerio.title response.data), rawHtml := none,
            reason := none,
            bodyPreview := some
              (slice (codeUnits (trim (collapseSpaces (env.cheerio.body response.data)))) 0 500),
            jobAddress := ja }
          { calls := w.calls ++ [Call.axiosGet url], errorLogs := w.errorLogs } with ⟨e2, h⟩ | h
      · rw [h]
        exact Or.inl ⟨e2, rfl, rfl⟩
      · rw [h]
        exact Or.inr ⟨_, _, _, rfl, Or.inl ⟨rfl, rfl⟩⟩
    · simp only [ne_eq, hacc, not_false_eq_true, if_true]
      rcases logError_cases env
          { url := orStr response.responseUrl url,
            pageTitle := trim (env.cheerio.title response.data),
            rawHtml := some (env.cheerio.html response.data),
            reason := some
              (if classifyOutcome (trim (collapseSpaces (env.cheerio.body response.data))) =
                  Outcome.already_taken then codeUnits "Job already taken or expired".toList
                else codeUnits "Unexpected response: ".toList ++
                  slice (slice (codeUnits
                    (trim (collapseSpaces (env.cheerio.body response.data)))) 0 500) 0 200),
            bodyPreview := none, jobAddress := ja }
          { calls := w.calls ++ [Call.axiosGet url], errorLogs := w.errorLogs } with ⟨e2, h⟩ | h
      · rw [h]
        exact Or.inl ⟨e2, rfl, rfl⟩
      · rw [h]
        exact Or.inr ⟨_, _, _, rfl, Or.inr ⟨hacc, rfl⟩⟩

/-- Whatever the transport and the store do, a call of `visitAcceptLink` that
returns has stored exactly one entry, of the kind that fits the outcome returned,
and a call that throws has stored none. -/
theorem visitAcceptLink_entries (env : Env) (url : Str) (ja : Option Str) (w : World) :
    (∃ e, (visitAcceptLink env url ja w).1 = Except.error e ∧
        (visitAcceptLink env url ja w).2.errorLogs = w.errorLogs) ∨
      (∃ r args ts, (visitAcceptLink env url ja w).1 = Except.ok r ∧
        ((r.outcome = Outcome.accepted ∧
            (visitAcceptLink env url ja w).2.errorLogs =
              w.errorLogs ++ [successDoc ts args]) ∨
          (r.outcome ≠ Outcome.accepted ∧
            (visitAcceptLink env url ja w).2.errorLogs =
              w.errorLogs ++ [errorDoc ts args]))) := by
  have ht := visitTry_entries env url ja
    { calls := w.calls ++ [Call.visitAcceptLink url ja], errorLogs := w.errorLogs }
  simp only [visitAcceptLink]
  cases hv : visitTry env url ja
      { calls := w.calls ++ [Call.visitAcceptLink url ja], errorLogs := w.errorLogs } with
  | mk res w1 =>
    rw [hv] at ht
    cases res with
    | ok r =>
      rcases ht with ⟨e, h1, _⟩ | ⟨r2, args, ts, h1, h2⟩
      · cases h1
      · cases h1
        exact Or.inr ⟨r, args, ts, rfl, h2⟩
    | error e =>
      have hw1 : w1.errorLogs = w.errorLogs := by
        rcases ht with ⟨e2, _, h2⟩ | ⟨r2, args, ts, h1, _⟩
        · exact h2
        · cases h1
      rcases visitCatch_entries env url ja e w1 with ⟨e2, h1, h2⟩ | ⟨r, args, ts, h1, h2, h3⟩
      · exact Or.inl ⟨e2, h1, h2.trans hw1⟩
      · refine Or.inr ⟨r, args, ts, h1, Or.inr ⟨?_, ?_⟩⟩
        · rw [h2]; exact fun h => Outcome.noConfusion h
        · rw [h3, hw1]


/-- C9, as amended. With a store that accepts the insert, every call of
`visitAcceptLink` writes exactly one audit entry, whatever the transport answers:
the call returns, its only log call is one `logSuccess` and the document added is
a success entry when the outcome returned is `accepted`, and its only log call is
one `logError` and the document added is an error entry otherwise. Whatever the
store does, a call that returns has added exactly one document, of the kind that
fits the outcome, and a call that throws has added none. -/
theorem one_audit_entry (env : Env) (url : Str) (ja : Option Str) (w : World) :
    ((∀ w2 d, env.insertFails w2 d = none) →
      ∃ r args ts, (visitAcceptLink env url ja w).1 = Except.ok r ∧
        ((r.outcome = Outcome.accepted ∧
            (visitAcceptLink env url ja w).2 =
              { calls := w.calls ++
                  [Call.visitAcceptLink url ja, Call.axiosGet url, Call.logSuccess args],
                errorLogs := w.errorLogs ++ [successDoc ts args] }) ∨
         (r.outcome ≠ Outcome.accepted ∧
            (visitAcceptLink env url ja w).2 =
              { calls := w.calls ++
                  [Call.visitAcceptLink url ja, Call.axiosGet url, Call.logError args],
                errorLogs := w.errorLogs ++ [errorDoc ts args] }))) ∧
    (∀ r, (visitAcceptLink env url ja w).1 = Except.ok r →
      ∃ args ts,
        (r.outcome = Outcome.accepted ∧
            (visitAcceptLink env url ja w).2.errorLogs =
              w.errorLogs ++ [successDoc ts args]) ∨
          (r.outcome ≠ Outcome.accepted ∧
            (visitAcceptLink env url ja w).2.errorLogs =
              w.errorLogs ++ [errorDoc ts args])) ∧
    (∀ e, (visitAcceptLink env url ja w).1 = Except.error e →
      (visitAcceptLink env url ja w).2.errorLogs = w.errorLogs) := by
  refine ⟨visitAcceptLink_of_working_store env url ja w, fun r hr => ?_, fun e he => ?_⟩
  · rcases visitAcceptLink_entries env url ja w with ⟨e, h1, _⟩ | ⟨r2, args, ts, h1, h2⟩
    · rw [hr] at h1
      cases h1
    · rw [hr] at h1
      cases h1
      exact ⟨args, ts, h2⟩
  · rcases visitAcceptLink_entries env url ja w with ⟨e2, _, h2⟩ | ⟨r2, args, ts, h1, _⟩
    · exact h2
    · rw [he] at h1
      cases h1

theorem one_audit_entry_witness :
    ∃ r args ts,
      (visitAcceptLink
        (fixedEnv (fixedPage "Done".toList "Job accepted!".toList)
          (okResponse "<html>Job accepted!</html>".toList))
        "https://login.theappliancerepairmen.com/job/accept/eyABC123".toList
        (some "1611 lacey ave, Lisle, Illinois 60532".toList) emptyWorld).1 = Except.ok r ∧
      ((r.outcome = Outcome.accepted ∧
          (visitAcceptLink
            (fixedEnv (fixedPage "Done".toList "Job accepted!".toList)
              (okResponse "<html>Job accepted!</html>".toList))
            "https://login.theappliancerepairmen.com/job/accept/eyABC123".toList
            (some "1611 lacey ave, Lisle, Illinois 60532".toList) emptyWorld).2 =
            { calls := emptyWorld.calls ++
                [Call.visitAcceptLink
                   "https://login.theappliancerepairmen.com/job/accept/eyABC123".toList
                   (some "1611 lacey ave, Lisle, Illinois 60532".toList),
                 Call.axiosGet
                   "https://login.theappliancerepairmen.com/job/accept/eyABC123".toList,
                 Call.logSuccess args],
              errorLogs := emptyWorld.errorLogs ++ [successDoc ts args] }) ∨
       (r.outcome ≠ Outcome.accepted ∧
          (visitAcceptLink
            (fixedEnv (fixedPage "Done".toList "Job accepted!".toList)
              (okResponse "<html>Job accepted!</html>".toList))
            "https://login.theappliancerepairmen.com/job/accept/eyABC123".toList
            (some "1611 lacey ave, Lisle, Illinois 60532".toList) emptyWorld).2 =
            { calls := emptyWorld.calls ++
                [Call.visitAcceptLink
                   "https://login.theappliancerepairmen.com/job/accept/eyABC123".toList
                   (some "1611 lacey ave, Lisle, Illinois 60532".toList),
                 Call.axiosGet
                   "https://login.theappliancerepairmen.com/job/accept/eyABC123".toList,
                 Call.logError args],
              errorLogs := emptyWorld.errorLogs ++ [errorDoc ts args] })) :=
  (one_audit_entry
    (fixedEnv (fixedPage "Done".toList "Job accepted!".toList)
      (okResponse "<html>Job accepted!</html>".toList))
    "https://login.theappliancerepairmen.com/job/accept/eyABC123".toList
    (some "1611 lacey ave, Lisle, Illinois 60532".toList) emptyWorld).1 (fun _ _ => rfl)

/-- C9 fails as stated. With a store that refuses the insert, a claim whose page
says "Job accepted!" leaves no audit entry: `logSuccess` throws in the `try`
block, `logError` throws in the `catch` block, so two log calls are made, no
document is stored and the call throws. -/
theorem no_entry_when_store_refuses :
    (visitAcceptLink
        (brokenStoreEnv (fixedPage "Done".toList "Job accepted!".toList)
          (okResponse "<html>Job accepted!</html>".toList) "connection refused".toList)
        sampleUrl sampleAddress emptyWorld).2.errorLogs = [] ∧
    ((visitAcceptLink
        (brokenStoreEnv (fixedPage "Done".toList "Job accepted!".toList)
          (okResponse "<html>Job accepted!</html>".toList) "connection refused".toList)
        sampleUrl sampleAddress emptyWorld).2.calls.filter
      (fun c => c matches Call.logError _ || c matches Call.logSuccess _)).length = 2 ∧
    (visitAcceptLink
        (brokenStoreEnv (fixedPage "Done".toList "Job accepted!".toList)
          (okResponse "<html>Job accepted!</html>".toList) "connection refused".toList)
        sampleUrl sampleAddress emptyWorld).1 =
      Except.error { message := "connection refused".toList, response := none } := by
  refine ⟨by decide, by decide, rfl⟩

/-- C10 at a failing input. A claim attempt for the job address "1611 lacey ave,
Lisle, Illinois 60532" meets a page saying the job is already taken:
`visitAcceptLink` hands the address to `logError`, and the one document that
`logError` stores has no `jobAddress` field. -/
theorem error_entry_lacks_jobAddress :
    (visitAcceptLink
        (fixedEnv (fixedPage "Sorry".toList "This job has already been taken".toList)
          (okResponse "<html>taken</html>".toList))
        "https://login.theappliancerepairmen.com/job/accept/eyABC123".toList
        (some "1611 lacey ave, Lisle, Illinois 60532".toList) emptyWorld).2.calls.getLast? =
      some (Call.logError
        { url := "https://login.theappliancerepairmen.com/job/accept/eyABC123".toList,
          pageTitle := "Sorry".toList, rawHtml := some "<html>taken</html>".toList,
          reason := some (codeUnits "Job already taken or expired".toList),
          bodyPreview := none,
          jobAddress := some "1611 lacey ave, Lisle, Illinois 60532".toList }) ∧
      (visitAcceptLink
        (fixedEnv (fixedPage "Sorry".toList "This job has already been taken".toList)
          (okResponse "<html>taken</html>".toList))
        "https://login.theappliancerepairmen.com/job/accept/eyABC123".toList
        (some "1611 lacey ave, Lisle, Illinois 60532".toList)
        emptyWorld).2.errorLogs.map (fun d => d.field "jobAddress") = [none] ∧
      (visitAcceptLink
        (fixedEnv (fixedPage "Sorry".toList "This job has already been taken".toList)
          (okResponse "<html>taken</html>".toList))
        "https://login.theappliancerepairmen.com/job/accept/eyABC123".toList
        (some "1611 lacey ave, Lisle, Illinois 60532".toList)
        emptyWorld).2.errorLogs.map (fun d => d.field "jobAddress") ≠
        [some (some (codeUnits "1611 lacey ave, Lisle, Illinois 60532".toList))] := by
  decide

/-- No document built by `logError` has a `jobAddress` field, while the success
entry carries the address it is given. -/
theorem errorDoc_jobAddress (ts : Str) (args : LogArgs) :
    (errorDoc ts args).field "jobAddress" = none ∧
      (successDoc ts args).field "jobAddress" = some (args.jobAddress.map codeUnits) := by
  constructor <;> rfl

/-! ## Theorems: the dedupe set -/

section SeenSetTheorems

variable {α : Type} [DecidableEq α]

theorem setAdd_fresh (ids : List α) (id : α) (h : id ∉ ids) :
    setAdd ids id = ids ++ [id] := by
  simp [setAdd, h]

theorem setAdd_contains (ids : List α) (id : α) : (setAdd ids id).contains id = true := by
  unfold setAdd
  split
  · assumption
  · simp

theorem add_contains (s : SeenSet α) (id : α) : (s.add id).ids.contains id = true := by
  unfold SeenSet.add
  split
  · assumption
  · exact setAdd_contains _ _

theorem add_of_contains (s : SeenSet α) (id : α) (h : s.ids.contains id = true) :
    s.add id = s := by
  unfold SeenSet.add
  rw [if_pos h]

theorem evicts_of_contains (s : SeenSet α) (id : α) (h : s.ids.contains id = true) :
    s.evicts id = none := by
  unfold SeenSet.evicts
  rw [if_pos h]

/-- C6. Calling `add(id)` again right after `add(id)` returns the set as it is:
the second call evicts nothing, and size, membership and eviction order are the
same. This holds in every state, reachable or not, and at capacity too. -/
theorem add_add (s : SeenSet α) (id : α) :
    (s.add id).add id = s.add id ∧
      (s.add id).evicts id = none ∧
      ((s.add id).add id).size = (s.add id).size ∧
      (∀ x, ((s.add id).add id).has x = (s.add id).has x) ∧
      ((s.add id).add id).order = (s.add id).order := by
  have h := add_of_contains (s.add id) id (add_contains s id)
  refine ⟨h, evicts_of_contains _ _ (add_contains s id), ?_, ?_, ?_⟩
  · rw [h]
  · intro x; rw [h]
  · rw [h]

theorem add_fresh_room (c : Int) (l : List α) (x : α) (hx : x ∉ l)
    (hroom : (l.length : Int) < c) :
    SeenSet.add { maxSize := c, ids := l, order := l } x =
      { maxSize := c, ids := l ++ [x], order := l ++ [x] } := by
  have h1 : ¬ (l.contains x = true) := by simpa using hx
  have h2 : ¬ ((l.length : Int) ≥ c) := by omega
  simp only [SeenSet.add, if_neg h1, if_neg h2, setAdd_fresh l x hx]

theorem add_fresh_full (c : Int) (y : α) (t : List α) (x : α) (hx : x ∉ y :: t)
    (hfull : ((y :: t).length : Int) ≥ c) :
    SeenSet.add { maxSize := c, ids := y :: t, order := y :: t } x =
      { maxSize := c, ids := t ++ [x], order := t ++ [x] } := by
  have h1 : ¬ ((y :: t).contains x = true) := by simpa using hx
  have hxt : x ∉ t := fun h => hx (List.mem_cons_of_mem _ h)
  simp only [SeenSet.add, if_neg h1, if_pos hfull, List.head?_cons, List.tail_cons,
    setDelete, List.erase_cons_head, setAdd_fresh t x hxt]

theorem add_fresh_empty (c : Int) (x : α) (hfull : ((0 : Nat) : Int) ≥ c) :
    SeenSet.add { maxSize := c, ids := ([] : List α), order := [] } x =
      { maxSize := c, ids := [x], order := [x] } := by
  have h1 : ¬ (([] : List α).contains x = true) := by simp
  simp only [SeenSet.add, if_neg h1, List.length_nil, if_pos hfull, List.head?_nil,
    List.tail_nil, setDelete, setAdd_fresh [] x (List.not_mem_nil x), List.nil_append]

theorem evicts_fresh_room (c : Int) (l : List α) (x : α) (hx : x ∉ l)
    (hroom : (l.length : Int) < c) :
    SeenSet.evicts { maxSize := c, ids := l, order := l } x = none := by
  have h1 : ¬ (l.contains x = true) := by simpa using hx
  have h2 : ¬ ((l.length : Int) ≥ c) := by omega
  simp only [SeenSet.evicts, if_neg h1, if_neg h2]

theorem evicts_fresh_full (c : Int) (y : α) (t : List α) (x : α) (hx : x ∉ y :: t)
    (hfull : ((y :: t).length : Int) ≥ c) :
    SeenSet.evicts { maxSize := c, ids := y :: t, order := y :: t } x = some y := by
  have h1 : ¬ ((y :: t).contains x = true) := by simpa using hx
  simp only [SeenSet.evicts, if_neg h1, if_pos hfull, List.head?_cons]

/-- The queue after adding the fresh identifiers `xs` to a set that holds `l`. -/
theorem addAll_fresh (c : Nat) (hc : 1 ≤ c) (xs l : List α) (hl : l.length ≤ c)
    (hnd : (l ++ xs).Nodup) :
    SeenSet.addAll { maxSize := (c : Int), ids := l, order := l } xs =
        { maxSize := (c : Int), ids := (l ++ xs).drop ((l ++ xs).length - c),
          order := (l ++ xs).drop ((l ++ xs).length - c) } ∧
      SeenSet.evictedBy { maxSize := (c : Int), ids := l, order := l } xs =
        (l ++ xs).take ((l ++ xs).length - c) := by
  induction xs generalizing l with
  | nil =>
    have : l.length - c = 0 := by omega
    simp [SeenSet.addAll, SeenSet.evictedBy, this]
  | cons x xs ih =>
    have hx : x ∉ l := by
      intro hmem
      have := (List.nodup_append.mp hnd).2.2
      exact this hmem (List.mem_cons_self _ _) 
    by_cases hroom : l.length < c
    · have hnd2 : ((l ++ [x]) ++ xs).Nodup := by simpa using hnd
      have hl2 : (l ++ [x]).length ≤ c := by simp; omega
      obtain ⟨ih1, ih2⟩ := ih (l ++ [x]) hl2 hnd2
      have hadd := add_fresh_room (c : Int) l x hx (by exact_mod_cast hroom)
      have hev := evicts_fresh_room (c : Int) l x hx (by exact_mod_cast hroom)
      have e : l ++ [x] ++ xs = l ++ x :: xs := by simp
      constructor
      · show SeenSet.addAll (SeenSet.add _ x) xs = _
        rw [hadd, ih1, e]
      · show (SeenSet.evicts _ x).toList ++ SeenSet.evictedBy (SeenSet.add _ x) xs = _
        rw [hadd, hev, ih2, e]
        rfl
    · have hlen : l.length = c := by omega
      cases l with
      | nil => simp at hlen; omega
      | cons y t =>
        have hnd2 : ((t ++ [x]) ++ xs).Nodup := by
          have : (y :: (t ++ x :: xs)).Nodup := by simpa using hnd
          simpa using (List.nodup_cons.mp this).2
        have hl2 : (t ++ [x]).length ≤ c := by simp at hlen ⊢; omega
        obtain ⟨ih1, ih2⟩ := ih (t ++ [x]) hl2 hnd2
        have hfull : (((y :: t).length : Nat) : Int) ≥ (c : Int) := by
          exact_mod_cast (by omega : c ≤ (y :: t).length)
        have hadd := add_fresh_full (c : Int) y t x hx hfull
        have hev := evicts_fresh_full (c : Int) y t x hx hfull
        have e : t ++ [x] ++ xs = t ++ x :: xs := by simp
        have hn : (y :: t ++ x :: xs).length - c = ((t ++ x :: xs).length - c) + 1 := by
          simp at hlen ⊢; omega
        constructor
        · show SeenSet.addAll (SeenSet.add _ x) xs = _
          rw [hadd, ih1, e, hn]
          rfl
        · show (SeenSet.evicts _ x).toList ++ SeenSet.evictedBy (SeenSet.add _ x) xs = _
          rw [hadd, hev, ih2, e, hn]
          rfl

/-- C7. Adding `c + k` pairwise distinct identifiers to a fresh set of capacity
`c >= 1` leaves exactly `c` members, the last `c` identifiers of the sequence in
their order of insertion; the identifiers evicted are the first `k`, in that order. -/
theorem bounded_growth (c k : Nat) (hc : 1 ≤ c) (xs : List α) (hnd : xs.Nodup)
    (hlen : xs.length = c + k) :
    ((SeenSet.new (c : Int)).addAll xs).size = c ∧
      ((SeenSet.new (c : Int)).addAll xs).ids = xs.drop k ∧
      ((SeenSet.new (c : Int)).addAll xs).order = xs.drop k ∧
      (∀ x, ((SeenSet.new (c : Int)).addAll xs).has x = true ↔ x ∈ xs.drop k) ∧
      SeenSet.evictedBy (SeenSet.new (c : Int)) xs = xs.take k := by
  obtain ⟨h1, h2⟩ := addAll_fresh c hc xs [] (Nat.zero_le c) (by simpa using hnd)
  have hk : ([] ++ xs).length - c = k := by simp [hlen]
  rw [hk] at h1 h2
  simp only [List.nil_append] at h1 h2
  have hnew : (SeenSet.new (c : Int) : SeenSet α) =
      { maxSize := (c : Int), ids := [], order := [] } := rfl
  rw [hnew, h1, h2]
  refine ⟨?_, rfl, rfl, ?_, rfl⟩
  · simp [SeenSet.size, hlen]
  · intro x
    simp [SeenSet.has]

theorem bounded_growth_witness :
    ((SeenSet.new ((2 : Nat) : Int)).addAll [10, 20, 30, 40, 50]).size = 2 ∧
      ((SeenSet.new ((2 : Nat) : Int)).addAll [10, 20, 30, 40, 50]).ids =
        [10, 20, 30, 40, 50].drop 3 ∧
      ((SeenSet.new ((2 : Nat) : Int)).addAll [10, 20, 30, 40, 50]).order =
        [10, 20, 30, 40, 50].drop 3 ∧
      (∀ x, ((SeenSet.new ((2 : Nat) : Int)).addAll [10, 20, 30, 40, 50]).has x = true ↔
        x ∈ [10, 20, 30, 40, 50].drop 3) ∧
      SeenSet.evictedBy (SeenSet.new ((2 : Nat) : Int)) [10, 20, 30, 40, 50] =
        [10, 20, 30, 40, 50].take 3 :=
  bounded_growth 2 3 (by decide) [10, 20, 30, 40, 50] (by decide) (by decide)

/-- The representation invariant of the set is kept by `add`: `ids` and `order`
hold the same identifiers in the same order, without duplicates, and their number
is at most the capacity, or 1 when the capacity is below 1. -/
theorem add_invariant (s : SeenSet α) (x : α) (h1 : s.ids = s.order)
    (h2 : s.order.Nodup) (h3 : (s.order.length : Int) ≤ max s.maxSize 1) :
    (s.add x).ids = (s.add x).order ∧ (s.add x).order.Nodup ∧
      ((s.add x).order.length : Int) ≤ max (s.add x).maxSize 1 ∧
      (s.add x).maxSize = s.maxSize := by
  obtain ⟨c, ids, l⟩ := s
  simp only at h1 h2 h3
  subst h1
  by_cases hmem : x ∈ ids
  · rw [add_of_contains _ x (by simpa using hmem)]
    exact ⟨rfl, h2, h3, rfl⟩
  · by_cases hroom : (ids.length : Int) < c
    · rw [add_fresh_room c ids x hmem hroom]
      refine ⟨rfl, ?_, ?_, rfl⟩
      · exact List.nodup_append.mpr ⟨h2, List.nodup_singleton x, by
          intro a ha hb
          rw [List.mem_singleton] at hb
          exact hmem (hb ▸ ha)⟩
      · simp only [List.length_append, List.length_singleton, Nat.cast_add, Nat.cast_one]
        exact le_max_of_le_left (by omega)
    · cases ids with
      | nil =>
        rw [add_fresh_empty c x (by simpa using hroom)]
        refine ⟨rfl, List.nodup_singleton x, ?_, rfl⟩
        simp
      | cons y t =>
        rw [add_fresh_full c y t x hmem (by omega)]
        refine ⟨rfl, ?_, ?_, rfl⟩
        · have ht : t.Nodup := (List.nodup_cons.mp h2).2
          exact List.nodup_append.mpr ⟨ht, List.nodup_singleton x, by
            intro a ha hb
            rw [List.mem_singleton] at hb
            exact hmem (List.mem_cons_of_mem _ (hb ▸ ha))⟩
        · simpa using h3

theorem addAll_invariant (xs : List α) (s : SeenSet α) (h1 : s.ids = s.order)
    (h2 : s.order.Nodup) (h3 : (s.order.length : Int) ≤ max s.maxSize 1) :
    (s.addAll xs).ids = (s.addAll xs).order ∧ (s.addAll xs).order.Nodup ∧
      ((s.addAll xs).order.length : Int) ≤ max (s.addAll xs).maxSize 1 ∧
      (s.addAll xs).maxSize = s.maxSize := by
  induction xs generalizing s with
  | nil => exact ⟨h1, h2, h3, rfl⟩
  | cons x xs ih =>
    obtain ⟨a1, a2, a3, a4⟩ := add_invariant s x h1 h2 h3
    obtain ⟨b1, b2, b3, b4⟩ := ih (s.add x) a1 a2 a3
    exact ⟨b1, b2, b3, b4.trans a4⟩

/-- C8, as amended. For every capacity `maxSize >= 1` and every sequence of
`add` calls on a fresh set, the size is at most `maxSize`; whatever the capacity,
the size is at most the larger of `maxSize` and 1. -/
theorem size_le_maxSize (maxSize : Int) (xs : List α) :
    ((((SeenSet.new maxSize : SeenSet α).addAll xs).size : Nat) : Int) ≤ max maxSize 1 ∧
      (1 ≤ maxSize →
        ((((SeenSet.new maxSize : SeenSet α).addAll xs).size : Nat) : Int) ≤ maxSize) := by
  obtain ⟨b1, _, b3, b4⟩ := addAll_invariant xs (SeenSet.new maxSize : SeenSet α) rfl
    List.nodup_nil (by simp [SeenSet.new])
  have hsize : ((SeenSet.new maxSize : SeenSet α).addAll xs).size =
      ((SeenSet.new maxSize : SeenSet α).addAll xs).order.length := by
    rw [SeenSet.size, b1]
  have hm : ((SeenSet.new maxSize : SeenSet α).addAll xs).maxSize = maxSize := b4
  rw [hsize]
  rw [hm] at b3
  refine ⟨b3, fun h => ?_⟩
  rwa [max_eq_left h] at b3

theorem size_le_maxSize_witness :
    ((((SeenSet.new 2 : SeenSet Nat).addAll [1, 2, 3, 2, 4]).size : Nat) : Int) ≤ 2 :=
  (size_le_maxSize 2 [1, 2, 3, 2, 4]).2 (by decide)

/-- C8 fails as stated. A set of capacity 0, and one of capacity -1 (the value
that `IMAP_DEDUPE_MAX=-1` configures in `service.js`), holds one identifier
after the first `add`: the size exceeds the capacity. -/
theorem size_exceeds_capacity :
    ((SeenSet.new 0 : SeenSet Str).add "<m1@example.com>".toList).size = 1 ∧
      ¬ ((((SeenSet.new 0 : SeenSet Str).add "<m1@example.com>".toList).size : Nat) : Int) ≤
        (SeenSet.new 0 : SeenSet Str).maxSize ∧
      ((SeenSet.new (-1) : SeenSet Str).add "<m1@example.com>".toList).size = 1 ∧
      ¬ ((((SeenSet.new (-1) : SeenSet Str).add "<m1@example.com>".toList).size : Nat) : Int) ≤
        (SeenSet.new (-1) : SeenSet Str).maxSize := by
  decide

end SeenSetTheorems

/-! ## Theorems: transport failures and exceptions -/

theorem visitCatch_ok (env : Env) (url : Str) (ja : Option Str) (e : JsError) (w : World)
    (hsink : ∀ w2 d, env.insertFails w2 d = none) :
    visitCatch env url ja e w =
      (Except.ok
        { httpStatus := failureStatus e, url := none, pageTitle := none,
          outcome := Outcome.error, bodyPreview := none, error := some (failureText e),
          errorLogId := some w.errorLogs.length, successLogId := none },
        { calls := w.calls ++
            [Call.logError
              { url := url, pageTitle := [], rawHtml := some [],
                reason := some (codeUnits (requestFailedReason (failureStatus e) (failureText e))),
                bodyPreview := none, jobAddress := ja }],
          errorLogs := w.errorLogs ++
            [errorDoc (env.now w)
              { url := url, pageTitle := [], rawHtml := some [],
                reason := some (codeUnits (requestFailedReason (failureStatus e) (failureText e))),
                bodyPreview := none, jobAddress := ja }] }) := by
  simp only [visitCatch, logError_ok _ _ _ (hsink _ _)]
  rfl

theorem visitAcceptLink_transport_failure (env : Env) (url : Str) (ja : Option Str)
    (w : World) (e : JsError)
    (hget : env.axiosGet
      { calls := w.calls ++ [Call.visitAcceptLink url ja], errorLogs := w.errorLogs } url =
        Except.error e)
    (hsink : ∀ w2 d, env.insertFails w2 d = none) :
    visitAcceptLink env url ja w =
      (Except.ok
        { httpStatus := failureStatus e, url := none, pageTitle := none,
          outcome := Outcome.error, bodyPreview := none, error := some (failureText e),
          errorLogId := some w.errorLogs.length, successLogId := none },
        { calls := w.calls ++
            [Call.visitAcceptLink url ja, Call.axiosGet url,
             Call.logError
              { url := url, pageTitle := [], rawHtml := some [],
                reason := some (codeUnits (requestFailedReason (failureStatus e) (failureText e))),
                bodyPreview := none, jobAddress := ja }],
          errorLogs := w.errorLogs ++
            [errorDoc
              (env.now { calls := w.calls ++ [Call.visitAcceptLink url ja, Call.axiosGet url],
                         errorLogs := w.errorLogs })
              { url := url, pageTitle := [], rawHtml := some [],
                reason := some (codeUnits (requestFailedReason (failureStatus e) (failureText e))),
                bodyPreview := none, jobAddress := ja }] }) := by
  have ht : visitTry env url ja
      { calls := w.calls ++ [Call.visitAcceptLink url ja], errorLogs := w.errorLogs } =
      (Except.error e,
        { calls := w.calls ++ [Call.visitAcceptLink url ja] ++ [Call.axiosGet url],
          errorLogs := w.errorLogs }) := by
    simp only [visitTry, hget]
  simp only [visitAcceptLink, ht, visitCatch_ok env url ja e _ hsink]
  simp only [List.append_assoc, List.cons_append, List.nil_append]

theorem processWebhook_of_result (env : Env) (body : Body) (w w1 : World) (url : Str)
    (r : AcceptResult)
    (hne : orStr body.html (orStr body.HtmlBody []) ≠ [])
    (hurl : (parseEmailHtml env.cheerio
      (orStr body.html (orStr body.HtmlBody []))).acceptUrl = some url)
    (hzip : zipAllowed (parseEmailHtml env.cheerio
      (orStr body.html (orStr body.HtmlBody []))).zipCode = true)
    (hv : visitAcceptLink env url (parseEmailHtml env.cheerio
      (orStr body.html (orStr body.HtmlBody []))).jobAddress w = (Except.ok r, w1)) :
    (processWebhook env body w).1.statusCode = 200 ∧
      (processWebhook env body w).1.data.status =
        (if r.outcome = Outcome.accepted then "accepted" else "completed") ∧
      (processWebhook env body w).1.data.acceptResult = some r ∧
      (processWebhook env body w).2 = w1 := by
  have h1 := isEmpty_false_of_ne_nil _ hne
  have hu := chooseAcceptUrl_ne_nil _ url hurl
  have h2 : truthy (some url) = true := truthy_of_ne_nil url hu
  have h3 : orStr (some url) [] = url := orStr_of_ne_nil url [] hu
  simp only [processWebhook, h1, hurl, h2, hzip, h3, hv]
  simp

theorem processWebhook_of_throw (env : Env) (body : Body) (w w1 : World) (url : Str)
    (e : JsError)
    (hne : orStr body.html (orStr body.HtmlBody []) ≠ [])
    (hurl : (parseEmailHtml env.cheerio
      (orStr body.html (orStr body.HtmlBody []))).acceptUrl = some url)
    (hzip : zipAllowed (parseEmailHtml env.cheerio
      (orStr body.html (orStr body.HtmlBody []))).zipCode = true)
    (hv : visitAcceptLink env url (parseEmailHtml env.cheerio
      (orStr body.html (orStr body.HtmlBody []))).jobAddress w = (Except.error e, w1)) :
    (processWebhook env body w).1.statusCode = 500 ∧
      (processWebhook env body w).1.data.status = "error" ∧
      (processWebhook env body w).1.data.message = some "Internal server error" ∧
      (processWebhook env body w).1.data.detail = some e.message ∧
      (processWebhook env body w).2 = w1 := by
  have h1 := isEmpty_false_of_ne_nil _ hne
  have hu := chooseAcceptUrl_ne_nil _ url hurl
  have h2 : truthy (some url) = true := truthy_of_ne_nil url hu
  have h3 : orStr (some url) [] = url := orStr_of_ne_nil url [] hu
  simp only [processWebhook, h1, hurl, h2, hzip, h3, hv]
  simp

theorem requestFailedReason_eq (status : Option Nat) (statusText : Str) :
    ∃ tail, requestFailedReason status statusText = "Request failed: ".toList ++ tail :=
  ⟨(match status with
      | some n => numStr n
      | none => "network".toList) ++ (" — ".toList ++ statusText),
    by simp only [requestFailedReason, List.append_assoc]⟩

/-- C11, as amended. When the request of a claim fails in transport (the call
`axios.get` throws: network error, timeout, or a status outside 2xx) and the
store accepts the insert, `visitAcceptLink` returns the outcome `error` with
`httpStatus` the status observed or `null`, and adds one error entry whose `url`
is the requested URL, whose `pageTitle` and `rawHtml` are empty and whose `reason`
starts with "Request failed: "; `processWebhook`, having reached the claim step
with that URL, answers 200 with the status "completed". -/
theorem transport_failure_logged (env : Env) (url : Str) (ja : Option Str) (w : World)
    (e : JsError)
    (hget : env.axiosGet
      { calls := w.calls ++ [Call.visitAcceptLink url ja], errorLogs := w.errorLogs } url =
        Except.error e)
    (hsink : ∀ w2 d, env.insertFails w2 d = none) :
    (∃ r doc tail,
      (visitAcceptLink env url ja w).1 = Except.ok r ∧
      r.outcome = Outcome.error ∧
      (r.httpStatus = none ∨
        ∃ n txt, e.response = some (n, txt) ∧ r.httpStatus = some n) ∧
      (visitAcceptLink env url ja w).2.errorLogs = w.errorLogs ++ [doc] ∧
      (visitAcceptLink env url ja w).2.calls.filter
          (fun c => c matches Call.logError _ || c matches Call.logSuccess _) =
        w.calls.filter (fun c => c matches Call.logError _ || c matches Call.logSuccess _) ++
          [Call.logError
            { url := url, pageTitle := [], rawHtml := some [],
              reason := some (codeUnits ("Request failed: ".toList ++ tail)),
              bodyPreview := none, jobAddress := ja }] ∧
      doc.field "url" = some (some (codeUnits url)) ∧
      doc.field "pageTitle" = some (some []) ∧
      doc.field "rawHtml" = some (some []) ∧
      doc.field "reason" = some (some (codeUnits ("Request failed: ".toList ++ tail)))) ∧
    (∀ body : Body, orStr body.html (orStr body.HtmlBody []) ≠ [] →
      (parseEmailHtml env.cheerio
        (orStr body.html (orStr body.HtmlBody []))).acceptUrl = some url →
      zipAllowed (parseEmailHtml env.cheerio
        (orStr body.html (orStr body.HtmlBody []))).zipCode = true →
      (parseEmailHtml env.cheerio
        (orStr body.html (orStr body.HtmlBody []))).jobAddress = ja →
      (processWebhook env body w).1.statusCode = 200 ∧
        (processWebhook env body w).1.data.status = "completed" ∧
        (processWebhook env body w).2 = (visitAcceptLink env url ja w).2) := by
  have hv := visitAcceptLink_transport_failure env url ja w e hget hsink
  obtain ⟨tail, htail⟩ := requestFailedReason_eq (failureStatus e) (failureText e)
  constructor
  · rw [hv]
    refine ⟨_, _, tail, rfl, rfl, ?_, rfl, ?_, rfl, rfl, rfl, ?_⟩
    · show failureStatus e = none ∨ ∃ n txt, e.response = some (n, txt) ∧
        failureStatus e = some n
      unfold failureStatus
      cases hr : e.response with
      | none => exact Or.inl rfl
      | some p =>
        obtain ⟨n, txt⟩ := p
        by_cases hn : n = 0
        · left; simp [hn]
        · right; exact ⟨n, txt, rfl, by simp [hn]⟩
    · rw [← htail]
      simp [List.filter_append]
    · rw [← htail]; rfl
  · intro body hne hurl hzip hja
    subst hja
    obtain ⟨h1, h2, _, h4⟩ := processWebhook_of_result env body w _ url _ hne hurl hzip hv
    rw [hv]
    exact ⟨h1, h2, h4⟩

theorem transport_failure_logged_witness :
    (∃ r doc tail,
      (visitAcceptLink timeoutEnv sampleUrl sampleAddress emptyWorld).1 = Except.ok r ∧
      r.outcome = Outcome.error ∧
      (r.httpStatus = none ∨
        ∃ n txt, timeoutError.response = some (n, txt) ∧ r.httpStatus = some n) ∧
      (visitAcceptLink timeoutEnv sampleUrl sampleAddress emptyWorld).2.errorLogs =
        emptyWorld.errorLogs ++ [doc] ∧
      (visitAcceptLink timeoutEnv sampleUrl sampleAddress emptyWorld).2.calls.filter
          (fun c => c matches Call.logError _ || c matches Call.logSuccess _) =
        emptyWorld.calls.filter
            (fun c => c matches Call.logError _ || c matches Call.logSuccess _) ++
          [Call.logError
            { url := sampleUrl, pageTitle := [], rawHtml := some [],
              reason := some (codeUnits ("Request failed: ".toList ++ tail)),
              bodyPreview := none, jobAddress := sampleAddress }] ∧
      doc.field "url" = some (some (codeUnits sampleUrl)) ∧
      doc.field "pageTitle" = some (some []) ∧
      doc.field "rawHtml" = some (some []) ∧
      doc.field "reason" = some (some (codeUnits ("Request failed: ".toList ++ tail)))) ∧
    ((processWebhook timeoutEnv sampleBody emptyWorld).1.statusCode = 200 ∧
      (processWebhook timeoutEnv sampleBody emptyWorld).1.data.status = "completed" ∧
      (processWebhook timeoutEnv sampleBody emptyWorld).2 =
        (visitAcceptLink timeoutEnv sampleUrl sampleAddress emptyWorld).2) :=
  ⟨(transport_failure_logged timeoutEnv sampleUrl sampleAddress emptyWorld timeoutError
      rfl (fun _ _ => rfl)).1,
   (transport_failure_logged timeoutEnv sampleUrl sampleAddress emptyWorld timeoutError
      rfl (fun _ _ => rfl)).2 sampleBody (by decide) (by decide) (by decide) (by decide)⟩

/-- C11 fails as stated. The claim request is answered with status 503 and the
store refuses the insert: `visitAcceptLink` returns no result, no error entry is
written, and `processWebhook` answers 500 with the status "error". -/
theorem transport_failure_unlogged :
    (∀ r, (visitAcceptLink
        (brokenStoreEnv (sampleOffer "1611 lacey ave, Lisle, Illinois 60532".toList)
          (Except.error unavailableError) "connection refused".toList)
        sampleUrl sampleAddress emptyWorld).1 ≠ Except.ok r) ∧
    (visitAcceptLink
        (brokenStoreEnv (sampleOffer "1611 lacey ave, Lisle, Illinois 60532".toList)
          (Except.error unavailableError) "connection refused".toList)
        sampleUrl sampleAddress emptyWorld).2.errorLogs = [] ∧
    (processWebhook
        (brokenStoreEnv (sampleOffer "1611 lacey ave, Lisle, Illinois 60532".toList)
          (Except.error unavailableError) "connection refused".toList)
        sampleBody emptyWorld).2.errorLogs = [] ∧
    (processWebhook
        (brokenStoreEnv (sampleOffer "1611 lacey ave, Lisle, Illinois 60532".toList)
          (Except.error unavailableError) "connection refused".toList)
        sampleBody emptyWorld).1.statusCode = 500 ∧
    (processWebhook
        (brokenStoreEnv (sampleOffer "1611 lacey ave, Lisle, Illinois 60532".toList)
          (Except.error unavailableError) "connection refused".toList)
        sampleBody emptyWorld).1.data.status = "error" := by
  refine ⟨?_, by decide, by decide, by decide, by decide⟩
  intro r h
  have h2 : (visitAcceptLink
        (brokenStoreEnv (sampleOffer "1611 lacey ave, Lisle, Illinois 60532".toList)
          (Except.error unavailableError) "connection refused".toList)
        sampleUrl sampleAddress emptyWorld).1 =
      Except.error { message := "connection refused".toList, response := none } := rfl
  rw [h2] at h
  cases h

theorem logError_throws (env : Env) (a : LogArgs) (w : World) (e : JsError)
    (h : (logError env a w).1 = Except.error e) :
    ∃ msg, env.insertFails w (errorDoc (env.now w) a) = some msg ∧
      e = { message := msg, response := none } := by
  rw [logError_eq] at h
  cases hi : env.insertFails w (errorDoc (env.now w) a) with
  | none =>
    rw [hi] at h
    cases h
  | some msg =>
    rw [hi] at h
    simp only [Except.error.injEq] at h
    exact ⟨msg, rfl, h.symm⟩

theorem visitCatch_throws (env : Env) (url : Str) (ja : Option Str) (err : JsError)
    (w : World) (e : JsError) (h : (visitCatch env url ja err w).1 = Except.error e) :
    ∃ w2 d msg, env.insertFails w2 d = some msg ∧
      e = { message := msg, response := none } := by
  simp only [visitCatch] at h
  split at h
  · rename_i e2 w2 hl
    simp only [Except.error.injEq] at h
    subst h
    obtain ⟨msg, h1, h2⟩ := logError_throws env _ w e2 (by rw [hl])
    exact ⟨_, _, msg, h1, h2⟩
  · cases h

theorem classifyOutcome_ne_unknown (t : Str) : classifyOutcome t ≠ Outcome.unknown := by
  unfold classifyOutcome
  cases isJobAcceptedTest t <;> cases alreadyTakenFlag t <;> simp

theorem visitTry_outcome (env : Env) (url : Str) (ja : Option Str) (w : World)
    (r : AcceptResult) (h : (visitTry env url ja w).1 = Except.ok r) :
    r.outcome ≠ Outcome.unknown := by
  simp only [visitTry] at h
  split at h
  · cases h
  · split at h
    · split at h
      · cases h
      · simp only [Except.ok.injEq] at h
        subst h
        exact classifyOutcome_ne_unknown _
    · split at h
      · cases h
      · simp only [Except.ok.injEq] at h
        subst h
        exact fun hh => Outcome.noConfusion hh

theorem visitCatch_outcome (env : Env) (url : Str) (ja : Option Str) (err : JsError)
    (w : World) (r : AcceptResult) (h : (visitCatch env url ja err w).1 = Except.ok r) :
    r.outcome = Outcome.error := by
  simp only [visitCatch] at h
  split at h
  · cases h
  · simp only [Except.ok.injEq] at h
    subst h
    rfl

theorem visitAcceptLink_outcome (env : Env) (url : Str) (ja : Option Str) (w : World)
    (r : AcceptResult) (h : (visitAcceptLink env url ja w).1 = Except.ok r) :
    r.outcome ≠ Outcome.unknown := by
  simp only [visitAcceptLink] at h
  split at h
  · rename_i r2 w1 ht
    simp only [Except.ok.injEq] at h
    subst h
    exact visitTry_outcome env url ja _ _ (by rw [ht])
  · rename_i err w1 ht
    rw [visitCatch_outcome env url ja err w1 r h]
    exact fun hh => Outcome.noConfusion hh

theorem visitAcceptLink_throws (env : Env) (url : Str) (ja : Option Str) (w : World)
    (e : JsError) (h : (visitAcceptLink env url ja w).1 = Except.error e) :
    ∃ w2 d msg, env.insertFails w2 d = some msg ∧
      e = { message := msg, response := none } := by
  simp only [visitAcceptLink] at h
  split at h
  · cases h
  · rename_i err w1 ht
    exact visitCatch_throws env url ja err w1 e h

/-- C12, as amended. For every behaviour of the transport, `visitAcceptLink`
returns a result record whose outcome is `accepted`, `already_taken` or `error`
when the store accepts the insert; whatever the store does, the only exception
that leaves `visitAcceptLink` is the one thrown by a failing insert, in `logError`
called from the `catch` block. -/
theorem returns_unless_store_fails (env : Env) (url : Str) (ja : Option Str) (w : World) :
    ((∀ w2 d, env.insertFails w2 d = none) →
      ∃ r, (visitAcceptLink env url ja w).1 = Except.ok r ∧
        (r.outcome = Outcome.accepted ∨ r.outcome = Outcome.already_taken ∨
          r.outcome = Outcome.error)) ∧
    (∀ e, (visitAcceptLink env url ja w).1 = Except.error e →
      ∃ w2 d msg, env.insertFails w2 d = some msg ∧
        e = { message := msg, response := none }) := by
  refine ⟨fun hsink => ?_, fun e he => visitAcceptLink_throws env url ja w e he⟩
  cases hv : (visitAcceptLink env url ja w).1 with
  | error e =>
    obtain ⟨w2, d, msg, h1, _⟩ := visitAcceptLink_throws env url ja w e hv
    rw [hsink w2 d] at h1
    cases h1
  | ok r =>
    refine ⟨r, rfl, ?_⟩
    have hne := visitAcceptLink_outcome env url ja w r hv
    cases ho : r.outcome with
    | unknown => exact absurd ho hne
    | accepted => exact Or.inl rfl
    | already_taken => exact Or.inr (Or.inl rfl)
    | error => exact Or.inr (Or.inr rfl)

theorem returns_unless_store_fails_witness :
    ∃ r, (visitAcceptLink timeoutEnv sampleUrl sampleAddress emptyWorld).1 = Except.ok r ∧
      (r.outcome = Outcome.accepted ∨ r.outcome = Outcome.already_taken ∨
        r.outcome = Outcome.error) :=
  (returns_unless_store_fails timeoutEnv sampleUrl sampleAddress emptyWorld).1
    (fun _ _ => rfl)

/-- C12 fails as stated. With a store that refuses the insert and a request that
times out, `logError` throws inside the `catch` block and the exception leaves
`visitAcceptLink`; `processWebhook` catches it and answers 500. -/
theorem visitAcceptLink_can_throw :
    (visitAcceptLink
        (brokenStoreEnv (sampleOffer "1611 lacey ave, Lisle, Illinois 60532".toList)
          (Except.error timeoutError) "connection refused".toList)
        sampleUrl sampleAddress emptyWorld).1 =
      Except.error { message := "connection refused".toList, response := none } ∧
    (∀ r, (visitAcceptLink
        (brokenStoreEnv (sampleOffer "1611 lacey ave, Lisle, Illinois 60532".toList)
          (Except.error timeoutError) "connection refused".toList)
        sampleUrl sampleAddress emptyWorld).1 ≠ Except.ok r) ∧
    (processWebhook
        (brokenStoreEnv (sampleOffer "1611 lacey ave, Lisle, Illinois 60532".toList)
          (Except.error timeoutError) "connection refused".toList)
        sampleBody emptyWorld).1.statusCode = 500 ∧
    (processWebhook
        (brokenStoreEnv (sampleOffer "1611 lacey ave, Lisle, Illinois 60532".toList)
          (Except.error timeoutError) "connection refused".toList)
        sampleBody emptyWorld).1.data.message = some "Internal server error" := by
  refine ⟨rfl, ?_, by decide, by decide⟩
  intro r h
  have h2 : (visitAcceptLink
        (brokenStoreEnv (sampleOffer "1611 lacey ave, Lisle, Illinois 60532".toList)
          (Except.error timeoutError) "connection refused".toList)
        sampleUrl sampleAddress emptyWorld).1 =
      Except.error { message := "connection refused".toList, response := none } := rfl
  rw [h2] at h
  cases h

/-! ## Theorems: the address line -/

theorem itemStep_jobAddress (f : Fields) (raw : Str) :
    (itemStep f raw).jobAddress =
      (if startsWithI "Address:".toList (trim raw) = true then
        orNull (some (trim (stripLabel "Address:".toList (trim raw)))) none
      else f.jobAddress) := by
  unfold itemStep
  simp only []
  by_cases h : startsWithI "Address:".toList (trim raw) = true
  · rw [if_pos h, if_pos h]
    cases zipSearch none (trim raw) <;> (simp only []; split <;> (try split) <;> rfl)
  · rw [if_neg h, if_neg h]
    split <;> (try split) <;> rfl

theorem itemStep_zipCode (f : Fields) (raw : Str) :
    (itemStep f raw).zipCode =
      (if startsWithI "Address:".toList (trim raw) = true then
        (match zipSearch none (trim raw) with
          | some z => some z
          | none => f.zipCode)
      else f.zipCode) := by
  unfold itemStep
  simp only []
  by_cases h : startsWithI "Address:".toList (trim raw) = true
  · rw [if_pos h, if_pos h]
    cases zipSearch none (trim raw) <;> (simp only []; split <;> (try split) <;> rfl)
  · rw [if_neg h, if_neg h]
    split <;> (try split) <;> rfl

theorem foldl_itemStep_no_address (items : List Str) (f : Fields)
    (h : ∀ t ∈ items, startsWithI "Address:".toList (trim t) = false) :
    (items.foldl itemStep f).jobAddress = f.jobAddress ∧
      (items.foldl itemStep f).zipCode = f.zipCode := by
  induction items generalizing f with
  | nil => exact ⟨rfl, rfl⟩
  | cons t ts ih =>
    have ht : ¬ startsWithI "Address:".toList (trim t) = true := by
      rw [h t (List.mem_cons_self _ _)]; exact Bool.false_ne_true
    obtain ⟨h1, h2⟩ := ih (itemStep f t) (fun x hx => h x (List.mem_cons_of_mem _ hx))
    rw [List.foldl_cons, h1, h2, itemStep_jobAddress, itemStep_zipCode, if_neg ht, if_neg ht]
    exact ⟨rfl, rfl⟩

/-- The fields read from a document with exactly one address item. -/
theorem scanItems_single_address (before after : List Str) (raw : Str)
    (hraw : startsWithI "Address:".toList (trim raw) = true)
    (hbefore : ∀ t ∈ before, startsWithI "Address:".toList (trim t) = false)
    (hafter : ∀ t ∈ after, startsWithI "Address:".toList (trim t) = false) :
    (scanItems (before ++ raw :: after)).jobAddress =
        orNull (some (trim (stripLabel "Address:".toList (trim raw)))) none ∧
      (scanItems (before ++ raw :: after)).zipCode = zipSearch none (trim raw) := by
  unfold scanItems
  rw [List.foldl_append, List.foldl_cons]
  obtain ⟨a1, a2⟩ := foldl_itemStep_no_address before
    { zipCode := none, jobAddress := none, appliances := [] } hbefore
  obtain ⟨b1, b2⟩ := foldl_itemStep_no_address after
    (itemStep (before.foldl itemStep
      { zipCode := none, jobAddress := none, appliances := [] }) raw) hafter
  rw [b1, b2, itemStep_jobAddress, itemStep_zipCode, if_pos hraw, if_pos hraw, a2]
  refine ⟨rfl, ?_⟩
  cases zipSearch none (trim raw) <;> rfl

theorem dropWhile_dropWhile (p : Char → Bool) (l : Str) :
    (l.dropWhile p).dropWhile p = l.dropWhile p := by
  induction l with
  | nil => rfl
  | cons c s ih =>
    by_cases hc : p c = true
    · simp only [List.dropWhile_cons, hc, if_true]
      exact ih
    · have : (c :: s).dropWhile p = c :: s := by simp [List.dropWhile_cons, hc]
      rw [this, this]

theorem trim_dropWhile (s : Str) : trim (s.dropWhile isJsSpace) = trim s := by
  unfold trim
  rw [dropWhile_dropWhile]

theorem orNull_some_none (x : Str) :
    orNull (some x) none = (if x = [] then none else some x) := by
  cases x with
  | nil => rfl
  | cons c s => rfl

theorem stripLabel_of_label (pat lbl rest : Str)
    (h : lowerAscii lbl = lowerAscii pat) :
    stripLabel pat (lbl ++ rest) = rest.dropWhile isJsSpace := by
  have := (litI_eq_some pat (lbl ++ rest) rest).mpr ⟨lbl, rfl, h⟩
  unfold stripLabel
  rw [this]

theorem startsWithI_of_label (pat lbl rest : Str)
    (h : lowerAscii lbl = lowerAscii pat) :
    startsWithI pat (lbl ++ rest) = true := by
  have := (litI_eq_some pat (lbl ++ rest) rest).mpr ⟨lbl, rfl, h⟩
  unfold startsWithI
  rw [this]
  rfl

/-- C13. In a document with exactly one list item whose trimmed text begins with
"Address:" in some letter case, `jobAddress` is the text after the label, trimmed,
or `null` when nothing is left; the item
"Address: 1611 lacey ave, Lisle, Illinois 60532" yields that address and the zip
code "60532". -/
theorem jobAddress_of_address_item (ch : Cheerio) (html : Str) (before after : List Str)
    (raw : Str)
    (hdoc : ch.items html = before ++ raw :: after)
    (hbefore : ∀ t ∈ before, startsWithI "Address:".toList (trim t) = false)
    (hafter : ∀ t ∈ after, startsWithI "Address:".toList (trim t) = false) :
    (∀ lbl rest : Str, trim raw = lbl ++ rest → lowerAscii lbl = "address:".toList →
      (parseEmailHtml ch html).jobAddress =
        (if trim rest = [] then none else some (trim rest))) ∧
    (raw = "Address: 1611 lacey ave, Lisle, Illinois 60532".toList →
      (parseEmailHtml ch html).jobAddress =
          some "1611 lacey ave, Lisle, Illinois 60532".toList ∧
        (parseEmailHtml ch html).zipCode = some "60532".toList) := by
  constructor
  · intro lbl rest hraw hlbl
    have hl : lowerAscii lbl = lowerAscii "Address:".toList := by rw [hlbl]; decide
    have hs : startsWithI "Address:".toList (trim raw) = true := by
      rw [hraw]; exact startsWithI_of_label _ lbl rest hl
    show (scanItems (ch.items html)).jobAddress = _
    rw [hdoc, (scanItems_single_address before after raw hs hbefore hafter).1, hraw,
      stripLabel_of_label _ lbl rest hl, trim_dropWhile, orNull_some_none]
  · intro hraw
    subst hraw
    have hs : startsWithI "Address:".toList
        (trim "Address: 1611 lacey ave, Lisle, Illinois 60532".toList) = true := by decide
    obtain ⟨h1, h2⟩ := scanItems_single_address before after _ hs hbefore hafter
    constructor
    · show (scanItems (ch.items html)).jobAddress = _
      rw [hdoc, h1]
      decide
    · show (scanItems (ch.items html)).zipCode = _
      rw [hdoc, h2]
      decide

theorem jobAddress_of_address_item_witness :
    (parseEmailHtml (sampleOffer "1611 lacey ave, Lisle, Illinois 60532".toList)
        "<html>offer</html>".toList).jobAddress =
        some "1611 lacey ave, Lisle, Illinois 60532".toList ∧
      (parseEmailHtml (sampleOffer "1611 lacey ave, Lisle, Illinois 60532".toList)
        "<html>offer</html>".toList).zipCode = some "60532".toList :=
  (jobAddress_of_address_item
    (sampleOffer "1611 lacey ave, Lisle, Illinois 60532".toList) "<html>offer</html>".toList
    [] ["Appliance: Washer".toList] "Address: 1611 lacey ave, Lisle, Illinois 60532".toList
    rfl (by decide) (by decide)).2 rfl

/-! ## Theorems: the confirmation email -/

theorem JobInfo.get_set_same (info : JobInfo) (key : InfoKey) (v : Option Str) :
    (info.set key v).get key = v := by
  cases key <;> rfl

theorem JobInfo.get_set_other (info : JobInfo) (key other : InfoKey) (v : Option Str)
    (h : other ≠ key) : (info.set key v).get other = info.get other := by
  cases key <;> cases other <;> first | rfl | exact absurd rfl h

theorem lookup_eq_none_of_forall {β : Type} (l : List (Str × β)) (k : Str)
    (h : ∀ p ∈ l, p.1 ≠ k) : l.lookup k = none := by
  induction l with
  | nil => rfl
  | cons p ps ih =>
    obtain ⟨a, b⟩ := p
    have ha : a ≠ k := h (a, b) (List.mem_cons_self _ _)
    have hb : (k == a) = false := by
      rw [beq_eq_false_iff_ne]
      exact fun e => ha e.symm
    simp only [List.lookup, hb]
    exact ih (fun q hq => h q (List.mem_cons_of_mem _ hq))

theorem labelToKey_facts :
    ∀ p ∈ labelToKey,
      lookupLabel p.1 = some p.2 ∧
      (trim p.1).isEmpty = false ∧
      trim p.1 = p.1 ∧
      trim (p.1 ++ ":".toList) = p.1 ++ ":".toList ∧
      trim (dropFinalColon p.1) = p.1 ∧
      trim (dropFinalColon (p.1 ++ ":".toList)) = p.1 := by
  decide

theorem itemKey_of_label (el : BoldItem) (label : Str) (key : InfoKey)
    (hmem : (label, key) ∈ labelToKey)
    (hbold : trim el.bold = label ∨ trim el.bold = label ++ ":".toList) :
    itemKey el = some key := by
  obtain ⟨f1, f2, f3, f4, f5, f6⟩ := labelToKey_facts (label, key) hmem
  simp only at f1 f2 f3 f4 f5 f6
  have hne : (trim el.bold).isEmpty = false := by
    rcases hbold with h | h
    · rw [h, ← f3]; exact f2
    · rw [h]
      cases label <;> rfl
  have hlab : trim (dropFinalColon (trim el.bold)) = label := by
    rcases hbold with h | h
    · rw [h]; exact f5
    · rw [h]; exact f6
  unfold itemKey
  simp only [hne, hlab, f1]
  rfl

theorem stripLead_append (boldPart rest : Str) :
    stripLead boldPart (boldPart ++ rest) = rest.dropWhile isJsSpace := by
  unfold stripLead
  have h1 : boldPart.isPrefixOf (boldPart ++ rest) = true :=
    List.isPrefixOf_iff_prefix.mpr (List.prefix_append _ _)
  rw [if_pos h1, List.drop_left]

theorem successItemStep_of_key (info : JobInfo) (el : BoldItem) (key : InfoKey)
    (h : itemKey el = some key) :
    successItemStep info el =
      info.set key (orNull (some (trim (stripLead (trim el.bold) (trim el.text)))) none) := by
  unfold successItemStep
  simp only [h]

theorem successItemStep_of_none (info : JobInfo) (el : BoldItem)
    (h : itemKey el = none) : successItemStep info el = info := by
  unfold successItemStep
  simp only [h]

theorem successItemStep_get_other (info : JobInfo) (el : BoldItem) (key : InfoKey)
    (h : itemKey el ≠ some key) : (successItemStep info el).get key = info.get key := by
  cases hk : itemKey el with
  | none => rw [successItemStep_of_none info el hk]
  | some k2 =>
    rw [successItemStep_of_key info el k2 hk]
    apply JobInfo.get_set_other
    intro e
    rw [hk, e] at h
    exact h rfl

theorem foldl_successItemStep_get (items : List BoldItem) (info : JobInfo) (key : InfoKey)
    (h : ∀ el ∈ items, itemKey el ≠ some key) :
    (items.foldl successItemStep info).get key = info.get key := by
  induction items generalizing info with
  | nil => rfl
  | cons el els ih =>
    rw [List.foldl_cons, ih _ (fun x hx => h x (List.mem_cons_of_mem _ hx)),
      successItemStep_get_other info el key (h el (List.mem_cons_self _ _))]

theorem parseSuccessEmail_eq (ch : SuccessCheerio) (html : Str) :
    ∃ info : JobInfo, (∀ key, info.get key = none) ∧
      parseSuccessEmail ch html = (ch.items html).foldl successItemStep info := by
  unfold parseSuccessEmail
  simp only []
  cases assignedSearch (trim (ch.h2 html)) with
  | none => exact ⟨_, fun key => by cases key <;> rfl, rfl⟩
  | some m => exact ⟨_, fun key => by cases key <;> rfl, rfl⟩

/-- C14, as amended. A list item whose first bold text is a label of the table
`labelToKey`, alone or followed by one colon, and whose text begins with that bold
text, sets the field mapped from the label to the rest of the text, trimmed, or
to `null` when nothing is left; an item whose label, the bold text without its
final colon, is not in the table, also with a period appended, changes no field;
a field that no item is mapped to is `null`; and each field holds what the last
item mapped to it sets. -/
theorem success_fields (ch : SuccessCheerio) (html : Str) :
    (∀ (info : JobInfo) (el : BoldItem) (label : Str) (key : InfoKey) (rest : Str),
      (label, key) ∈ labelToKey →
      (trim el.bold = label ∨ trim el.bold = label ++ ":".toList) →
      trim el.text = trim el.bold ++ rest →
      successItemStep info el =
        info.set key (if trim rest = [] then none else some (trim rest))) ∧
    (∀ (info : JobInfo) (el : BoldItem),
      (∀ p ∈ labelToKey, p.1 ≠ itemLabel el ∧ p.1 ≠ itemLabel el ++ ".".toList) →
      successItemStep info el = info) ∧
    (∀ key : InfoKey, (∀ el ∈ ch.items html, itemKey el ≠ some key) →
      (parseSuccessEmail ch html).get key = none) ∧
    (∀ (before after : List BoldItem) (el : BoldItem) (key : InfoKey),
      ch.items html = before ++ el :: after → itemKey el = some key →
      (∀ x ∈ after, itemKey x ≠ some key) →
      (parseSuccessEmail ch html).get key =
        orNull (some (trim (stripLead (trim el.bold) (trim el.text)))) none) := by
  refine ⟨?_, ?_, ?_, ?_⟩
  · intro info el label key rest hmem hbold htext
    rw [successItemStep_of_key info el key (itemKey_of_label el label key hmem hbold),
      htext, stripLead_append, trim_dropWhile, orNull_some_none]
  · intro info el hnot
    apply successItemStep_of_none
    unfold itemKey
    simp only []
    split
    · rfl
    · have h1 : lookupLabel (trim (dropFinalColon (trim el.bold))) = none :=
        lookup_eq_none_of_forall _ _ (fun p hp => (hnot p hp).1)
      have h2 : lookupLabel (trim (dropFinalColon (trim el.bold)) ++ ".".toList) = none :=
        lookup_eq_none_of_forall _ _ (fun p hp => (hnot p hp).2)
      rw [h1]
      exact h2
  · intro key hno
    obtain ⟨info, hinfo, heq⟩ := parseSuccessEmail_eq ch html
    rw [heq, foldl_successItemStep_get _ _ key hno, hinfo]
  · intro before after el key hdoc hkey hafter
    obtain ⟨info, _, heq⟩ := parseSuccessEmail_eq ch html
    rw [heq, hdoc, List.foldl_append, List.foldl_cons,
      foldl_successItemStep_get after _ key hafter,
      successItemStep_of_key _ el key hkey, JobInfo.get_set_same]

theorem success_fields_witness :
    successItemStep JobInfo.initial
        { text := "Reference No.: 4711 ".toList, bold := "Reference No.:".toList } =
      JobInfo.initial.set InfoKey.referenceNo
        (if trim " 4711 ".toList = [] then none else some (trim " 4711 ".toList)) :=
  (success_fields (fixedSuccess [] []) []).1 JobInfo.initial
    { text := "Reference No.: 4711 ".toList, bold := "Reference No.:".toList }
    "Reference No.".toList InfoKey.referenceNo " 4711".toList
    (by decide) (Or.inr (by decide)) (by decide)

/-- C14 fails as stated. "Address" is a label of the table, yet an item whose
bold text is "Address." (the label followed by a period) or "Address.:" sets no
field: the address stays `null`. -/
theorem period_not_tolerated :
    ("Address".toList, InfoKey.address) ∈ labelToKey ∧
      (parseSuccessEmail
        (fixedSuccess "a job has been assigned to Festus Muberuka:".toList
          [{ text := "Address. 12 Main St".toList, bold := "Address.".toList }])
        "<html></html>".toList).address = none ∧
      (parseSuccessEmail
        (fixedSuccess "a job has been assigned to Festus Muberuka:".toList
          [{ text := "Address.: 12 Main St".toList, bold := "Address.:".toList }])
        "<html></html>".toList).address = none ∧
      (parseSuccessEmail
        (fixedSuccess "a job has been assigned to Festus Muberuka:".toList
          [{ text := "Address: 12 Main St".toList, bold := "Address:".toList }])
        "<html></html>".toList).address = some "12 Main St".toList := by
  decide

/-! ## Theorems: the mail watcher -/

theorem configList_mem (raw kw : Str) (h : kw ∈ configList raw) :
    toLowerCase kw = kw ∧ kw ≠ [] := by
  unfold configList at h
  rw [List.mem_filter, List.mem_map] at h
  obtain ⟨⟨s, _, hs⟩, ht⟩ := h
  constructor
  · rw [← hs, toLowerCase_idem]
  · intro hnil
    rw [hnil] at ht
    exact absurd ht (by decide)

theorem getImapListenConfig_lists (penv : ProcessEnv) (config : ImapListenConfig)
    (h : getImapListenConfig penv = some config) :
    (∀ kw ∈ config.subjectKeywords, toLowerCase kw = kw ∧ kw ≠ []) ∧
      (∀ a ∈ config.allowedSenders, toLowerCase a = a ∧ a ≠ []) := by
  unfold getImapListenConfig at h
  split at h
  · cases h
  · simp only [Option.some.injEq] at h
    subst h
    exact ⟨fun kw hkw => configList_mem _ kw hkw, fun a ha => configList_mem _ a ha⟩

theorem orStr_some_nil (s : Str) : orStr (some s) [] = s := by
  cases s <;> rfl

theorem length_beq_zero {β : Type} (l : List β) : (l.length == 0) = true ↔ l = [] := by
  cases l <;> simp

theorem subjectMatches_iff (s : Str) (kws : List Str) :
    subjectMatches (some s) kws = true ↔
      kws = [] ∨ ∃ kw ∈ kws, includes (toLowerCase s) kw = true := by
  unfold subjectMatches
  by_cases h : kws = []
  · subst h
    simp
  · have h0 : ¬ ((kws.length == 0) = true) := fun e => h ((length_beq_zero kws).mp e)
    rw [if_neg h0, orStr_some_nil]
    simp only [List.any_eq_true]
    constructor
    · intro hx; exact Or.inr hx
    · rintro (hx | hx)
      · exact absurd hx h
      · exact hx

theorem senderMatches_iff (fromAddresses : Option (List Sender)) (allowed : List Str) :
    senderMatches fromAddresses allowed = true ↔
      allowed = [] ∨ ∃ addr ∈ lowerAddresses fromAddresses, ∃ a ∈ allowed,
        addr = a ∨ ('@' :: a) <:+ addr := by
  unfold senderMatches
  by_cases h : allowed = []
  · subst h
    simp
  · have h0 : ¬ ((allowed.length == 0) = true) :=
      fun e => h ((length_beq_zero allowed).mp e)
    rw [if_neg h0]
    simp only [List.any_eq_true, Bool.or_eq_true, beq_iff_eq, endsWith,
      List.isSuffixOf_iff_suffix]
    constructor
    · intro hx; exact Or.inr hx
    · rintro (hx | hx)
      · exact absurd hx h
      · exact hx

theorem mem_lowerAddresses (msg : Message) (x : Str) :
    x ∈ lowerAddresses (some ((msg.envelope.bind (fun e => e.fromList)).getD [])) ↔
      ∃ addr ∈ senderAddresses msg, toLowerCase addr = x ∧ x ≠ [] := by
  unfold lowerAddresses senderAddresses
  simp only [Option.getD_some, List.mem_filterMap]
  constructor
  · rintro ⟨a, ha, hx⟩
    cases a with
    | text s =>
      simp only at hx
      split at hx
      · rename_i ht
        simp only [Option.some.injEq] at hx
        refine ⟨s, ⟨Sender.text s, ha, rfl⟩, hx, ?_⟩
        intro hnil
        rw [hx, hnil] at ht
        simp [truthy] at ht
      · cases hx
    | object address =>
      cases address with
      | none =>
        simp only [Option.map_none'] at hx
        split at hx <;> cases hx
      | some s =>
        simp only [Option.map_some'] at hx
        split at hx
        · rename_i ht
          simp only [Option.some.injEq] at hx
          refine ⟨s, ⟨Sender.object (some s), ha, rfl⟩, hx, ?_⟩
          intro hnil
          rw [hx, hnil] at ht
          simp [truthy] at ht
        · cases hx
  · rintro ⟨addr, ⟨a, ha, haddr⟩, hx, hne⟩
    refine ⟨a, ha, ?_⟩
    have ht : truthy (some (toLowerCase addr)) = true := by
      rw [hx]; exact truthy_of_ne_nil x hne
    cases a with
    | text s =>
      simp only [Option.some.injEq] at haddr
      subst haddr
      rw [hx] at ht
      simp only [hx, ht, if_true]
    | object address =>
      simp only at haddr
      subst haddr
      rw [hx] at ht
      simp only [Option.map_some', hx, ht, if_true]

theorem processMessage_fate (config : ImapListenConfig) (uidValidity : Str)
    (seen : SeenSet Str) (msg : Message)
    (hnew : seen.has (getMessageId msg msg.uid uidValidity) = false) :
    (processMessage config uidValidity seen msg).2 =
      (if subjectMatches (some (messageSubject msg)) config.subjectKeywords = true ∧
          senderMatches (some ((msg.envelope.bind (fun e => e.fromList)).getD []))
            config.allowedSenders = true
        then Fate.matched else Fate.filtered) := by
  unfold processMessage messageSubject
  simp only [hnew, Bool.false_eq_true, if_false]
  cases subjectMatches (some (orStr (msg.envelope.bind (fun e => e.subject)) []))
      config.subjectKeywords <;>
    cases senderMatches (some ((msg.envelope.bind (fun e => e.fromList)).getD []))
      config.allowedSenders <;> simp

/-- C15. With the keyword list and the allowed-sender list that
`getImapListenConfig` produces, a message that is new to the dedupe set gets
through the two filters of `processNewMessages` exactly when the keyword list is
empty or some keyword is a case-insensitive substring of the subject, and the
allowed list is empty or some sender address, up to letter case, equals an
allowed entry or ends with `@` followed by one; otherwise it is filtered out.
Letter case is ignored the way the code does it: both sides are compared as
`toLowerCase` lower-cases them. -/
theorem filter_iff (penv : ProcessEnv) (config : ImapListenConfig)
    (hcfg : getImapListenConfig penv = some config) (uidValidity : Str)
    (seen : SeenSet Str) (msg : Message)
    (hnew : seen.has (getMessageId msg msg.uid uidValidity) = false) :
    ((processMessage config uidValidity seen msg).2 = Fate.matched ↔
      (config.subjectKeywords = [] ∨
        ∃ kw ∈ config.subjectKeywords, keywordInSubject kw (messageSubject msg)) ∧
      (config.allowedSenders = [] ∨
        ∃ addr ∈ senderAddresses msg, ∃ a ∈ config.allowedSenders,
          addressAllowed addr a)) ∧
    ((processMessage config uidValidity seen msg).2 = Fate.matched ∨
      (processMessage config uidValidity seen msg).2 = Fate.filtered) := by
  obtain ⟨hk, ha⟩ := getImapListenConfig_lists penv config hcfg
  rw [processMessage_fate config uidValidity seen msg hnew]
  constructor
  · have hs : subjectMatches (some (messageSubject msg)) config.subjectKeywords = true ↔
        (config.subjectKeywords = [] ∨
          ∃ kw ∈ config.subjectKeywords, keywordInSubject kw (messageSubject msg)) := by
      rw [subjectMatches_iff]
      apply or_congr Iff.rfl
      constructor
      · rintro ⟨kw, hkw, hinc⟩
        refine ⟨kw, hkw, ?_⟩
        unfold keywordInSubject
        rw [(hk kw hkw).1]
        exact (includes_lower_iff kw _).mp hinc
      · rintro ⟨kw, hkw, hin⟩
        unfold keywordInSubject at hin
        rw [(hk kw hkw).1] at hin
        exact ⟨kw, hkw, (includes_lower_iff kw _).mpr hin⟩
    have hm : senderMatches (some ((msg.envelope.bind (fun e => e.fromList)).getD []))
          config.allowedSenders = true ↔
        (config.allowedSenders = [] ∨
          ∃ addr ∈ senderAddresses msg, ∃ a ∈ config.allowedSenders,
            addressAllowed addr a) := by
      rw [senderMatches_iff]
      apply or_congr Iff.rfl
      constructor
      · rintro ⟨x, hx, a, hmem, hor⟩
        obtain ⟨addr, haddr, hlow, _⟩ := (mem_lowerAddresses msg x).mp hx
        refine ⟨addr, haddr, a, hmem, ?_⟩
        unfold addressAllowed
        rw [hlow, (ha a hmem).1]
        exact hor
      · rintro ⟨addr, haddr, a, hmem, hor⟩
        unfold addressAllowed at hor
        rw [(ha a hmem).1] at hor
        have hne : toLowerCase addr ≠ [] := by
          rcases hor with h | h
          · rw [h]; exact (ha a hmem).2
          · intro hnil
            rw [hnil] at h
            have := List.suffix_nil.mp h
            cases this
        exact ⟨toLowerCase addr, (mem_lowerAddresses msg _).mpr ⟨addr, haddr, rfl, hne⟩,
          a, hmem, hor⟩
    rw [← hs, ← hm]
    split
    · rename_i h; simp [h]
    · rename_i h
      constructor
      · intro hf; cases hf
      · intro hh; exact absurd hh h
  · split
    · exact Or.inl rfl
    · exact Or.inr rfl

set_option maxRecDepth 100000 in
theorem filter_iff_witness :
    (processMessage cafeConfig "7".toList (seenInitial none)
      (sampleMessage 1 "<m1@dispatch.example.com>".toList
        "Bot@Dispatch.Example.com".toList "FW: CAFÉ JOB in Lisle".toList)).2 = Fate.matched :=
  (filter_iff cafeProcessEnv cafeConfig (by decide) "7".toList (seenInitial none)
    (sampleMessage 1 "<m1@dispatch.example.com>".toList
      "Bot@Dispatch.Example.com".toList "FW: CAFÉ JOB in Lisle".toList) (by decide)).1.mpr
    ⟨Or.inr ⟨"café job".toList, by decide, by unfold keywordInSubject; decide⟩, Or.inl rfl⟩

theorem processMessage_seen (config : ImapListenConfig) (uidValidity : Str)
    (seen : SeenSet Str) (msg : Message) :
    (processMessage config uidValidity seen msg).1 =
      seen.add (getMessageId msg msg.uid uidValidity) := by
  unfold processMessage
  simp only []
  by_cases h : seen.has (getMessageId msg msg.uid uidValidity) = true
  · rw [if_pos h, add_of_contains seen _ h]
  · rw [if_neg h]
    split
    · rfl
    · split <;> rfl

theorem processMessage_duplicate (config : ImapListenConfig) (uidValidity : Str)
    (seen : SeenSet Str) (msg : Message) :
    ((processMessage config uidValidity seen msg).2 = Fate.duplicate ↔
      seen.has (getMessageId msg msg.uid uidValidity) = true) := by
  unfold processMessage
  simp only []
  by_cases h : seen.has (getMessageId msg msg.uid uidValidity) = true
  · rw [if_pos h]
    exact ⟨fun _ => h, fun _ => rfl⟩
  · rw [if_neg h]
    constructor
    · intro hf
      split at hf
      · cases hf
      · split at hf <;> cases hf
    · intro hh
      exact absurd hh h

theorem passedDedupe_cons (id : Str) (fate : Fate) (log : List (Str × Fate)) :
    passedDedupe ((id, fate) :: log) =
      if fate = Fate.duplicate then passedDedupe log else id :: passedDedupe log := by
  unfold passedDedupe
  cases fate <;> simp [List.filter_cons]

theorem passedDedupe_append (l1 l2 : List (Str × Fate)) :
    passedDedupe (l1 ++ l2) = passedDedupe l1 ++ passedDedupe l2 := by
  unfold passedDedupe
  rw [List.filter_append, List.map_append]

theorem passedIds_cons (s : SeenSet Str) (x : Str) (xs : List Str) :
    passedIds s (x :: xs) =
      if s.has x = true then passedIds s xs else x :: passedIds (s.add x) xs := rfl

theorem processLoop_cons (config : ImapListenConfig) (uidValidity : Str)
    (seen : SeenSet Str) (msg : Message) (rest : List Message) :
    processLoop config uidValidity seen (msg :: rest) =
      ((processLoop config uidValidity
          (seen.add (getMessageId msg msg.uid uidValidity)) rest).1,
        (getMessageId msg msg.uid uidValidity,
          (processMessage config uidValidity seen msg).2) ::
          (processLoop config uidValidity
            (seen.add (getMessageId msg msg.uid uidValidity)) rest).2) := by
  rw [← processMessage_seen config uidValidity seen msg]
  rfl

theorem processLoop_eq (config : ImapListenConfig) (uidValidity : Str)
    (messages : List Message) (seen : SeenSet Str) :
    (processLoop config uidValidity seen messages).1 =
        seen.addAll (messages.map (fun m => getMessageId m m.uid uidValidity)) ∧
      passedDedupe (processLoop config uidValidity seen messages).2 =
        passedIds seen (messages.map (fun m => getMessageId m m.uid uidValidity)) ∧
      (processLoop config uidValidity seen messages).2.map (fun p => p.1) =
        messages.map (fun m => getMessageId m m.uid uidValidity) := by
  induction messages generalizing seen with
  | nil => exact ⟨rfl, rfl, rfl⟩
  | cons msg rest ih =>
    obtain ⟨h1, h2, h3⟩ := ih (seen.add (getMessageId msg msg.uid uidValidity))
    rw [processLoop_cons]
    refine ⟨?_, ?_, ?_⟩
    · rw [h1]
      rfl
    · rw [passedDedupe_cons, h2, List.map_cons, passedIds_cons]
      by_cases hd : seen.has (getMessageId msg msg.uid uidValidity) = true
      · rw [if_pos ((processMessage_duplicate config uidValidity seen msg).mpr hd),
          if_pos hd, add_of_contains seen _ hd]
      · rw [if_neg (fun e => hd ((processMessage_duplicate config uidValidity seen msg).mp e)),
          if_neg hd]
    · rw [List.map_cons, h3]
      rfl

theorem addAll_append (s : SeenSet Str) (xs ys : List Str) :
    s.addAll (xs ++ ys) = (s.addAll xs).addAll ys := by
  unfold SeenSet.addAll
  rw [List.foldl_append]

theorem passedIds_append (xs ys : List Str) (s : SeenSet Str) :
    passedIds s (xs ++ ys) = passedIds s xs ++ passedIds (s.addAll xs) ys := by
  induction xs generalizing s with
  | nil => rfl
  | cons x xs ih =>
    rw [List.cons_append, passedIds_cons, passedIds_cons]
    by_cases h : s.has x = true
    · rw [if_pos h, if_pos h, ih]
      show _ = _ ++ passedIds ((s.add x).addAll xs) ys
      rw [add_of_contains s x h]
    · rw [if_neg h, if_neg h, ih]
      rfl

theorem runBatches_eq (config : ImapListenConfig) (batches : List Batch)
    (seen : SeenSet Str) :
    (runBatches config seen batches).1 = seen.addAll (allIds batches) ∧
      passedDedupe (runBatches config seen batches).2 = passedIds seen (allIds batches) ∧
      (runBatches config seen batches).2.map (fun p => p.1) = allIds batches := by
  induction batches generalizing seen with
  | nil => exact ⟨rfl, rfl, rfl⟩
  | cons b rest ih =>
    have hb : (processNewMessages config b.uidValidity b.fetched seen).1 =
          seen.addAll (batchIds b) ∧
        passedDedupe (processNewMessages config b.uidValidity b.fetched seen).2 =
          passedIds seen (batchIds b) ∧
        (processNewMessages config b.uidValidity b.fetched seen).2.map (fun p => p.1) =
          batchIds b := by
      unfold processNewMessages batchIds
      cases b.fetched with
      | none => exact ⟨rfl, rfl, rfl⟩
      | some messages => exact processLoop_eq config b.uidValidity messages seen
    obtain ⟨b1, b2, b3⟩ := hb
    obtain ⟨h1, h2, h3⟩ := ih (processNewMessages config b.uidValidity b.fetched seen).1
    rw [b1] at h1 h2 h3
    refine ⟨?_, ?_, ?_⟩
    · show (runBatches config (processNewMessages config b.uidValidity b.fetched seen).1
        rest).1 = _
      rw [b1, h1]
      show _ = seen.addAll (batchIds b ++ allIds rest)
      rw [addAll_append]
    · show passedDedupe ((processNewMessages config b.uidValidity b.fetched seen).2 ++
        (runBatches config (processNewMessages config b.uidValidity b.fetched seen).1
          rest).2) = _
      rw [passedDedupe_append, b2, b1, h2]
      show _ = passedIds seen (batchIds b ++ allIds rest)
      rw [passedIds_append]
    · show ((processNewMessages config b.uidValidity b.fetched seen).2 ++
        (runBatches config (processNewMessages config b.uidValidity b.fetched seen).1
          rest).2).map (fun p => p.1) = _
      rw [List.map_append, b3, b1, h3]
      rfl

/-- While the identifiers at hand are no more than the capacity, nothing is
evicted, and the identifiers that pass are new to the set and pairwise distinct. -/
theorem passedIds_nodup (c : Nat) (xs l : List Str) (hl : l.Nodup)
    (hcount : ∀ m : List Str, m.Nodup → m ⊆ l ++ xs → m.length ≤ c) :
    (passedIds { maxSize := (c : Int), ids := l, order := l } xs).Nodup ∧
      ∀ y ∈ passedIds { maxSize := (c : Int), ids := l, order := l } xs, y ∉ l := by
  induction xs generalizing l with
  | nil => exact ⟨List.nodup_nil, fun y hy => absurd hy (List.not_mem_nil y)⟩
  | cons x xs ih =>
    by_cases hx : x ∈ l
    · have hhas : SeenSet.has { maxSize := (c : Int), ids := l, order := l } x = true := by
        simpa [SeenSet.has] using hx
      rw [passedIds_cons, if_pos hhas]
      apply ih l hl
      intro m hm hsub
      exact hcount m hm (fun a ha => by
        rcases List.mem_append.mp (hsub ha) with h | h
        · exact List.mem_append_left _ h
        · exact List.mem_append_right _ (List.mem_cons_of_mem _ h))
    · have hhas : ¬ SeenSet.has { maxSize := (c : Int), ids := l, order := l } x = true := by
        simpa [SeenSet.has] using hx
      have hnd : (l ++ [x]).Nodup := by
        rw [List.nodup_append]
        refine ⟨hl, List.nodup_singleton x, ?_⟩
        intro a ha hb
        rw [List.mem_singleton] at hb
        exact hx (hb ▸ ha)
      have hlen : (l ++ [x]).length ≤ c :=
        hcount _ hnd (fun a ha => by
          rcases List.mem_append.mp ha with h | h
          · exact List.mem_append_left _ h
          · rw [List.mem_singleton] at h
            exact List.mem_append_right _ (h ▸ List.mem_cons_self _ _))
      have hroom : (l.length : Int) < (c : Int) := by
        simp only [List.length_append, List.length_singleton] at hlen
        exact_mod_cast hlen
      rw [passedIds_cons, if_neg hhas, add_fresh_room (c : Int) l x hx hroom]
      obtain ⟨h1, h2⟩ := ih (l ++ [x]) hnd (fun m hm hsub => hcount m hm (fun a ha => by
        rcases List.mem_append.mp (hsub ha) with h | h
        · rcases List.mem_append.mp h with h | h
          · exact List.mem_append_left _ h
          · rw [List.mem_singleton] at h
            exact List.mem_append_right _ (h ▸ List.mem_cons_self _ _)
        · exact List.mem_append_right _ (List.mem_cons_of_mem _ h)))
      refine ⟨List.nodup_cons.mpr ⟨?_, h1⟩, ?_⟩
      · intro hmem
        exact h2 x hmem (List.mem_append_right _ (List.mem_singleton_self x))
      · intro y hy
        rcases List.mem_cons.mp hy with h | h
        · rw [h]; exact hx
        · exact fun hyl => h2 y h (List.mem_append_left _ hyl)

/-- C16, as amended. While the messages of a process lifetime carry no more
distinct identifiers than the capacity of the dedupe set, no identifier gets past
the dedupe check more than once. At any time a message whose identifier is in the
set is skipped and leaves the set as it is, and a message whose identifier is not
in the set passes and has its identifier in the set at once. -/
theorem at_most_once (config : ImapListenConfig) (c : Nat) (hc : 1 ≤ c)
    (batches : List Batch) (hdistinct : (allIds batches).dedup.length ≤ c) :
    (passedDedupe (runBatches config (seenInitial (some (c : Int))) batches).2).Nodup ∧
    (∀ (uidValidity : Str) (seen : SeenSet Str) (msg : Message),
      seen.has (getMessageId msg msg.uid uidValidity) = true →
      processMessage config uidValidity seen msg = (seen, Fate.duplicate)) ∧
    (∀ (uidValidity : Str) (seen : SeenSet Str) (msg : Message),
      seen.has (getMessageId msg msg.uid uidValidity) = false →
      (processMessage config uidValidity seen msg).2 ≠ Fate.duplicate ∧
        (processMessage config uidValidity seen msg).1.has
          (getMessageId msg msg.uid uidValidity) = true) := by
  refine ⟨?_, ?_, ?_⟩
  · have hseen : seenInitial (some (c : Int)) =
        { maxSize := (c : Int), ids := [], order := [] } := by
      unfold seenInitial SeenSet.new
      have : ¬ ((c : Int) = 0) := by omega
      simp only [if_neg this]
    rw [(runBatches_eq config batches _).2.1, hseen]
    refine (passedIds_nodup c (allIds batches) [] List.nodup_nil ?_).1
    intro m hm hsub
    have hsub2 : m ⊆ (allIds batches).dedup := fun a ha =>
      List.mem_dedup.mpr (by simpa using hsub ha)
    exact le_trans (hm.subperm hsub2).length_le hdistinct
  · intro uidValidity seen msg h
    unfold processMessage
    simp only [h, if_true]
  · intro uidValidity seen msg h
    constructor
    · intro hd
      have := (processMessage_duplicate config uidValidity seen msg).mp hd
      rw [h] at this
      cases this
    · rw [processMessage_seen]
      exact add_contains seen _

theorem at_most_once_witness :
    (passedDedupe (runBatches sampleConfig (seenInitial (some ((2 : Nat) : Int)))
      sampleBatches).2).Nodup :=
  (at_most_once sampleConfig 2 (by decide) sampleBatches (by decide)).1

/-- C16 fails as stated. With a dedupe set of capacity 1 (`IMAP_DEDUPE_MAX=1`),
the second message evicts the identifier of the first, and when the first message
is fetched again it gets past the dedupe check a second time. -/
theorem passes_twice_after_eviction :
    passedDedupe (runBatches sampleConfig (seenInitial (some 1)) sampleBatches).2 =
        ["<m1@dispatch.example.com>".toList, "<m2@dispatch.example.com>".toList,
         "<m1@dispatch.example.com>".toList] ∧
      ¬ (passedDedupe (runBatches sampleConfig (seenInitial (some 1))
        sampleBatches).2).Nodup := by
  decide

/-! ## Theorems: the link candidates and the accept URL -/

theorem linkStep_decline (h : Hrefs) (el : Anchor)
    (ha : searchI "accept".toList el.text = false)
    (hd : searchI "decline".toList el.text = true) :
    (linkStep h el).declineHref = some (orStr el.href []) := by
  rw [linkStep_eq, if_neg (by rw [ha]; exact Bool.false_ne_true), if_pos hd]

theorem linkStep_not_decline (h : Hrefs) (el : Anchor)
    (hx : searchI "accept".toList el.text = true ∨
      searchI "decline".toList el.text = false) :
    (linkStep h el).declineHref = h.declineHref := by
  rw [linkStep_eq]
  by_cases ha : searchI "accept".toList el.text = true
  · rw [if_pos ha]
  · rw [if_neg ha]
    rcases hx with hx | hx
    · exact absurd hx ha
    · rw [if_neg (by rw [hx]; exact Bool.false_ne_true)]

theorem foldl_linkStep_not_decline (ls : List Anchor) (h : Hrefs)
    (hls : ∀ a ∈ ls, searchI "accept".toList a.text = true ∨
      searchI "decline".toList a.text = false) :
    (ls.foldl linkStep h).declineHref = h.declineHref := by
  induction ls generalizing h with
  | nil => rfl
  | cons a ls ih =>
    rw [List.foldl_cons, ih _ (fun b hb => hls b (List.mem_cons_of_mem _ hb)),
      linkStep_not_decline h a (hls a (List.mem_cons_self _ _))]

/-- C17, as amended. The accept-link candidate of `parseEmailHtml` is the last
link whose text matches `/accept/i`, and the decline-link candidate is the last
link whose text matches `/decline/i` and not `/accept/i`; a candidate is absent
when no link qualifies. -/
theorem last_link_chosen (ch : Cheerio) (html : Str) :
    (∀ (before after : List Anchor) (a : Anchor),
      ch.anchors html = before ++ a :: after →
      searchI "accept".toList a.text = true →
      (∀ x ∈ after, searchI "accept".toList x.text = false) →
      (scanLinks (ch.anchors html)).acceptHref = some (orStr a.href [])) ∧
    (∀ (before after : List Anchor) (d : Anchor),
      ch.anchors html = before ++ d :: after →
      searchI "accept".toList d.text = false →
      searchI "decline".toList d.text = true →
      (∀ x ∈ after, searchI "accept".toList x.text = true ∨
        searchI "decline".toList x.text = false) →
      (scanLinks (ch.anchors html)).declineHref = some (orStr d.href [])) ∧
    ((∀ x ∈ ch.anchors html, searchI "accept".toList x.text = false) →
      (scanLinks (ch.anchors html)).acceptHref = none) ∧
    ((∀ x ∈ ch.anchors html, searchI "accept".toList x.text = true ∨
        searchI "decline".toList x.text = false) →
      (scanLinks (ch.anchors html)).declineHref = none) := by
  refine ⟨?_, ?_, ?_, ?_⟩
  · intro before after a hdoc ha hafter
    rw [hdoc, scanLinks, List.foldl_append, List.foldl_cons,
      foldl_linkStep_not_accept after _ hafter, linkStep_accept _ _ ha]
  · intro before after d hdoc ha hd hafter
    rw [hdoc, scanLinks, List.foldl_append, List.foldl_cons,
      foldl_linkStep_not_decline after _ hafter, linkStep_decline _ _ ha hd]
  · intro hall
    rw [scanLinks, foldl_linkStep_not_accept _ _ hall]
  · intro hall
    rw [scanLinks, foldl_linkStep_not_decline _ _ hall]

theorem last_link_chosen_witness :
    (scanLinks ((fixedDoc
        [{ text := "Accept Job".toList, href := some "https://a.example.com/first".toList },
         { text := "Decline".toList, href := some "https://a.example.com/no".toList },
         { text := "Accept".toList, href := some "https://a.example.com/second".toList }]
        []).anchors "<html></html>".toList)).acceptHref =
      some (orStr (some "https://a.example.com/second".toList) []) :=
  (last_link_chosen
    (fixedDoc
      [{ text := "Accept Job".toList, href := some "https://a.example.com/first".toList },
       { text := "Decline".toList, href := some "https://a.example.com/no".toList },
       { text := "Accept".toList, href := some "https://a.example.com/second".toList }]
      []) "<html></html>".toList).1
    [{ text := "Accept Job".toList, href := some "https://a.example.com/first".toList },
     { text := "Decline".toList, href := some "https://a.example.com/no".toList }]
    []
    { text := "Accept".toList, href := some "https://a.example.com/second".toList }
    rfl (by decide) (by decide)

/-- C17 fails as stated. Of two links whose text matches `/accept/i` the second
is the accept candidate, of two links whose text matches `/decline/i` the second
is the decline candidate, and the accept URL is taken from the second accept link. -/
theorem first_link_not_chosen :
    (scanLinks
        [{ text := "Accept Job".toList, href := some "https://a.example.com/first".toList },
         { text := "Decline".toList, href := some "https://a.example.com/no1".toList },
         { text := "Accept".toList, href := some "https://a.example.com/second".toList },
         { text := "Decline job".toList,
           href := some "https://a.example.com/no2".toList }]).acceptHref =
        some "https://a.example.com/second".toList ∧
      (scanLinks
        [{ text := "Accept Job".toList, href := some "https://a.example.com/first".toList },
         { text := "Decline".toList, href := some "https://a.example.com/no1".toList },
         { text := "Accept".toList, href := some "https://a.example.com/second".toList },
         { text := "Decline job".toList,
           href := some "https://a.example.com/no2".toList }]).declineHref =
        some "https://a.example.com/no2".toList ∧
      (parseEmailHtml
        (fixedDoc
          [{ text := "Accept Job".toList,
             href := some "https://a.example.com/first".toList },
           { text := "Decline".toList, href := some "https://a.example.com/no1".toList },
           { text := "Accept".toList, href := some "https://a.example.com/second".toList },
           { text := "Decline job".toList,
             href := some "https://a.example.com/no2".toList }] [])
        "<html></html>".toList).acceptUrl =
        some "https://a.example.com/second".toList := by
  decide

theorem tokenAt_shape (s t : Str) (h : tokenAt s = some t) :
    ∃ c rest, t = 'e' :: 'y' :: c :: rest := by
  unfold tokenAt at h
  split at h
  · rename_i rest
    simp only [] at h
    split at h
    · rename_i hc
      simp only [Option.some.injEq] at h
      cases hrun : rest.takeWhile (fun c => !isDelim c) with
      | nil => rw [hrun] at hc; simp at hc
      | cons c r => exact ⟨c, r, by rw [← h, hrun]⟩
    · cases h
  · cases h

theorem matchToken_shape (s t : Str) (h : matchToken s = some t) :
    ∃ c rest, t = 'e' :: 'y' :: c :: rest := by
  induction s with
  | nil => cases h
  | cons x xs ih =>
    rw [matchToken] at h
    split at h
    · rename_i t2 ht
      simp only [Option.some.injEq] at h
      subst h
      exact tokenAt_shape _ _ ht
    · exact ih h

theorem extractToken_shape (href : Option Str) (t : Str)
    (h : extractTokenFromHref href = some t) : ∃ c rest, t = 'e' :: 'y' :: c :: rest := by
  unfold extractTokenFromHref at h
  split at h
  · cases h
  · cases h
  · exact matchToken_shape _ _ h

theorem buildAcceptUrl_of_shape (c : Char) (rest : Str) :
    buildAcceptUrl (some ('e' :: 'y' :: c :: rest)) =
      some (ACCEPT_JOB_BASE_URL ++ "/".toList ++ 'e' :: 'y' :: c :: rest) := by
  simp [buildAcceptUrl, startsWith]

theorem chooseAcceptUrl_eq (h : Hrefs) :
    chooseAcceptUrl h =
      if truthy (orNull (extractTokenFromHref h.acceptHref)
          (extractTokenFromHref h.declineHref)) = true then
        buildAcceptUrl (orNull (extractTokenFromHref h.acceptHref)
          (extractTokenFromHref h.declineHref))
      else if truthy h.acceptHref = true then h.acceptHref
      else none := rfl

/-- C18. The accept URL is the fixed base, a slash and the token of the accept
href when that href holds a token; otherwise the base, a slash and the token of
the decline href when that one holds a token; otherwise the accept href as it is
when it is a non-empty string; otherwise `null`. So an email with only a decline
link and no token has no accept URL. -/
theorem acceptUrl_cases (ch : Cheerio) (html : Str) (h : Hrefs) :
    (parseEmailHtml ch html).acceptUrl = chooseAcceptUrl (scanLinks (ch.anchors html)) ∧
    (∀ t, extractTokenFromHref h.acceptHref = some t →
      chooseAcceptUrl h = some (ACCEPT_JOB_BASE_URL ++ "/".toList ++ t)) ∧
    (∀ t, extractTokenFromHref h.acceptHref = none →
      extractTokenFromHref h.declineHref = some t →
      chooseAcceptUrl h = some (ACCEPT_JOB_BASE_URL ++ "/".toList ++ t)) ∧
    (∀ c s, extractTokenFromHref h.acceptHref = none →
      extractTokenFromHref h.declineHref = none → h.acceptHref = some (c :: s) →
      chooseAcceptUrl h = some (c :: s)) ∧
    (extractTokenFromHref h.acceptHref = none →
      extractTokenFromHref h.declineHref = none →
      (h.acceptHref = none ∨ h.acceptHref = some []) →
      chooseAcceptUrl h = none) ∧
    (h.acceptHref = none → extractTokenFromHref h.declineHref = none →
      chooseAcceptUrl h = none) := by
  refine ⟨rfl, ?_, ?_, ?_, ?_, ?_⟩
  · intro t ht
    obtain ⟨c, rest, rfl⟩ := extractToken_shape _ t ht
    rw [chooseAcceptUrl_eq, ht]
    simp only [orNull, truthy, if_true]
    exact buildAcceptUrl_of_shape c rest
  · intro t ha ht
    obtain ⟨c, rest, rfl⟩ := extractToken_shape _ t ht
    rw [chooseAcceptUrl_eq, ha, ht]
    simp only [orNull, truthy, if_true]
    exact buildAcceptUrl_of_shape c rest
  · intro c s ha hd hraw
    rw [chooseAcceptUrl_eq, ha, hd, hraw]
    rfl
  · intro ha hd hraw
    rw [chooseAcceptUrl_eq, ha, hd]
    rcases hraw with hraw | hraw <;> rw [hraw] <;> rfl
  · intro hraw hd
    have ha : extractTokenFromHref h.acceptHref = none := by rw [hraw]; rfl
    rw [chooseAcceptUrl_eq, ha, hd, hraw]
    rfl

theorem acceptUrl_cases_witness :
    chooseAcceptUrl
        { acceptHref := some "https://dispatch.example.com/offer".toList,
          declineHref := some "https://dispatch.example.com/decline/eyABC123".toList } =
      some (ACCEPT_JOB_BASE_URL ++ "/".toList ++ "eyABC123".toList) :=
  (acceptUrl_cases (fixedDoc [] []) []
    { acceptHref := some "https://dispatch.example.com/offer".toList,
      declineHref := some "https://dispatch.example.com/decline/eyABC123".toList }).2.2.1
    "eyABC123".toList (by decide) (by decide)

/-! ## Theorems: the zip code -/

theorem getLast_toList_nil (prev : Option Char) : (prev.toList ++ []).getLast? = prev := by
  cases prev <;> rfl

theorem getLast_toList_cons (prev : Option Char) (c : Char) (a : Str) :
    (prev.toList ++ c :: a).getLast? = ((some c).toList ++ a).getLast? := by
  cases prev with
  | none => rfl
  | some p => exact List.getLast?_cons_cons

theorem zipAt_some (prev : Option Char) (s z : Str) (h : zipAt prev s = some z) :
    ∃ post, s = z ++ post ∧ ZipBlockAt prev [] z post := by
  unfold zipAt at h
  split at h
  · rename_i d1 d2 d3 d4 d5 rest
    simp only [] at h
    split at h
    · rename_i hc
      simp only [Option.some.injEq] at h
      subst h
      simp only [Bool.and_eq_true] at hc
      obtain ⟨⟨⟨⟨⟨⟨h1, h2⟩, h3⟩, h4⟩, h5⟩, hb⟩, ha⟩ := hc
      refine ⟨rest, rfl, rfl, ?_, ?_, ?_⟩
      · intro c hcm
        simp only [List.mem_cons, List.mem_singleton, List.not_mem_nil, or_false] at hcm
        rcases hcm with rfl | rfl | rfl | rfl | rfl <;> assumption
      · intro c hc
        rw [getLast_toList_nil] at hc
        subst hc
        simpa using hb
      · intro c hc
        cases rest with
        | nil => cases hc
        | cons r rs =>
          simp only [List.head?_cons, Option.some.injEq] at hc
          subst hc
          simpa using ha
    · cases h
  · cases h

theorem zipAt_of_block (prev : Option Char) (z post : Str)
    (h : ZipBlockAt prev [] z post) : zipAt prev (z ++ post) = some z := by
  obtain ⟨hlen, hdig, hb, ha⟩ := h
  match z, hlen with
  | [d1, d2, d3, d4, d5], _ =>
    have h1 := hdig d1 (by simp)
    have h2 := hdig d2 (by simp)
    have h3 := hdig d3 (by simp)
    have h4 := hdig d4 (by simp)
    have h5 := hdig d5 (by simp)
    show zipAt prev (d1 :: d2 :: d3 :: d4 :: d5 :: post) = _
    cases prev with
    | none =>
      cases post with
      | nil => simp [zipAt, h1, h2, h3, h4, h5]
      | cons c cs =>
        have hc := ha c rfl
        simp [zipAt, h1, h2, h3, h4, h5, hc]
    | some p =>
      have hp := hb p rfl
      cases post with
      | nil => simp [zipAt, h1, h2, h3, h4, h5, hp]
      | cons c cs =>
        have hc := ha c rfl
        simp [zipAt, h1, h2, h3, h4, h5, hp, hc]

theorem block_split_cons (c : Char) (s a z post : Str)
    (h : c :: s = a ++ z ++ post) :
    (a = [] ∧ c :: s = z ++ post) ∨ ∃ a2, a = c :: a2 ∧ s = a2 ++ z ++ post := by
  cases a with
  | nil => exact Or.inl ⟨rfl, by simpa using h⟩
  | cons x a2 =>
    simp only [List.cons_append, List.cons.injEq] at h
    obtain ⟨rfl, hs⟩ := h
    exact Or.inr ⟨a2, rfl, by simpa using hs⟩

/-- What `zipSearch` returns is a block in the sense of `ZipBlockAt`, and no
block starts before it. -/
theorem zipSearch_sound (s : Str) (prev : Option Char) (z : Str)
    (h : zipSearch prev s = some z) :
    ∃ a post, s = a ++ z ++ post ∧ ZipBlockAt prev a z post ∧
      ∀ a2 z2 post2, s = a2 ++ z2 ++ post2 → ZipBlockAt prev a2 z2 post2 →
        a.length ≤ a2.length := by
  induction s generalizing prev with
  | nil => cases h
  | cons c s ih =>
    rw [zipSearch] at h
    cases hz : zipAt prev (c :: s) with
    | some z1 =>
      rw [hz] at h
      simp only [Option.some.injEq] at h
      subst h
      obtain ⟨post, hs, hb⟩ := zipAt_some prev _ _ hz
      exact ⟨[], post, by simpa using hs, hb, fun _ _ _ _ _ => Nat.zero_le _⟩
    | none =>
      rw [hz] at h
      obtain ⟨a, post, hs, hb, hmin⟩ := ih (some c) h
      refine ⟨c :: a, post, by rw [hs]; simp, ?_, ?_⟩
      · obtain ⟨b1, b2, b3, b4⟩ := hb
        exact ⟨b1, b2, fun x hx => b3 x (by rw [← getLast_toList_cons prev c a]; exact hx), b4⟩
      · intro a2 z2 post2 hs2 hb2
        rcases block_split_cons c s a2 z2 post2 hs2 with ⟨rfl, h0⟩ | ⟨a3, rfl, h3⟩
        · rw [h0, zipAt_of_block prev z2 post2 hb2] at hz
          cases hz
        · obtain ⟨c1, c2, c3, c4⟩ := hb2
          have := hmin a3 z2 post2 h3
            ⟨c1, c2, fun x hx => c3 x (by rw [getLast_toList_cons prev c a3]; exact hx), c4⟩
          simp only [List.length_cons]
          omega

/-- Where the text holds a block in the sense of `ZipBlockAt`, `zipSearch` finds one. -/
theorem zipSearch_complete (s : Str) (prev : Option Char) (a z post : Str)
    (hs : s = a ++ z ++ post) (hb : ZipBlockAt prev a z post) :
    ∃ z1, zipSearch prev s = some z1 := by
  induction s generalizing prev a with
  | nil =>
    have : z = [] := by
      have h2 := congrArg List.length hs
      simp only [List.length_nil, List.length_append] at h2
      exact List.length_eq_zero.mp (by omega)
    rw [this] at hb
    exact absurd hb.1 (by decide)
  | cons c s ih =>
    rw [zipSearch]
    cases hz : zipAt prev (c :: s) with
    | some z1 => exact ⟨z1, rfl⟩
    | none =>
      rcases block_split_cons c s a z post hs with ⟨rfl, h0⟩ | ⟨a3, rfl, h3⟩
      · rw [h0, zipAt_of_block prev z post hb] at hz
        cases hz
      · obtain ⟨c1, c2, c3, c4⟩ := hb
        exact ih (some c) a3 h3
          ⟨c1, c2, fun x hx => c3 x (by rw [getLast_toList_cons prev c a3]; exact hx), c4⟩

theorem firstFiveDigits_of_block (s a z post : Str) (hs : s = a ++ z ++ post)
    (hlen : z.length = 5) (hdig : ∀ c ∈ z, c.isDigit = true) :
    ∃ z1, firstFiveDigits s = some z1 := by
  induction s generalizing a with
  | nil =>
    have : z = [] := by
      have h2 := congrArg List.length hs
      simp only [List.length_nil, List.length_append] at h2
      exact List.length_eq_zero.mp (by omega)
    rw [this] at hlen
    exact absurd hlen (by decide)
  | cons c s ih =>
    rw [firstFiveDigits]
    cases hz : fiveDigitsAt (c :: s) with
    | some z1 => exact ⟨z1, rfl⟩
    | none =>
      rcases block_split_cons c s a z post hs with ⟨rfl, h0⟩ | ⟨a3, rfl, h3⟩
      · exfalso
        match z, hlen with
        | [d1, d2, d3, d4, d5], _ =>
          have h1 := hdig d1 (by simp)
          have h2 := hdig d2 (by simp)
          have h3 := hdig d3 (by simp)
          have h4 := hdig d4 (by simp)
          have h5 := hdig d5 (by simp)
          rw [h0] at hz
          simp [fiveDigitsAt, h1, h2, h3, h4, h5] at hz
      · exact ih a3 h3

theorem zipSearch_iff (s z : Str) :
    zipSearch none s = some z ↔
      ∃ a post, s = a ++ z ++ post ∧ ZipBlockAt none a z post ∧
        ∀ a2 z2 post2, s = a2 ++ z2 ++ post2 → ZipBlockAt none a2 z2 post2 →
          a.length ≤ a2.length := by
  constructor
  · exact zipSearch_sound s none z
  · rintro ⟨a, post, hs, hb, hmin⟩
    obtain ⟨z1, hz1⟩ := zipSearch_complete s none a z post hs hb
    obtain ⟨a1, post1, hs1, hb1, hmin1⟩ := zipSearch_sound s none z1 hz1
    have hlen : a.length = a1.length :=
      Nat.le_antisymm (hmin a1 z1 post1 hs1 hb1) (hmin1 a z post hs hb)
    have heq : a ++ (z ++ post) = a1 ++ (z1 ++ post1) := by
      rw [← List.append_assoc, ← List.append_assoc, ← hs, ← hs1]
    obtain ⟨_, h2⟩ := List.append_inj heq hlen
    obtain ⟨h3, _⟩ := List.append_inj h2 (by rw [hb.1, hb1.1])
    rw [hz1, h3]

theorem zipSearch_eq_none_iff (s : Str) :
    zipSearch none s = none ↔
      ¬ ∃ a z post, s = a ++ z ++ post ∧ ZipBlockAt none a z post := by
  constructor
  · rintro h ⟨a, z, post, hs, hb⟩
    obtain ⟨z1, hz1⟩ := zipSearch_complete s none a z post hs hb
    rw [h] at hz1
    cases hz1
  · intro h
    cases hz : zipSearch none s with
    | none => rfl
    | some z =>
      obtain ⟨a, post, hs, hb, _⟩ := zipSearch_sound s none z hz
      exact absurd ⟨a, z, post, hs, hb⟩ h

/-- C19, as amended. In a document with exactly one address item, the zip code
is the leftmost block of five digits of the item's trimmed text that stands
between word boundaries (neither preceded nor followed by a letter, a digit or an
underscore), and `null` when the text holds no such block, in particular when it
holds no run of 5 consecutive digits. -/
theorem zipCode_of_address_item (ch : Cheerio) (html : Str) (before after : List Str)
    (raw : Str)
    (hdoc : ch.items html = before ++ raw :: after)
    (hraw : startsWithI "Address:".toList (trim raw) = true)
    (hbefore : ∀ t ∈ before, startsWithI "Address:".toList (trim t) = false)
    (hafter : ∀ t ∈ after, startsWithI "Address:".toList (trim t) = false) :
    (∀ z, (parseEmailHtml ch html).zipCode = some z ↔
      ∃ a post, trim raw = a ++ z ++ post ∧ ZipBlockAt none a z post ∧
        ∀ a2 z2 post2, trim raw = a2 ++ z2 ++ post2 → ZipBlockAt none a2 z2 post2 →
          a.length ≤ a2.length) ∧
    ((parseEmailHtml ch html).zipCode = none ↔
      ¬ ∃ a z post, trim raw = a ++ z ++ post ∧ ZipBlockAt none a z post) ∧
    (firstFiveDigits (trim raw) = none → (parseEmailHtml ch html).zipCode = none) := by
  have hz : (parseEmailHtml ch html).zipCode = zipSearch none (trim raw) := by
    show (scanItems (ch.items html)).zipCode = _
    rw [hdoc]
    exact (scanItems_single_address before after raw hraw hbefore hafter).2
  rw [hz]
  refine ⟨fun z => zipSearch_iff (trim raw) z, zipSearch_eq_none_iff (trim raw), ?_⟩
  intro hnone
  rw [zipSearch_eq_none_iff]
  rintro ⟨a, z, post, hs, hb⟩
  obtain ⟨z1, hz1⟩ := firstFiveDigits_of_block (trim raw) a z post hs hb.1 hb.2.1
  rw [hnone] at hz1
  cases hz1

theorem zipCode_of_address_item_witness :
    (∀ z, (parseEmailHtml (sampleOffer "1611 lacey ave, Lisle, Illinois 60532".toList)
        "<html>offer</html>".toList).zipCode = some z ↔
      ∃ a post, trim "Address: 1611 lacey ave, Lisle, Illinois 60532".toList =
          a ++ z ++ post ∧ ZipBlockAt none a z post ∧
        ∀ a2 z2 post2, trim "Address: 1611 lacey ave, Lisle, Illinois 60532".toList =
            a2 ++ z2 ++ post2 → ZipBlockAt none a2 z2 post2 → a.length ≤ a2.length) ∧
    ((parseEmailHtml (sampleOffer "1611 lacey ave, Lisle, Illinois 60532".toList)
        "<html>offer</html>".toList).zipCode = none ↔
      ¬ ∃ a z post, trim "Address: 1611 lacey ave, Lisle, Illinois 60532".toList =
        a ++ z ++ post ∧ ZipBlockAt none a z post) ∧
    (firstFiveDigits (trim "Address: 1611 lacey ave, Lisle, Illinois 60532".toList) = none →
      (parseEmailHtml (sampleOffer "1611 lacey ave, Lisle, Illinois 60532".toList)
        "<html>offer</html>".toList).zipCode = none) :=
  zipCode_of_address_item
    (sampleOffer "1611 lacey ave, Lisle, Illinois 60532".toList) "<html>offer</html>".toList
    [] ["Appliance: Washer".toList] "Address: 1611 lacey ave, Lisle, Illinois 60532".toList
    rfl (by decide) (by decide) (by decide)

/-- C19 fails as stated. The line "Address: 123456 Main St, Lisle" holds the run of
five digits 12345, yet the zip code is `null`; in the line
"Address: 1234567 Elm St, Lisle 60532" the first run of five digits is 12345, yet
the zip code is 60532. -/
theorem zip_not_first_digit_run :
    firstFiveDigits (trim "Address: 123456 Main St, Lisle".toList) = some "12345".toList ∧
      (parseEmailHtml (sampleOffer "123456 Main St, Lisle".toList)
        "<html>offer</html>".toList).zipCode = none ∧
      firstFiveDigits (trim "Address: 1234567 Elm St, Lisle 60532".toList) =
        some "12345".toList ∧
      (parseEmailHtml (sampleOffer "1234567 Elm St, Lisle 60532".toList)
        "<html>offer</html>".toList).zipCode = some "60532".toList := by
  decide

/-! ## Theorems: the body preview and the audit reason -/

theorem codeUnits_append (a b : Str) : codeUnits (a ++ b) = codeUnits a ++ codeUnits b := by
  induction a with
  | nil => rfl
  | cons c a ih =>
    show charUnits c ++ codeUnits (a ++ b) = charUnits c ++ codeUnits a ++ codeUnits b
    rw [ih, List.append_assoc]

theorem slice_zero (u : Utf16) (n : Nat) : slice u 0 n = u.take n := rfl

/-- In a text of the basic plane every character is one code unit, so a cut
after `n` code units is a cut after `n` characters. -/
theorem codeUnits_take (b : Str) (h : ∀ c ∈ b, c.toNat < 0x10000) (n : Nat) :
    (codeUnits b).take n = codeUnits (b.take n) := by
  induction b generalizing n with
  | nil => simp [codeUnits]
  | cons c b ih =>
    have hc : charUnits c = [c.toNat] := by
      unfold charUnits
      rw [if_pos (h c (List.mem_cons_self _ _))]
    cases n with
    | zero => simp [codeUnits]
    | succ n =>
      show (charUnits c ++ codeUnits b).take (n + 1) = charUnits c ++ codeUnits (b.take n)
      rw [hc, List.singleton_append, List.take_succ_cons,
        ih (fun d hd => h d (List.mem_cons_of_mem _ hd)) n]
      rfl

theorem visitAcceptLink_not_accepted (env : Env) (url : Str) (ja : Option Str)
    (w : World) (response : Response)
    (hget : env.axiosGet
      { calls := w.calls ++ [Call.visitAcceptLink url ja], errorLogs := w.errorLogs } url =
        Except.ok response)
    (hsink : ∀ w2 d, env.insertFails w2 d = none)
    (hacc : classifyOutcome (bodyTextOf env response) ≠ Outcome.accepted) :
    visitAcceptLink env url ja w =
      (Except.ok
        { httpStatus := some response.status, url := some (orStr response.responseUrl url),
          pageTitle := some (trim (env.cheerio.title response.data)),
          outcome := classifyOutcome (bodyTextOf env response),
          bodyPreview := some ((codeUnits (bodyTextOf env response)).take 500),
          error := none,
          errorLogId := some w.errorLogs.length, successLogId := none },
        { calls := w.calls ++
            [Call.visitAcceptLink url ja, Call.axiosGet url,
             Call.logError (tryErrorArgs env url ja response)],
          errorLogs := w.errorLogs ++
            [errorDoc
              (env.now { calls := w.calls ++ [Call.visitAcceptLink url ja, Call.axiosGet url],
                         errorLogs := w.errorLogs })
              (tryErrorArgs env url ja response)] }) := by
  unfold bodyTextOf at hacc
  simp only [visitAcceptLink, visitTry, hget, logError_ok _ _ _ (hsink _ _)]
  rw [if_pos hacc]
  simp only [List.append_assoc, List.cons_append, List.nil_append]
  rfl

theorem visitAcceptLink_accepted (env : Env) (url : Str) (ja : Option Str)
    (w : World) (response : Response)
    (hget : env.axiosGet
      { calls := w.calls ++ [Call.visitAcceptLink url ja], errorLogs := w.errorLogs } url =
        Except.ok response)
    (hsink : ∀ w2 d, env.insertFails w2 d = none)
    (hacc : classifyOutcome (bodyTextOf env response) = Outcome.accepted) :
    visitAcceptLink env url ja w =
      (Except.ok
        { httpStatus := some response.status, url := some (orStr response.responseUrl url),
          pageTitle := some (trim (env.cheerio.title response.data)),
          outcome := Outcome.accepted,
          bodyPreview := some ((codeUnits (bodyTextOf env response)).take 500),
          error := none,
          errorLogId := none, successLogId := some w.errorLogs.length },
        { calls := w.calls ++
            [Call.visitAcceptLink url ja, Call.axiosGet url,
             Call.logSuccess (trySuccessArgs env url ja response)],
          errorLogs := w.errorLogs ++
            [successDoc
              (env.now { calls := w.calls ++ [Call.visitAcceptLink url ja, Call.axiosGet url],
                         errorLogs := w.errorLogs })
              (trySuccessArgs env url ja response)] }) := by
  unfold bodyTextOf at hacc
  simp only [visitAcceptLink, visitTry, hget, hacc, logSuccess_ok _ _ _ (hsink _ _)]
  simp only [ne_eq, not_true_eq_false, if_false, List.append_assoc, List.cons_append,
    List.nil_append]
  rfl

theorem errorDoc_reason (ts : Str) (args : LogArgs) :
    (errorDoc ts args).field "reason" = some args.reason := rfl

/-- C20, as amended. For a response that arrives, with `b` the collapsed and
trimmed body text and a store that accepts the insert: the preview returned is
the first 500 UTF-16 code units of `b`, which is what `slice` counts; it is `b`
itself when `b` is no longer than that, and the first 500 characters of `b` when
`b` lies in the basic plane. When the outcome is `already_taken` the one entry
written is an error entry whose reason is "Job already taken or expired"; when
the outcome is `error` it is an error entry whose reason is "Unexpected
response: " followed by the first 200 code units of the preview; when the
outcome is `accepted` it is a success entry, with the preview and without reason
and raw HTML. -/
theorem preview_and_reason (env : Env) (url : Str) (ja : Option Str) (w : World)
    (response : Response)
    (hget : env.axiosGet
      { calls := w.calls ++ [Call.visitAcceptLink url ja], errorLogs := w.errorLogs } url =
        Except.ok response)
    (hsink : ∀ w2 d, env.insertFails w2 d = none) :
    ∃ r doc args,
      (visitAcceptLink env url ja w).1 = Except.ok r ∧
      r.outcome = classifyOutcome (bodyTextOf env response) ∧
      r.bodyPreview = some ((codeUnits (bodyTextOf env response)).take 500) ∧
      ((codeUnits (bodyTextOf env response)).length ≤ 500 →
        r.bodyPreview = some (codeUnits (bodyTextOf env response))) ∧
      ((∀ c ∈ bodyTextOf env response, c.toNat < 0x10000) →
        r.bodyPreview = some (codeUnits ((bodyTextOf env response).take 500))) ∧
      (visitAcceptLink env url ja w).2.errorLogs = w.errorLogs ++ [doc] ∧
      (r.outcome = Outcome.already_taken →
        (visitAcceptLink env url ja w).2.calls = w.calls ++
          [Call.visitAcceptLink url ja, Call.axiosGet url, Call.logError args] ∧
        args.reason = some (codeUnits "Job already taken or expired".toList) ∧
        doc.field "reason" = some (some (codeUnits "Job already taken or expired".toList))) ∧
      (r.outcome = Outcome.error →
        (visitAcceptLink env url ja w).2.calls = w.calls ++
          [Call.visitAcceptLink url ja, Call.axiosGet url, Call.logError args] ∧
        args.reason = some (codeUnits "Unexpected response: ".toList ++
          ((codeUnits (bodyTextOf env response)).take 500).take 200) ∧
        doc.field "reason" = some (some (codeUnits "Unexpected response: ".toList ++
          ((codeUnits (bodyTextOf env response)).take 500).take 200))) ∧
      (r.outcome = Outcome.accepted →
        (visitAcceptLink env url ja w).2.calls = w.calls ++
          [Call.visitAcceptLink url ja, Call.axiosGet url, Call.logSuccess args] ∧
        args.reason = none ∧ args.rawHtml = none ∧
        args.bodyPreview = some ((codeUnits (bodyTextOf env response)).take 500) ∧
        doc.field "type" = some (some (codeUnits "success".toList)) ∧
        doc.field "bodyPreview" =
          some (some ((codeUnits (bodyTextOf env response)).take 500)) ∧
        doc.field "reason" = none ∧ doc.field "rawHtml" = none) := by
  have htake : (codeUnits (bodyTextOf env response)).length ≤ 500 →
      some ((codeUnits (bodyTextOf env response)).take 500) =
        some (codeUnits (bodyTextOf env response)) :=
    fun h => by rw [List.take_of_length_le h]
  have hbmp : (∀ c ∈ bodyTextOf env response, c.toNat < 0x10000) →
      some ((codeUnits (bodyTextOf env response)).take 500) =
        some (codeUnits ((bodyTextOf env response).take 500)) :=
    fun h => by rw [codeUnits_take _ h]
  by_cases hacc : classifyOutcome (bodyTextOf env response) = Outcome.accepted
  · rw [visitAcceptLink_accepted env url ja w response hget hsink hacc]
    refine ⟨_, _, trySuccessArgs env url ja response, rfl, hacc.symm, rfl, htake, hbmp, rfl,
      ?_, ?_, ?_⟩
    · intro h; cases h
    · intro h; cases h
    · intro _
      exact ⟨rfl, rfl, rfl, rfl, rfl, rfl, rfl, rfl⟩
  · rw [visitAcceptLink_not_accepted env url ja w response hget hsink hacc]
    refine ⟨_, _, tryErrorArgs env url ja response, rfl, rfl, rfl, htake, hbmp, rfl,
      ?_, ?_, ?_⟩
    · intro h
      have h2 : classifyOutcome (bodyTextOf env response) = Outcome.already_taken := h
      have hr : (tryErrorArgs env url ja response).reason =
          some (codeUnits "Job already taken or expired".toList) := by
        unfold tryErrorArgs
        simp only [h2, if_true]
      refine ⟨rfl, hr, ?_⟩
      rw [errorDoc_reason, hr]
    · intro h
      have h2 : classifyOutcome (bodyTextOf env response) = Outcome.error := h
      have hr : (tryErrorArgs env url ja response).reason =
          some (codeUnits "Unexpected response: ".toList ++
            ((codeUnits (bodyTextOf env response)).take 500).take 200) := by
        unfold tryErrorArgs
        rw [h2]
        rfl
      refine ⟨rfl, hr, ?_⟩
      rw [errorDoc_reason, hr]
    · intro h
      exact absurd h hacc

theorem preview_and_reason_witness :
    ∃ r doc args,
      (visitAcceptLink takenEnv sampleUrl sampleAddress emptyWorld).1 = Except.ok r ∧
      r.outcome = classifyOutcome (bodyTextOf takenEnv takenResponse) ∧
      r.bodyPreview = some ((codeUnits (bodyTextOf takenEnv takenResponse)).take 500) ∧
      ((codeUnits (bodyTextOf takenEnv takenResponse)).length ≤ 500 →
        r.bodyPreview = some (codeUnits (bodyTextOf takenEnv takenResponse))) ∧
      ((∀ c ∈ bodyTextOf takenEnv takenResponse, c.toNat < 0x10000) →
        r.bodyPreview = some (codeUnits ((bodyTextOf takenEnv takenResponse).take 500))) ∧
      (visitAcceptLink takenEnv sampleUrl sampleAddress emptyWorld).2.errorLogs =
        emptyWorld.errorLogs ++ [doc] ∧
      (r.outcome = Outcome.already_taken →
        (visitAcceptLink takenEnv sampleUrl sampleAddress emptyWorld).2.calls =
          emptyWorld.calls ++
            [Call.visitAcceptLink sampleUrl sampleAddress, Call.axiosGet sampleUrl,
             Call.logError args] ∧
        args.reason = some (codeUnits "Job already taken or expired".toList) ∧
        doc.field "reason" = some (some (codeUnits "Job already taken or expired".toList))) ∧
      (r.outcome = Outcome.error →
        (visitAcceptLink takenEnv sampleUrl sampleAddress emptyWorld).2.calls =
          emptyWorld.calls ++
            [Call.visitAcceptLink sampleUrl sampleAddress, Call.axiosGet sampleUrl,
             Call.logError args] ∧
        args.reason = some (codeUnits "Unexpected response: ".toList ++
          ((codeUnits (bodyTextOf takenEnv takenResponse)).take 500).take 200) ∧
        doc.field "reason" = some (some (codeUnits "Unexpected response: ".toList ++
          ((codeUnits (bodyTextOf takenEnv takenResponse)).take 500).take 200))) ∧
      (r.outcome = Outcome.accepted →
        (visitAcceptLink takenEnv sampleUrl sampleAddress emptyWorld).2.calls =
          emptyWorld.calls ++
            [Call.visitAcceptLink sampleUrl sampleAddress, Call.axiosGet sampleUrl,
             Call.logSuccess args] ∧
        args.reason = none ∧ args.rawHtml = none ∧
        args.bodyPreview = some ((codeUnits (bodyTextOf takenEnv takenResponse)).take 500) ∧
        doc.field "type" = some (some (codeUnits "success".toList)) ∧
        doc.field "bodyPreview" =
          some (some ((codeUnits (bodyTextOf takenEnv takenResponse)).take 500)) ∧
        doc.field "reason" = none ∧ doc.field "rawHtml" = none) :=
  preview_and_reason takenEnv sampleUrl sampleAddress emptyWorld takenResponse rfl
    (fun _ _ => rfl)

/-- C20 fails as stated. The claim page arrives and says that the job has
already been taken, and the store refuses the first insert only: `logError`
throws in the `try` block, the `catch` block logs the failure, and the call
returns the outcome `error` without a preview. The one entry written has the
reason "Request failed: network — connection reset", which is neither "Job
already taken or expired" nor "Unexpected response: " followed by the preview. -/
theorem reason_after_failed_insert :
    classifyOutcome "This job has already been taken".toList = Outcome.already_taken ∧
    (visitAcceptLink
        (flakyStoreEnv (fixedPage "Sorry".toList "This job has already been taken".toList)
          (okResponse "<html>taken</html>".toList) "connection reset".toList)
        sampleUrl sampleAddress emptyWorld).1 =
      Except.ok
        { httpStatus := none, url := none, pageTitle := none, outcome := Outcome.error,
          bodyPreview := none, error := some "connection reset".toList,
          errorLogId := some 0, successLogId := none } ∧
    (visitAcceptLink
        (flakyStoreEnv (fixedPage "Sorry".toList "This job has already been taken".toList)
          (okResponse "<html>taken</html>".toList) "connection reset".toList)
        sampleUrl sampleAddress emptyWorld).2.errorLogs.map (fun d => d.field "reason") =
      [some (some (codeUnits "Request failed: network — connection reset".toList))] ∧
    codeUnits "Request failed: network — connection reset".toList ≠
      codeUnits "Job already taken or expired".toList ∧
    codeUnits "Request failed: network — connection reset".toList ≠
      codeUnits "Unexpected response: ".toList ++
        ((codeUnits "This job has already been taken".toList).take 500).take 200 := by
  refine ⟨by decide, rfl, by decide, by decide, by decide⟩

/-! ## Theorems: the representation of the dedupe set -/

section SeenSetRepresentation

variable {α : Type} [DecidableEq α]

/-- C21. After any sequence of `add` calls on a fresh set, whatever the capacity,
the array `order` has no duplicate entry and holds exactly the members of the set
`ids`, so `size` equals `order.length` and `has(id)` is true exactly for the
identifiers in `order`; and `has(id)` is true right after `add(id)`. -/
theorem representation_consistent (maxSize : Int) (xs : List α) :
    ((SeenSet.new maxSize : SeenSet α).addAll xs).order.Nodup ∧
      (∀ x, x ∈ ((SeenSet.new maxSize : SeenSet α).addAll xs).order ↔
        x ∈ ((SeenSet.new maxSize : SeenSet α).addAll xs).ids) ∧
      ((SeenSet.new maxSize : SeenSet α).addAll xs).ids.Nodup ∧
      ((SeenSet.new maxSize : SeenSet α).addAll xs).size =
        ((SeenSet.new maxSize : SeenSet α).addAll xs).order.length ∧
      (∀ x, ((SeenSet.new maxSize : SeenSet α).addAll xs).has x = true ↔
        x ∈ ((SeenSet.new maxSize : SeenSet α).addAll xs).order) ∧
      (∀ id, (((SeenSet.new maxSize : SeenSet α).addAll xs).add id).has id = true) := by
  obtain ⟨b1, b2, _, _⟩ := addAll_invariant xs (SeenSet.new maxSize : SeenSet α) rfl
    List.nodup_nil (by simp [SeenSet.new])
  refine ⟨b2, fun x => by rw [b1], by rw [b1]; exact b2, by rw [SeenSet.size, b1], ?_, ?_⟩
  · intro x
    rw [SeenSet.has, b1]
    simp
  · intro id
    exact add_contains _ id

end SeenSetRepresentation

end ApmenHook
